import Mathlib

/-!
# Lake Formation resource LF-tags: a verification development

A shallow embedding of `internal/service/lakeformation/resource_lf_tags.go`
and theorems about its dispatcher, its expand/flatten mappings and its
create / read / delete handlers.

Conventions of the embedding:

* a Go pointer `*T` is `Option T` (`none` is the nil pointer);
* a Go slice `[]T` is `Slice T = Option (List T)`: `none` is the nil slice,
  `some []` the empty non-nil slice;
* a Go `map[string]interface{}` is a function `String → Option Val`
  (two maps are equal exactly when they agree on every key), and a possibly
  nil map is an `Option` of it;
* a run-time panic (index out of range, failed type assertion, nil
  dereference) is the `error` case of `Except Panic`.
-/

namespace LakeFormation

/-! ## Go values -/

/-- Run-time panics of the Go code. -/
inductive Panic where
  | indexOutOfRange
  | typeAssertion
  | nilDereference
  deriving DecidableEq, Repr

/-- A Go slice: `none` is the nil slice. -/
abbrev Slice (α : Type) := Option (List α)

namespace Slice

/-- The elements of a slice, nil having none. -/
def toList {α : Type} (s : Slice α) : List α := s.getD []

/-- Go `len`. -/
def len {α : Type} (s : Slice α) : Nat := (toList s).length

/-- Go `append(s, x)`: the result is never nil. -/
def append {α : Type} (s : Slice α) (x : α) : Slice α := some (toList s ++ [x])

end Slice

/-- A value of type `interface{}` as the schema framework hands it out:
the nil interface, a string, a bool, a list, or a `map[string]interface{}`
(which may itself be a nil map). -/
inductive Val where
  | nil
  | str (s : String)
  | bool (b : Bool)
  | list (xs : List Val)
  | map (m : Option (String → Option Val))

/-- A non-nil `map[string]interface{}`. -/
abbrev TfMap := String → Option Val

namespace TfMap

/-- The map literal `map[string]interface{}{}`. -/
def empty : TfMap := fun _ => none

/-- The assignment `m[k] = v`. -/
def set (m : TfMap) (k : String) (v : Val) : TfMap :=
  fun k' => if k' = k then some v else m k'

end TfMap

/-- Whether an `interface{}` differs from nil (`v != nil`). A typed nil map
stored in an interface is not the nil interface. -/
def Val.isNil : Val → Bool
  | .nil => true
  | _ => false

/-- The type assertion `v.(string)` in its two-result form. -/
def Val.asString : Option Val → Option String
  | some (.str s) => some s
  | _ => none

/-! ## Diagnostics -/

/-- Severity of a diagnostic. -/
inductive Severity where
  | Error
  | Warning
  deriving DecidableEq, Repr

/-- Remote (vendor) errors as returned by an API call: an `awserr.Error`
with its code and message, or any other error value. -/
inductive RemoteError where
  | aws (code message : String)
  | other (text : String)
  deriving DecidableEq, Repr

/-- Error values handled by the resource code: a vendor error, an error
wrapped by `fmt.Errorf("<text>: %w", err)`, or the timeout error of the retry
helper. -/
inductive GoError where
  | vendor (e : RemoteError)
  | wrapf (text : String) (inner : GoError)
  | timeout
  deriving DecidableEq, Repr

/-- The action names of package `create` used by this resource
(`create.ErrActionCreating`, `create.ErrActionReading`,
`create.ErrActionDeleting`, `create.ErrActionSetting`). -/
inductive ErrAction where
  | Creating
  | Reading
  | Deleting
  | Setting
  deriving DecidableEq, Repr

/-- A diagnostic, recorded by the helper call that produced it together with
the arguments of that call (the service argument is `names.LakeFormation`
at every call site and is left out):
`errs.NewErrorDiagnostic(summary, detail)`,
`create.AddError(diags, service, action, resource, id, err)` and
`create.AddWarningMessage(diags, service, action, resource, id, message)`. -/
inductive Diagnostic where
  | newErrorDiagnostic (summary detail : String)
  | addError (action : ErrAction) (resource id : String) (err : GoError)
  | addWarningMessage (action : ErrAction) (resource id message : String)
  deriving DecidableEq, Repr

/-- Modelled from the spec: the severity each helper gives its diagnostic. The
helpers of packages `create` and `errs` are defined elsewhere in the
repository: `AddError` and `NewErrorDiagnostic` make error diagnostics (errors
are "surfaced as fatal to the calling operation"), `AddWarningMessage` makes a
warning. -/
def Diagnostic.severity : Diagnostic → Severity
  | .newErrorDiagnostic _ _ => .Error
  | .addError _ _ _ _ => .Error
  | .addWarningMessage _ _ _ _ => .Warning

/-- The list type `diag.Diagnostics`. -/
abbrev Diagnostics := List Diagnostic

/-- The method `diags.HasError()`. -/
def Diagnostics.HasError (diags : Diagnostics) : Bool :=
  diags.any (fun x => x.severity = Severity.Error)

/-! ## Resource data -/

/-- The state of one `aws_lakeformation_resource_lf_tags` resource as seen
through `*schema.ResourceData`: the resource ID and the value of each
top-level attribute of the schema. `lf_tag` holds the elements of the set in
the order of `(*schema.Set).List()`. -/
structure ResourceData where
  id : String
  catalog_id : String
  database : List Val
  lf_tag : List Val
  table : List Val
  table_with_columns : List Val
  timeoutCreate : Option Nat := none
  timeoutDelete : Option Nat := none

/-- The three list-typed blocks read by the dispatcher. Each is declared
`TypeList` in the schema, so `d.Get(key).([]interface{})` always succeeds and
the getters below are typed accordingly. -/
inductive Block where
  | database
  | table
  | table_with_columns
  deriving DecidableEq, Repr

/-- The call `d.Get(key)` for a list block. -/
def ResourceData.Get (d : ResourceData) : Block → List Val
  | .database => d.database
  | .table => d.table
  | .table_with_columns => d.table_with_columns

/-- The call `d.GetOk(key)` for a list block: the value, and whether it
differs from the zero value of its type (the empty list). -/
def ResourceData.GetOk (d : ResourceData) (k : Block) : List Val × Bool :=
  (d.Get k, !(d.Get k).isEmpty)

/-- The call `d.GetOk("catalog_id")`: the string, and whether it differs from
the zero value `""`. -/
def ResourceData.GetOk_catalog_id (d : ResourceData) : String × Bool :=
  (d.catalog_id, decide (d.catalog_id ≠ ""))

/-- The call `d.GetOk("lf_tag")`: the elements of the set, and whether the set
differs from the empty set. -/
def ResourceData.GetOk_lf_tag (d : ResourceData) : List Val × Bool :=
  (d.lf_tag, !d.lf_tag.isEmpty)

/-- The call `d.SetId(id)`. -/
def ResourceData.SetId (d : ResourceData) (id : String) : ResourceData :=
  { d with id := id }

/-- The call `d.Id()`. -/
def ResourceData.Id (d : ResourceData) : String := d.id

/-! ## The dispatcher -/

/-- The three implementations of the `tagger` interface. -/
inductive Tagger where
  | databaseTagger
  | tableTagger
  | columnTagger
  deriving DecidableEq, Repr

/-- The guard `ok && len(v.([]interface{})) > 0 && v.([]interface{})[0] != nil`
of the dispatcher, for the result `(v, ok)` of `d.GetOk`. -/
def blockGuard (r : List Val × Bool) : Bool :=
  r.2 && decide (r.1.length > 0) &&
    (match r.1.head? with
     | some v => !v.isNil
     | none => false)

/-- The diagnostic of the dispatcher's final branch. -/
def invalidResourceType : Diagnostic :=
  .newErrorDiagnostic "Invalid Lake Formation Resource Type"
    ("An unexpected error occurred while resolving the Lake Formation Resource type. " ++
      "This is always an error in the provider. " ++
      "Please report the following to the provider developer:\n\n" ++
      "No Lake Formation Resource defined.")

/-- The function `lfTagsTagger`: the tagger (nil on failure) and the
diagnostics. -/
def lfTagsTagger (d : ResourceData) : Option Tagger × Diagnostics :=
  let diags : Diagnostics := []
  if blockGuard (d.GetOk .database) then
    (some .databaseTagger, diags)
  else if blockGuard (d.GetOk .table) then
    (some .tableTagger, diags)
  else if blockGuard (d.GetOk .table_with_columns) then
    (some .columnTagger, diags)
  else
    (none, diags ++ [invalidResourceType])

/-! ## API shapes -/

/-- The SDK type `lakeformation.LFTagPair`. -/
structure LFTagPair where
  CatalogId : Option String := none
  TagKey : Option String := none
  TagValues : Slice (Option String) := none
  deriving DecidableEq, Repr

/-- The SDK type `lakeformation.DatabaseResource`. -/
structure DatabaseResource where
  CatalogId : Option String := none
  Name : Option String := none
  deriving DecidableEq, Repr

/-- The SDK type `lakeformation.TableResource`; `TableWildcard` points to an
empty struct. -/
structure TableResource where
  CatalogId : Option String := none
  DatabaseName : Option String := none
  Name : Option String := none
  TableWildcard : Option Unit := none
  deriving DecidableEq, Repr

/-- The SDK type `lakeformation.TableWithColumnsResource`; `ColumnWildcard`
points to a struct holding the excluded column names. -/
structure TableWithColumnsResource where
  CatalogId : Option String := none
  ColumnNames : Slice (Option String) := none
  ColumnWildcard : Option (Slice (Option String)) := none
  DatabaseName : Option String := none
  Name : Option String := none
  deriving DecidableEq, Repr

/-- The SDK type `lakeformation.Resource`. The payload of the five targets
this resource never builds is not modelled. -/
structure Resource where
  Catalog : Option Unit := none
  DataCellsFilter : Option Unit := none
  DataLocation : Option Unit := none
  Database : Option DatabaseResource := none
  LFTag : Option Unit := none
  LFTagPolicy : Option Unit := none
  Table : Option TableResource := none
  TableWithColumns : Option TableWithColumnsResource := none
  deriving DecidableEq, Repr

/-- The SDK type `lakeformation.AddLFTagsToResourceInput`. -/
structure AddLFTagsToResourceInput where
  CatalogId : Option String := none
  LFTags : Slice (Option LFTagPair) := none
  Resource : Option Resource := none
  deriving DecidableEq, Repr

/-- The SDK type `lakeformation.GetResourceLFTagsInput`. -/
structure GetResourceLFTagsInput where
  CatalogId : Option String := none
  Resource : Option Resource := none
  ShowAssignedLFTags : Option Bool := none
  deriving DecidableEq, Repr

/-- The SDK type `lakeformation.RemoveLFTagsFromResourceInput`. -/
structure RemoveLFTagsFromResourceInput where
  CatalogId : Option String := none
  LFTags : Slice (Option LFTagPair) := none
  Resource : Option Resource := none
  deriving DecidableEq, Repr

/-- The SDK type `lakeformation.ErrorDetail`. -/
structure ErrorDetail where
  ErrorCode : Option String := none
  ErrorMessage : Option String := none
  deriving DecidableEq, Repr

/-- The SDK type `lakeformation.LFTagError`. -/
structure LFTagError where
  Error : Option ErrorDetail := none
  LFTag : Option LFTagPair := none
  deriving DecidableEq, Repr

/-- The SDK type `lakeformation.AddLFTagsToResourceOutput`. -/
structure AddLFTagsToResourceOutput where
  Failures : Slice (Option LFTagError) := none
  deriving DecidableEq, Repr

/-- The SDK type `lakeformation.ColumnLFTag`. -/
structure ColumnLFTag where
  LFTags : Slice (Option LFTagPair) := none
  Name : Option String := none
  deriving DecidableEq, Repr

/-- The SDK type `lakeformation.GetResourceLFTagsOutput`. -/
structure GetResourceLFTagsOutput where
  LFTagOnDatabase : Slice (Option LFTagPair) := none
  LFTagsOnColumns : Slice (Option ColumnLFTag) := none
  LFTagsOnTable : Slice (Option LFTagPair) := none
  deriving DecidableEq, Repr

/-- One remote call: the operation and the request it was sent. -/
inductive Call where
  | AddLFTagsToResource (input : AddLFTagsToResourceInput)
  | GetResourceLFTags (input : GetResourceLFTagsInput)
  | RemoveLFTagsFromResource (input : RemoveLFTagsFromResourceInput)
  deriving DecidableEq, Repr

/-- The helper `aws.StringValue`. -/
def StringValue (p : Option String) : String := p.getD ""

/-- The helper `aws.StringValueSlice`. -/
def StringValueSlice (s : Slice (Option String)) : List String :=
  (Slice.toList s).map StringValue

/-- The helper `aws.StringSlice`. -/
def StringSlice (l : List String) : Slice (Option String) := some (l.map some)

/-! ## Expand and flatten of tag pairs -/

/-- The function `expandLFTagPair`. -/
def expandLFTagPair : Option TfMap → Option LFTagPair
  | none => none
  | some tfMap =>
    let apiObject : LFTagPair := {}
    let apiObject :=
      match Val.asString (tfMap "catalog_id") with
      | some v => if v ≠ "" then { apiObject with CatalogId := some v } else apiObject
      | none => apiObject
    let apiObject :=
      match Val.asString (tfMap "key") with
      | some v => if v ≠ "" then { apiObject with TagKey := some v } else apiObject
      | none => apiObject
    let apiObject :=
      match Val.asString (tfMap "value") with
      | some v => if v ≠ "" then { apiObject with TagValues := StringSlice [v] } else apiObject
      | none => apiObject
    some apiObject

/-- One iteration of the loop of `expandLFTagPairs`. -/
def expandLFTagPairs.step (apiObjects : Slice (Option LFTagPair)) (tfMapRaw : Val) :
    Slice (Option LFTagPair) :=
  match tfMapRaw with
  | .map tfMap =>
    match expandLFTagPair tfMap with
    | none => apiObjects
    | some apiObject => Slice.append apiObjects (some apiObject)
  | _ => apiObjects

/-- The function `expandLFTagPairs`. -/
def expandLFTagPairs (tfList : Slice Val) : Slice (Option LFTagPair) :=
  if Slice.len tfList = 0 then none
  else (Slice.toList tfList).foldl expandLFTagPairs.step none

/-- The function `flattenLFTagPair`. -/
def flattenLFTagPair : Option LFTagPair → Option TfMap
  | none => none
  | some apiObject =>
    let tfMap : TfMap := TfMap.empty
    let tfMap :=
      match apiObject.CatalogId with
      | some v => tfMap.set "catalog_id" (.str (StringValue (some v)))
      | none => tfMap
    let tfMap :=
      match apiObject.TagKey with
      | some v => tfMap.set "key" (.str (StringValue (some v)))
      | none => tfMap
    let tfMap :=
      match Slice.toList apiObject.TagValues with
      | v0 :: _ => tfMap.set "value" (.str (StringValue v0))
      | [] => tfMap
    some tfMap

/-- One iteration of the loop of `flattenLFTagPairs`. -/
def flattenLFTagPairs.step (tfList : Slice Val) (apiObject : Option LFTagPair) : Slice Val :=
  match apiObject with
  | none => tfList
  | some a => Slice.append tfList (.map (flattenLFTagPair (some a)))

/-- The function `flattenLFTagPairs`. -/
def flattenLFTagPairs (apiObjects : Slice (Option LFTagPair)) : Slice Val :=
  if Slice.len apiObjects = 0 then none
  else (Slice.toList apiObjects).foldl flattenLFTagPairs.step none

/-! ## Environment -/

/-- A `time.Duration`, in nanoseconds. -/
abbrev Duration := Nat

/-- The constant `time.Minute`. -/
def Minute : Duration := 60 * 1000000000

/-- What the handlers use and this file does not define: the expanders of the
three target blocks (defined elsewhere in the package), the hash and the
request serialisation behind the resource ID, the package constant
`IAMPropagationTimeout`, the framework writer behind `d.Set("lf_tag", v)`
(the value read back afterwards, or an error), the number of attempts of a
retry loop that complete within a given timeout, and the remote service. The
remote service answers the attempt with a given index (the number of earlier
calls of that operation in the same handler run) to a given request. -/
structure Env where
  ExpandDatabaseResource : Option TfMap → Option DatabaseResource
  ExpandTableResource : Option TfMap → Option TableResource
  expandTableColumnsResource : Option TfMap → Option TableWithColumnsResource
  StringHashcode : String → Int
  inputString : AddLFTagsToResourceInput → String
  IAMPropagationTimeout : Duration
  Set_lf_tag : Slice Val → Except GoError (List Val)
  attemptsWithin : Duration → Nat
  AddLFTagsToResourceWithContext :
    Nat → AddLFTagsToResourceInput → Except RemoteError (Option AddLFTagsToResourceOutput)
  GetResourceLFTagsWithContext :
    GetResourceLFTagsInput → Except RemoteError (Option GetResourceLFTagsOutput)
  RemoveLFTagsFromResourceWithContext :
    Nat → RemoveLFTagsFromResourceInput → Except RemoteError Unit

/-- The timeouts declared by `ResourceResourceLFTags`:
`schema.DefaultTimeout(20 * time.Minute)` for create and for delete. -/
inductive TimeoutKey where
  | TimeoutCreate
  | TimeoutDelete
  deriving DecidableEq, Repr

/-- The default of each declared timeout. -/
def defaultTimeout : TimeoutKey → Duration
  | .TimeoutCreate => 20 * Minute
  | .TimeoutDelete => 20 * Minute

/-- The call `d.Timeout(key)`: the timeout configured for the resource, or the
declared default. -/
def ResourceData.Timeout (d : ResourceData) : TimeoutKey → Duration
  | .TimeoutCreate => d.timeoutCreate.getD (defaultTimeout .TimeoutCreate)
  | .TimeoutDelete => d.timeoutDelete.getD (defaultTimeout .TimeoutDelete)

/-! ## The taggers -/

/-- The expression `l[0].(map[string]any)`: indexing panics on the empty list
and the type assertion panics on anything that is not a map. -/
def firstMap (l : List Val) : Except Panic (Option TfMap) :=
  match l with
  | [] => .error .indexOutOfRange
  | .map m :: _ => .ok m
  | _ :: _ => .error .typeAssertion

/-- The three `ExpandResource` methods. -/
def Tagger.ExpandResource (env : Env) (t : Tagger) (d : ResourceData) :
    Except Panic (Option Resource) :=
  match t with
  | .databaseTagger =>
    match firstMap (d.Get .database) with
    | .error p => .error p
    | .ok v => .ok (some { Database := env.ExpandDatabaseResource v })
  | .tableTagger =>
    match firstMap (d.Get .table) with
    | .error p => .error p
    | .ok v => .ok (some { Table := env.ExpandTableResource v })
  | .columnTagger =>
    match firstMap (d.Get .table_with_columns) with
    | .error p => .error p
    | .ok v => .ok (some { TableWithColumns := env.expandTableColumnsResource v })

/-- The three `FlattenTags` methods. -/
def Tagger.FlattenTags (t : Tagger) (output : GetResourceLFTagsOutput) : Slice Val :=
  match t with
  | .databaseTagger => flattenLFTagPairs output.LFTagOnDatabase
  | .tableTagger => flattenLFTagPairs output.LFTagsOnTable
  | .columnTagger =>
    match Slice.toList output.LFTagsOnColumns with
    | [] => some []
    | none :: _ => some []
    | some tags :: _ => flattenLFTagPairs tags.LFTags

/-- A method call on the interface value returned by the dispatcher: calling
a method of a nil interface panics. -/
def callExpandResource (env : Env) (t : Option Tagger) (d : ResourceData) :
    Except Panic (Option Resource) :=
  match t with
  | none => .error .nilDereference
  | some t => t.ExpandResource env d

/-! ## Error classification and retrying -/

/-- The constant `lakeformation.ErrCodeConcurrentModificationException`. -/
def ErrCodeConcurrentModificationException : String := "ConcurrentModificationException"

/-- The constant `lakeformation.ErrCodeEntityNotFoundException`, the code of
the service's not-found error. -/
def ErrCodeEntityNotFoundException : String := "EntityNotFoundException"

/-- The test `strings.Contains(s, sub)`. -/
def stringsContains (s sub : String) : Bool := decide (sub.toList <:+: s.toList)

/-- The helper `tfawserr.ErrCodeEquals`: the first `awserr.Error` of the chain
has the given code. -/
def ErrCodeEquals : GoError → String → Bool
  | .vendor (.aws c _), code => c == code
  | .vendor (.other _), _ => false
  | .wrapf _ inner, code => ErrCodeEquals inner code
  | .timeout, _ => false

/-- The helper `tfawserr.ErrMessageContains`: the first `awserr.Error` of the
chain has the given code and its message contains the given text. -/
def ErrMessageContains : GoError → String → String → Bool
  | .vendor (.aws c m), code, message => c == code && stringsContains m message
  | .vendor (.other _), _, _ => false
  | .wrapf _ inner, code, message => ErrMessageContains inner code message
  | .timeout, _, _ => false

/-- The type `retry.RetryError`. -/
structure RetryError where
  Err : GoError
  Retryable : Bool
  deriving DecidableEq, Repr

/-- The constructor `retry.RetryableError`. -/
def RetryableError (err : GoError) : RetryError := { Err := err, Retryable := true }

/-- The constructor `retry.NonRetryableError`. -/
def NonRetryableError (err : GoError) : RetryError := { Err := err, Retryable := false }

/-- Modelled from the spec: the retry helper `retry.RetryContext`, which is
not defined in this file. The closure `f` (a transition on the variables it
captures, with its result) is run again as long as it returns a retryable
error and attempts remain within the timeout; a nil result ends the loop with
nil, a non-retryable error ends it with that error, and running out of
attempts ends it with the timeout error ("retried until a fixed timeout"). -/
def RetryContext.loop {σ : Type} (f : σ → σ × Option RetryError) :
    Nat → σ → Option GoError × σ
  | 0, s => (some GoError.timeout, s)
  | n + 1, s =>
    match f s with
    | (s', none) => (none, s')
    | (s', some rerr) =>
      if rerr.Retryable then RetryContext.loop f n s' else (some rerr.Err, s')

/-- Modelled from the spec: `retry.RetryContext(ctx, timeout, f)`, with the
number of attempts that fit in the timeout taken from the environment. -/
def RetryContext {σ : Type} (env : Env) (timeout : Duration)
    (f : σ → σ × Option RetryError) (s : σ) : Option GoError × σ :=
  RetryContext.loop f (env.attemptsWithin timeout) s

/-- Modelled from the spec: the helper `tfresource.TimedOut`, which is not
defined in this file: it holds of the error with which a retry loop ends at
its timeout, and of no other error ("retried until a fixed timeout then
attempted once more"). -/
def TimedOut : Option GoError → Bool
  | some .timeout => true
  | _ => false

/-! ## The handlers -/

/-- The constant `ResNameLFTags`. -/
def ResNameLFTags : String := "Resource LF Tags"

/-- The result of a handler run: the resource data afterwards, the
diagnostics returned, and the remote calls issued, in order. -/
structure Outcome where
  d : ResourceData
  diags : Diagnostics
  calls : List Call

/-- The variables captured by the retry closure of create: the `output`
variable and the remote calls issued so far. On an error the response is not
used by the code and is recorded as nil. -/
structure CreateVars where
  output : Option AddLFTagsToResourceOutput
  calls : List Call

/-- The statement `output, err = conn.AddLFTagsToResourceWithContext(ctx, input)`. -/
def callAddLFTagsToResource (env : Env) (input : AddLFTagsToResourceInput)
    (s : CreateVars) : CreateVars × Option GoError :=
  match env.AddLFTagsToResourceWithContext s.calls.length input with
  | .ok output => ({ output := output, calls := s.calls ++ [.AddLFTagsToResource input] }, none)
  | .error e => ({ output := none, calls := s.calls ++ [.AddLFTagsToResource input] },
      some (.vendor e))

/-- The classification made by the retry closure of create once the call has
returned `err` (lines 252-262). -/
def createRetryResult (err : Option GoError) : Option RetryError :=
  match err with
  | some err =>
    if ErrCodeEquals err ErrCodeConcurrentModificationException then
      some (RetryableError err)
    else if ErrMessageContains err "AccessDeniedException" "is not authorized" then
      some (RetryableError err)
    else
      some (NonRetryableError err)
  | none => none

/-- The retry closure of create (lines 249-263). -/
def createRetryFunc (env : Env) (input : AddLFTagsToResourceInput)
    (s : CreateVars) : CreateVars × Option RetryError :=
  let r := callAddLFTagsToResource env input s
  (r.1, createRetryResult r.2)

/-- The tagging call of create with its retry loop and the attempt that
follows a timeout (lines 248-267): the captured variables and `err`. -/
def addLFTagsWithRetry (env : Env) (input : AddLFTagsToResourceInput) :
    CreateVars × Option GoError :=
  let r := RetryContext env env.IAMPropagationTimeout (createRetryFunc env input)
    { output := none, calls := [] }
  if TimedOut r.1 then
    callAddLFTagsToResource env input r.2
  else
    (r.2, r.1)

/-- The ID argument of the diagnostic of one failure,
`fmt.Sprintf("catalog id:%s, tag key:%s, values:%+v", ...)`. -/
def failureId (t : LFTagPair) : String :=
  "catalog id:" ++ StringValue t.CatalogId ++ ", tag key:" ++ StringValue t.TagKey ++
    ", values:[" ++ " ".intercalate (StringValueSlice t.TagValues) ++ "]"

/-- The loop over `output.Failures` of create (lines 274-286). Reading a field
of a nil element panics. -/
def failureDiags : List (Option LFTagError) → Diagnostics → Except Panic Diagnostics
  | [], diags => .ok diags
  | none :: _, _ => .error .nilDereference
  | some v :: rest, diags =>
    match v.LFTag, v.Error with
    | some t, some e =>
      failureDiags rest (diags ++ [.addError .Creating ResNameLFTags (failureId t)
        (.vendor (.aws (StringValue e.ErrorCode) (StringValue e.ErrorMessage)))])
    | _, _ => failureDiags rest diags

/-- The statement `if output != nil && len(output.Failures) > 0 { ... }` of
create (lines 273-287). -/
def collectFailures (output : Option AddLFTagsToResourceOutput) (diags : Diagnostics) :
    Except Panic Diagnostics :=
  match output with
  | some o => if Slice.len o.Failures > 0 then failureDiags (Slice.toList o.Failures) diags
      else .ok diags
  | none => .ok diags

/-- The call `tagger.FlattenTags(output)` of read: `output` is dereferenced. -/
def callFlattenTags (t : Tagger) (output : Option GetResourceLFTagsOutput) :
    Except Panic (Slice Val) :=
  match output with
  | none => .error .nilDereference
  | some o => .ok (t.FlattenTags o)

/-- The handler `resourceResourceLFTagsRead`. -/
def resourceResourceLFTagsRead (env : Env) (d : ResourceData) : Except Panic Outcome :=
  let diags : Diagnostics := []
  let input : GetResourceLFTagsInput := { ShowAssignedLFTags := some true }
  let input := if d.GetOk_catalog_id.2 then
    { input with CatalogId := some d.GetOk_catalog_id.1 } else input
  let diags := diags ++ (lfTagsTagger d).2
  if diags.HasError then .ok { d := d, diags := diags, calls := [] } else
  match (lfTagsTagger d).1 with
  | none => .error .nilDereference
  | some tagger =>
    match tagger.ExpandResource env d with
    | .error p => .error p
    | .ok resource =>
      let input := { input with Resource := resource }
      match env.GetResourceLFTagsWithContext input with
      | .error err =>
        .ok { d := d
              diags := diags ++ [.addError .Reading ResNameLFTags d.Id (.vendor err)]
              calls := [.GetResourceLFTags input] }
      | .ok output =>
        match callFlattenTags tagger output with
        | .error p => .error p
        | .ok v =>
          match env.Set_lf_tag v with
          | .error err =>
            .ok { d := d
                  diags := diags ++ [.addError .Setting ResNameLFTags d.Id err]
                  calls := [.GetResourceLFTags input] }
          | .ok l =>
            .ok { d := { d with lf_tag := l }, diags := diags
                  calls := [.GetResourceLFTags input] }

/-- The handler `resourceResourceLFTagsCreate`. -/
def resourceResourceLFTagsCreate (env : Env) (d : ResourceData) : Except Panic Outcome :=
  let diags : Diagnostics := []
  let input : AddLFTagsToResourceInput := {}
  let input := if d.GetOk_catalog_id.2 then
    { input with CatalogId := some d.GetOk_catalog_id.1 } else input
  let input := if d.GetOk_lf_tag.2 && decide (d.GetOk_lf_tag.1.length > 0) then
    { input with LFTags := expandLFTagPairs (some d.GetOk_lf_tag.1) } else input
  let diags := diags ++ (lfTagsTagger d).2
  if diags.HasError then .ok { d := d, diags := diags, calls := [] } else
  match callExpandResource env (lfTagsTagger d).1 d with
  | .error p => .error p
  | .ok resource =>
    let input := { input with Resource := resource }
    match addLFTagsWithRetry env input with
    | (s, some err) =>
      .ok { d := d
            diags := diags ++ [.addError .Creating ResNameLFTags (env.inputString input) err]
            calls := s.calls }
    | (s, none) =>
      match collectFailures s.output diags with
      | .error p => .error p
      | .ok diags =>
        if diags.HasError then .ok { d := d, diags := diags, calls := s.calls } else
        let d := d.SetId (toString (env.StringHashcode (env.inputString input)))
        match resourceResourceLFTagsRead env d with
        | .error p => .error p
        | .ok r => .ok { d := r.d, diags := diags ++ r.diags, calls := s.calls ++ r.calls }

/-- The statement `_, err = conn.RemoveLFTagsFromResourceWithContext(ctx, input)`,
on the list of remote calls issued so far. -/
def callRemoveLFTagsFromResource (env : Env) (input : RemoveLFTagsFromResourceInput)
    (calls : List Call) : List Call × Option GoError :=
  match env.RemoveLFTagsFromResourceWithContext calls.length input with
  | .ok _ => (calls ++ [.RemoveLFTagsFromResource input], none)
  | .error e => (calls ++ [.RemoveLFTagsFromResource input], some (.vendor e))

/-- The classification made by the retry closure of delete once the call has
returned `err` (lines 362-372). -/
def deleteRetryResult (err : Option GoError) : Option RetryError :=
  match err with
  | some err =>
    if ErrCodeEquals err ErrCodeConcurrentModificationException then
      some (RetryableError err)
    else if ErrMessageContains err "AccessDeniedException" "is not authorized" then
      some (RetryableError err)
    else
      some (NonRetryableError (.wrapf "removing Lake Formation LF-Tags" err))
  | none => none

/-- The retry closure of delete (lines 359-373). -/
def deleteRetryFunc (env : Env) (input : RemoveLFTagsFromResourceInput)
    (calls : List Call) : List Call × Option RetryError :=
  let r := callRemoveLFTagsFromResource env input calls
  (r.1, deleteRetryResult r.2)

/-- The removing call of delete with its retry loop and the attempt that
follows a timeout (lines 359-377): `err` and the remote calls issued. -/
def removeLFTagsWithRetry (env : Env) (d : ResourceData)
    (input : RemoveLFTagsFromResourceInput) : List Call × Option GoError :=
  let r := RetryContext env (d.Timeout .TimeoutDelete) (deleteRetryFunc env input) []
  if TimedOut r.1 then
    callRemoveLFTagsFromResource env input r.2
  else
    (r.2, r.1)

/-- The handler `resourceResourceLFTagsDelete`. -/
def resourceResourceLFTagsDelete (env : Env) (d : ResourceData) : Except Panic Outcome :=
  let diags : Diagnostics := []
  let input : RemoveLFTagsFromResourceInput := {}
  let input := if d.GetOk_catalog_id.2 then
    { input with CatalogId := some d.GetOk_catalog_id.1 } else input
  let input := if d.GetOk_lf_tag.2 && decide (d.GetOk_lf_tag.1.length > 0) then
    { input with LFTags := expandLFTagPairs (some d.GetOk_lf_tag.1) } else input
  let diags := diags ++ (lfTagsTagger d).2
  if diags.HasError then .ok { d := d, diags := diags, calls := [] } else
  match callExpandResource env (lfTagsTagger d).1 d with
  | .error p => .error p
  | .ok resource =>
    let input := { input with Resource := resource }
    if input.Resource = none ∨ input.Resource = some {} ∨ Slice.len input.LFTags = 0 then
      .ok { d := d
            diags := diags ++
              [.addWarningMessage .Setting ResNameLFTags d.Id "no LF-Tags to remove"]
            calls := [] }
    else
      match removeLFTagsWithRetry env d input with
      | (calls, some err) =>
        .ok { d := d
              diags := diags ++ [.addError .Deleting ResNameLFTags d.Id err]
              calls := calls }
      | (calls, none) => .ok { d := d, diags := diags, calls := calls }

/-! ## The set hash of a tag -/

/-- The single-result type assertion `v.(string)`, which panics on anything
that is not a string (a missing map entry included). -/
def Val.mustString : Option Val → Except Panic String
  | some (.str s) => .ok s
  | _ => .error .typeAssertion

/-- The index expression `m[k]` on a possibly nil map: a nil map has no
entries. -/
def mapIndex (m : Option TfMap) (k : String) : Option Val :=
  match m with
  | none => none
  | some tf => tf k

/-- The function `lfTagsHash`, the `Set` function of the `lf_tag` attribute. -/
def lfTagsHash (env : Env) (v : Val) : Except Panic Int :=
  match v with
  | .map m =>
    match Val.mustString (mapIndex m "key") with
    | .error p => .error p
    | .ok key =>
      match Val.mustString (mapIndex m "value") with
      | .error p => .error p
      | .ok value =>
        match Val.mustString (mapIndex m "catalog_id") with
        | .error p => .error p
        | .ok catalog_id => .ok (env.StringHashcode (key ++ value ++ catalog_id))
  | _ => .ok 0

/-! ## The schema -/

/-- The value types of the schema framework used by this resource. -/
inductive ValueType where
  | TypeBool
  | TypeString
  | TypeList
  | TypeSet
  deriving DecidableEq, Repr

/-- The validation functions named in the schema. -/
inductive ValidateFunc where
  | ValidAccountID
  | StringLenBetween (min max : Nat)
  | validateLFTagValues
  | NoZeroValues
  deriving DecidableEq, Repr

/-- The set functions named in the schema. -/
inductive SetFunc where
  | lfTagsHash
  | HashString
  deriving DecidableEq, Repr

/-- The fields of `schema.Schema` this resource sets, apart from `Elem`; a
field that is not written in the source has its zero value. The field `Type`
is named `Type_`. -/
structure SchemaFields where
  Type_ : ValueType
  Computed : Bool := false
  ForceNew : Bool := false
  Optional : Bool := false
  Required : Bool := false
  MaxItems : Nat := 0
  ExactlyOneOf : List String := []
  AtLeastOneOf : List String := []
  Default : Option Bool := none
  ValidateFunc : Option ValidateFunc := none
  Set : Option SetFunc := none
  deriving DecidableEq, Repr

mutual
/-- The type `schema.Schema`: its fields and its `Elem`. -/
inductive Schema where
  | mk (fields : SchemaFields) (Elem : Elem)
/-- The field `Elem` of a schema: nil, a `*schema.Resource` with the schema map
of a nested block, or a `*schema.Schema` for the elements of a list or set. -/
inductive Elem where
  | none
  | Resource (Schema : List (String × Schema))
  | Schema (s : Schema)
end

/-- The fields of a schema. -/
def Schema.fields : Schema → SchemaFields
  | .mk f _ => f

/-- The schemas directly below a schema: the attributes of its nested block,
or the schema of its elements (under the empty name). -/
def Schema.children : Schema → List (String × Schema)
  | .mk _ (.Resource attrs) => attrs
  | .mk _ (.Schema s) => [("", s)]
  | .mk _ .none => []

/-- The list `[]string{"database", "table", "table_with_columns"}` written at
each of the three blocks. -/
def targetBlocks : List String := ["database", "table", "table_with_columns"]

/-- The field `Schema` of the resource returned by `ResourceResourceLFTags`
(lines 42-221), in source order. -/
def ResourceResourceLFTags.Schema : List (String × Schema) :=
  [ ("catalog_id",
      .mk { Type_ := .TypeString, Computed := true, ForceNew := true, Optional := true
            ValidateFunc := some .ValidAccountID } .none),
    ("database",
      .mk { Type_ := .TypeList, Computed := true, ForceNew := true, MaxItems := 1
            Optional := true
            ExactlyOneOf := ["database", "table", "table_with_columns"] }
        (.Resource
          [ ("catalog_id",
              .mk { Type_ := .TypeString, Computed := true, ForceNew := true, Optional := true
                    ValidateFunc := some .ValidAccountID } .none),
            ("name",
              .mk { Type_ := .TypeString, ForceNew := true, Required := true } .none) ])),
    ("lf_tag",
      .mk { Type_ := .TypeSet, Required := true, ForceNew := true, Set := some .lfTagsHash }
        (.Resource
          [ ("catalog_id",
              .mk { Type_ := .TypeString, ForceNew := true, Optional := true
                    Computed := true } .none),
            ("key",
              .mk { Type_ := .TypeString, Required := true, ForceNew := true
                    ValidateFunc := some (.StringLenBetween 1 128) } .none),
            ("value",
              .mk { Type_ := .TypeString, Required := true, ForceNew := true
                    ValidateFunc := some .validateLFTagValues } .none) ])),
    ("table",
      .mk { Type_ := .TypeList, Computed := true, ForceNew := true, MaxItems := 1
            Optional := true
            ExactlyOneOf := ["database", "table", "table_with_columns"] }
        (.Resource
          [ ("catalog_id",
              .mk { Type_ := .TypeString, Computed := true, ForceNew := true, Optional := true
                    ValidateFunc := some .ValidAccountID } .none),
            ("database_name",
              .mk { Type_ := .TypeString, ForceNew := true, Required := true } .none),
            ("name",
              .mk { Type_ := .TypeString, Computed := true, ForceNew := true, Optional := true
                    AtLeastOneOf := ["table.0.name", "table.0.wildcard"] } .none),
            ("wildcard",
              .mk { Type_ := .TypeBool, Default := some false, ForceNew := true
                    Optional := true
                    AtLeastOneOf := ["table.0.name", "table.0.wildcard"] } .none) ])),
    ("table_with_columns",
      .mk { Type_ := .TypeList, Computed := true, ForceNew := true, MaxItems := 1
            Optional := true
            ExactlyOneOf := ["database", "table", "table_with_columns"] }
        (.Resource
          [ ("catalog_id",
              .mk { Type_ := .TypeString, Computed := true, ForceNew := true, Optional := true
                    ValidateFunc := some .ValidAccountID } .none),
            ("column_names",
              .mk { Type_ := .TypeSet, ForceNew := true, Optional := true
                    Set := some .HashString
                    AtLeastOneOf := ["table_with_columns.0.column_names",
                      "table_with_columns.0.wildcard"] }
                (.Schema (.mk { Type_ := .TypeString
                                ValidateFunc := some .NoZeroValues } .none))),
            ("database_name",
              .mk { Type_ := .TypeString, ForceNew := true, Required := true } .none),
            ("excluded_column_names",
              .mk { Type_ := .TypeSet, ForceNew := true, Optional := true
                    Set := some .HashString }
                (.Schema (.mk { Type_ := .TypeString
                                ValidateFunc := some .NoZeroValues } .none))),
            ("name",
              .mk { Type_ := .TypeString, ForceNew := true, Required := true } .none),
            ("wildcard",
              .mk { Type_ := .TypeBool, Default := some false, ForceNew := true
                    Optional := true
                    AtLeastOneOf := ["table_with_columns.0.column_names",
                      "table_with_columns.0.wildcard"] } .none) ])) ]

/-- The schemas one level below the given ones. -/
def schemasBelow (l : List (String × Schema)) : List (String × Schema) :=
  l.flatMap (fun p => p.2.children)

/-! ## Specification vocabulary -/

/-- A block counts as populated when it is a non-empty list whose first
element is non-nil. -/
def populated : List Val → Prop
  | [] => False
  | v :: _ => v ≠ Val.nil

instance (l : List Val) : Decidable (populated l) := by
  cases l with
  | nil => exact isFalse (fun h => h)
  | cons v _ =>
    cases v with
    | nil => exact isFalse (fun h => h rfl)
    | str _ => exact isTrue (fun h => by cases h)
    | bool _ => exact isTrue (fun h => by cases h)
    | list _ => exact isTrue (fun h => by cases h)
    | map _ => exact isTrue (fun h => by cases h)

/-- The variant of the tagger that belongs to a block. -/
def taggerOf : Block → Tagger
  | .database => .databaseTagger
  | .table => .tableTagger
  | .table_with_columns => .columnTagger

/-- The block `b` is populated and no other block is. -/
def onlyPopulated (d : ResourceData) (b : Block) : Prop :=
  populated (d.Get b) ∧ ∀ b', b' ≠ b → ¬ populated (d.Get b')

/-- The exactly-one-of constraint of the schema on the three blocks. -/
def exactlyOneOf (d : ResourceData) : Prop := ∃ b, onlyPopulated d b

/-- A sample configuration: a database target and one tag. -/
def sampleDatabaseData : ResourceData :=
  { id := ""
    catalog_id := "123456789012"
    database := [.map (some (TfMap.empty.set "name" (.str "db")))]
    lf_tag := [.map (some (((TfMap.empty.set "catalog_id" (.str "123456789012")).set
      "key" (.str "team")).set "value" (.str "data")))]
    table := []
    table_with_columns := [] }

/-- An `lf_tag` entry as the schema declares it: the three string attributes
`catalog_id`, `key` and `value`. -/
structure LFTagEntry where
  catalog_id : String
  key : String
  value : String
  deriving DecidableEq, Repr

/-- The `map[string]interface{}` of an `lf_tag` entry. -/
def LFTagEntry.toMap (e : LFTagEntry) : TfMap :=
  ((TfMap.empty.set "catalog_id" (.str e.catalog_id)).set "key" (.str e.key)).set
    "value" (.str e.value)

/-- The element of the `lf_tag` set for an entry. -/
def LFTagEntry.toVal (e : LFTagEntry) : Val := .map (some e.toMap)

/-- The tag pair an entry with non-empty attributes expands to. -/
def LFTagEntry.toPair (e : LFTagEntry) : LFTagPair :=
  { CatalogId := some e.catalog_id, TagKey := some e.key, TagValues := some [some e.value] }

/-- The retry allow-list: the code is ConcurrentModificationException, or the
code is AccessDeniedException and the message contains "is not authorized". -/
def onAllowList : RemoteError → Prop
  | .aws code message =>
    code = "ConcurrentModificationException" ∨
      (code = "AccessDeniedException" ∧ "is not authorized".toList <:+: message.toList)
  | .other _ => False

instance (e : RemoteError) : Decidable (onAllowList e) := by
  cases e with
  | aws code message => exact inferInstanceAs (Decidable (_ ∨ _))
  | other _ => exact isFalse (fun h => h)

/-- A not-found error of the service. -/
def isNotFound : RemoteError → Prop
  | .aws code _ => code = ErrCodeEntityNotFoundException
  | .other _ => False

instance (e : RemoteError) : Decidable (isNotFound e) := by
  cases e with
  | aws code message => exact inferInstanceAs (Decidable (_ = _))
  | other _ => exact isFalse (fun h => h)

/-- The `CatalogId` of the three requests: set exactly when the top-level
`catalog_id` is non-empty. -/
def requestCatalogId (d : ResourceData) : Option String :=
  if d.catalog_id ≠ "" then some d.catalog_id else none

/-- The `LFTags` of the create and delete requests: the expansion of the
`lf_tag` set, left unset when the set is empty. -/
def requestLFTags (d : ResourceData) : Slice (Option LFTagPair) :=
  if d.lf_tag.isEmpty then none else expandLFTagPairs (some d.lf_tag)

/-- The request of create for a configuration and its expanded target. -/
def createInput (d : ResourceData) (resource : Option Resource) : AddLFTagsToResourceInput :=
  { CatalogId := requestCatalogId d, LFTags := requestLFTags d, Resource := resource }

/-- The request of read for a configuration and its expanded target. -/
def readInput (d : ResourceData) (resource : Option Resource) : GetResourceLFTagsInput :=
  { CatalogId := requestCatalogId d, Resource := resource, ShowAssignedLFTags := some true }

/-- The request of delete for a configuration and its expanded target. -/
def deleteInput (d : ResourceData) (resource : Option Resource) :
    RemoveLFTagsFromResourceInput :=
  { CatalogId := requestCatalogId d, LFTags := requestLFTags d, Resource := resource }

/-- The resource ID create derives from its request: the decimal rendering of
the hash of the serialised request. -/
def createId (env : Env) (input : AddLFTagsToResourceInput) : String :=
  toString (env.StringHashcode (env.inputString input))

/-- A sample expander of the database block. -/
def sampleExpandDatabase (m : Option TfMap) : Option DatabaseResource :=
  m.map (fun tf => { CatalogId := Val.asString (tf "catalog_id"), Name := Val.asString (tf "name") })

/-- A sample environment around given answers of the remote service: one
attempt of a retry loop per minute of timeout, a writer that stores what it is
given, and a hash that counts characters. -/
def sampleEnv (add : Nat → Except RemoteError (Option AddLFTagsToResourceOutput))
    (get : Except RemoteError (Option GetResourceLFTagsOutput))
    (remove : Nat → Except RemoteError Unit) : Env :=
  { ExpandDatabaseResource := sampleExpandDatabase
    ExpandTableResource := fun m => m.map (fun _ => {})
    expandTableColumnsResource := fun m => m.map (fun _ => {})
    StringHashcode := fun s => s.length
    inputString := fun input => StringValue input.CatalogId
    IAMPropagationTimeout := 2 * Minute
    Set_lf_tag := fun v => .ok (Slice.toList v)
    attemptsWithin := fun t => t / Minute
    AddLFTagsToResourceWithContext := fun i _ => add i
    GetResourceLFTagsWithContext := fun _ => get
    RemoveLFTagsFromResourceWithContext := fun i _ => remove i }

/-- The expanded target of the sample configuration in the sample
environment. -/
def sampleResource : Option Resource :=
  some { Database := some { CatalogId := none, Name := some "db" } }

/-- The error with which the retry loop of delete ends at an attempt that does
not fail with an allow-listed error: the vendor error, wrapped. -/
def deleteLoopErr : Except RemoteError Unit → Option GoError
  | .ok _ => none
  | .error e => some (.wrapf "removing Lake Formation LF-Tags" (.vendor e))

/-- A remote service for the sample environment: the first two tagging
attempts meet a concurrent modification, the third is rejected as invalid;
reading and removing likewise fail. -/
def busyThenInvalid : Nat → RemoteError := fun i =>
  if i < 2 then .aws "ConcurrentModificationException" "busy"
  else .aws "ValidationException" "bad"

/-- The sample environment in which every tagging and removing attempt
answers `busyThenInvalid` and reading succeeds with no tags. -/
def sampleEnvBusy : Env :=
  sampleEnv (fun i => .error (busyThenInvalid i)) (.ok (some {}))
    (fun i => .error (busyThenInvalid i))

/-- The sample configuration with a delete timeout of two minutes. -/
def sampleDataShortDelete : ResourceData :=
  { sampleDatabaseData with timeoutDelete := some (2 * Minute) }

/-- The error delete hands to its diagnostic for a vendor error that is not
retried: wrapped by the retry closure when the loop makes an attempt at all,
verbatim when the only call is the one after the timeout. -/
def deleteFatalErr (env : Env) (d : ResourceData) (e : RemoteError) : GoError :=
  if 0 < env.attemptsWithin (d.Timeout .TimeoutDelete) then
    .wrapf "removing Lake Formation LF-Tags" (.vendor e)
  else .vendor e

/-- The sample environment in which every remote call is rejected as
invalid. -/
def sampleEnvInvalid : Env :=
  sampleEnv (fun _ => .error (.aws "ValidationException" "bad"))
    (.error (.aws "ValidationException" "bad"))
    (fun _ => .error (.aws "ValidationException" "bad"))

/-- The sample environment in which every remote call reports that the
entity is not found. -/
def sampleEnvNotFound : Env :=
  sampleEnv (fun _ => .error (.aws "EntityNotFoundException" "gone"))
    (.error (.aws "EntityNotFoundException" "gone"))
    (fun _ => .error (.aws "EntityNotFoundException" "gone"))

/-- The sample configuration once created, with a resource ID. -/
def sampleCreatedData : ResourceData :=
  { sampleDatabaseData with id := "1234567890" }

/-- A failure entry that carries both its tag and its error detail. -/
def LFTagError.complete (v : LFTagError) : Bool := v.LFTag.isSome && v.Error.isSome

/-- The tagging call of create ended without error and no error diagnostic
was collected from the failures of its response. -/
def createTagged (env : Env) (d : ResourceData) (resource : Option Resource) : Prop :=
  ∃ s ds, addLFTagsWithRetry env (createInput d resource) = (s, none) ∧
    collectFailures s.output [] = .ok ds ∧ Diagnostics.HasError ds = false

/-- A response of the tagging call with one failure entry that has an error
detail and no tag. -/
def sampleFailureNoTag : AddLFTagsToResourceOutput :=
  { Failures := some [some
      { Error := some { ErrorCode := some "AccessDeniedException", ErrorMessage := some "denied" }
        LFTag := none }] }

/-- The sample environment in which the tagging call answers
`sampleFailureNoTag` and reading succeeds with no tags. -/
def sampleEnvFailureNoTag : Env :=
  sampleEnv (fun _ => .ok (some sampleFailureNoTag)) (.ok (some {})) (fun _ => .ok ())

/-- A response of the tagging call with one failure entry that has both its
tag and its error detail. -/
def sampleFailure : AddLFTagsToResourceOutput :=
  { Failures := some [some
      { Error := some { ErrorCode := some "AccessDeniedException", ErrorMessage := some "denied" }
        LFTag := some { TagKey := some "team" } }] }

/-- The sample environment in which every remote call succeeds, the tagging
call reporting no failure. -/
def sampleEnvOk : Env :=
  sampleEnv (fun _ => .ok (some {})) (.ok (some {})) (fun _ => .ok ())

/-- The sample configuration without any tag. -/
def sampleDataNoTags : ResourceData :=
  { sampleCreatedData with lf_tag := [] }

/-- The block read by the `ExpandResource` method of a tagger. -/
def Tagger.block : Tagger → Block
  | .databaseTagger => .database
  | .tableTagger => .table
  | .columnTagger => .table_with_columns

/-- What `expandLFTagPairs` keeps of one element of its input: the expansion
of a non-nil map, nothing of any other element. -/
def expandedElem : Val → Option (Option LFTagPair)
  | .map (some m) => some (expandLFTagPair (some m))
  | _ => none

/-- What `flattenLFTagPairs` keeps of one element of its input: the flattened
map of a non-nil pair, nothing of a nil pair. -/
def flattenedElem : Option LFTagPair → Option Val
  | some a => some (.map (flattenLFTagPair (some a)))
  | none => none

/-- A sample response of `GetResourceLFTags` with tags on the database, on the
table and on two columns. -/
def sampleGetOutput : GetResourceLFTagsOutput :=
  { LFTagOnDatabase := some [some { TagKey := some "team", TagValues := some [some "data"] }]
    LFTagsOnColumns := some
      [ some { LFTags := some [some { TagKey := some "pii", TagValues := some [some "yes"] }]
               Name := some "email" },
        some { LFTags := some [some { TagKey := some "pii", TagValues := some [some "no"] }]
               Name := some "age" } ]
    LFTagsOnTable := some [some { TagKey := some "env", TagValues := some [some "prod"] }] }

/-- The sample environment in which every tagging and removing attempt meets
a concurrent modification. -/
def sampleEnvAlwaysBusy : Env :=
  sampleEnv (fun _ => .error (.aws "ConcurrentModificationException" "busy")) (.ok (some {}))
    (fun _ => .error (.aws "ConcurrentModificationException" "busy"))

/-- The sample configuration with a create timeout of forty minutes. -/
def sampleDataLongCreate : ResourceData :=
  { sampleDatabaseData with timeoutCreate := some (40 * Minute) }

/-- The sample environment in which the first tagging attempt and the first
removing attempt are denied with "is not authorized" and every later attempt
succeeds. -/
def sampleEnvDeniedOnce : Env :=
  sampleEnv
    (fun i => if i = 0 then
      .error (.aws "AccessDeniedException" "User is not authorized to perform the action")
      else .ok (some {}))
    (.ok (some {}))
    (fun i => if i = 0 then
      .error (.aws "AccessDeniedException" "User is not authorized to perform the action")
      else .ok ())

end LakeFormation

namespace APIGateway

/-! ## The acceptance-test helpers of the API Gateway integration -/

/-- The type `terraform.InstanceState`: the ID and the attribute map
(`map[string]string`). -/
structure InstanceState where
  ID : String
  Attributes : String → Option String

/-- The index expression `Attributes[k]`: the empty string for a missing key. -/
def InstanceState.attr (i : InstanceState) (k : String) : String := (i.Attributes k).getD ""

/-- The type `terraform.ResourceState` (the field `Type` is named `Type_`).
Every resource of a state handed to a test helper has its primary instance. -/
structure ResourceState where
  Type_ : String
  Primary : InstanceState

/-- The root module of a `terraform.State`: its map `Resources`, as the list
of its entries. -/
structure State where
  Resources : List (String × ResourceState)

/-- The map index `s.RootModule().Resources[resourceName]` in its two-result
form. -/
def State.resource (s : State) (resourceName : String) : Option ResourceState :=
  s.Resources.lookup resourceName

/-- The function returned by `testAccIntegrationImportStateIdFunc`: the import
ID and the error (nil, or the message of `fmt.Errorf`). -/
def testAccIntegrationImportStateIdFunc (resourceName : String) (s : State) :
    String × Option String :=
  match s.resource resourceName with
  | none => ("", some ("Not found: " ++ resourceName))
  | some rs =>
    (rs.Primary.attr "rest_api_id" ++ "/" ++ rs.Primary.attr "resource_id" ++ "/" ++
      rs.Primary.attr "http_method", none)

/-- The arguments of the block `resource "aws_api_gateway_integration" "test"`
of a test configuration that the checks on `timeout_milliseconds` depend on,
with the other literal arguments common to the configurations. -/
structure IntegrationConfig where
  type : String
  uri : String
  integration_http_method : String
  passthrough_behavior : String
  content_handling : String
  timeout_milliseconds : Option Int
  deriving DecidableEq, Repr

/-- The configuration `testAccIntegrationConfig_basic`. -/
def testAccIntegrationConfig_basic : IntegrationConfig :=
  { type := "HTTP", uri := "https://www.google.de", integration_http_method := "GET"
    passthrough_behavior := "WHEN_NO_MATCH", content_handling := "CONVERT_TO_TEXT"
    timeout_milliseconds := none }

/-- The configuration `testAccIntegrationConfig_update`. -/
def testAccIntegrationConfig_update : IntegrationConfig :=
  { type := "HTTP", uri := "https://www.google.de", integration_http_method := "GET"
    passthrough_behavior := "WHEN_NO_MATCH", content_handling := "CONVERT_TO_TEXT"
    timeout_milliseconds := some 2000 }

/-- The configuration `testAccIntegrationConfig_updateURI`. -/
def testAccIntegrationConfig_updateURI : IntegrationConfig :=
  { type := "HTTP", uri := "https://www.google.de/updated", integration_http_method := "GET"
    passthrough_behavior := "WHEN_NO_MATCH", content_handling := "CONVERT_TO_TEXT"
    timeout_milliseconds := some 2000 }

/-- The configuration `testAccIntegrationConfig_updateNoTemplates`. -/
def testAccIntegrationConfig_updateNoTemplates : IntegrationConfig :=
  { type := "HTTP", uri := "https://www.google.de", integration_http_method := "GET"
    passthrough_behavior := "WHEN_NO_MATCH", content_handling := "CONVERT_TO_TEXT"
    timeout_milliseconds := some 2000 }

/-- The steps of `TestAccAPIGatewayIntegration_basic` that apply a
configuration, each with the value its check
`TestCheckResourceAttr(resourceName, "timeout_milliseconds", ...)` expects. -/
def basicTestSteps : List (IntegrationConfig × String) :=
  [ (testAccIntegrationConfig_basic, "29000"),
    (testAccIntegrationConfig_update, "2000"),
    (testAccIntegrationConfig_updateURI, "2000"),
    (testAccIntegrationConfig_updateNoTemplates, "2000"),
    (testAccIntegrationConfig_basic, "29000") ]

/-- Modelled from the spec: the attribute `timeout_milliseconds` of the state
after the resource `aws_api_gateway_integration` has been created from a
configuration. The resource itself is defined elsewhere in the repository;
the spec records that after creating an integration
`timeout_milliseconds == 29000`, and a configured value is held as it is. -/
def stateTimeoutMilliseconds (c : IntegrationConfig) : Int :=
  c.timeout_milliseconds.getD 29000

/-- A sample state with one integration resource. -/
def sampleState : State :=
  { Resources :=
      [ ("aws_api_gateway_integration.test",
          { Type_ := "aws_api_gateway_integration"
            Primary :=
              { ID := "agi-abc123-res456-GET"
                Attributes := fun k =>
                  if k = "rest_api_id" then some "abc123"
                  else if k = "resource_id" then some "res456"
                  else if k = "http_method" then some "GET"
                  else none } }) ] }

/-- The key of a lookup by `FindIntegrationByThreePartKey`: the HTTP method,
the resource ID and the REST API ID, in the order of its arguments. -/
structure ThreePartKey where
  httpMethod : String
  resourceID : String
  apiID : String
  deriving DecidableEq, Repr

/-- What the destroy check uses and this file does not define: the finder
`tfapigateway.FindIntegrationByThreePartKey` against the remote service (an
error, given by its text, or the integration found) and the classification
`tfresource.NotFound` of its errors. -/
structure DestroyEnv where
  FindIntegrationByThreePartKey : String → String → String → Except String Unit
  NotFound : String → Bool

/-- The error returned by the destroy check: the error of a lookup, returned
as it is, or `fmt.Errorf("API Gateway Integration %s still exists", id)`. -/
inductive DestroyError where
  | lookup (err : String)
  | stillExists (text : String)
  deriving DecidableEq, Repr

/-- The arguments the destroy check passes to the finder for a resource. -/
def lookupKey (rs : ResourceState) : ThreePartKey :=
  { httpMethod := rs.Primary.attr "http_method"
    resourceID := rs.Primary.attr "resource_id"
    apiID := rs.Primary.attr "rest_api_id" }

/-- The loop of `testAccCheckIntegrationDestroy` over the resources of the
state, in the order the runtime iterates the map: the error returned (nil
when the loop runs to its end) and the lookups made, in order. -/
def testAccCheckIntegrationDestroy.loop (env : DestroyEnv) :
    List (String × ResourceState) → Option DestroyError × List ThreePartKey
  | [] => (none, [])
  | (_, rs) :: rest =>
    if rs.Type_ ≠ "aws_api_gateway_integration" then
      testAccCheckIntegrationDestroy.loop env rest
    else
      match env.FindIntegrationByThreePartKey (rs.Primary.attr "http_method")
          (rs.Primary.attr "resource_id") (rs.Primary.attr "rest_api_id") with
      | .error err =>
        if env.NotFound err then
          ((testAccCheckIntegrationDestroy.loop env rest).1,
            lookupKey rs :: (testAccCheckIntegrationDestroy.loop env rest).2)
        else
          (some (.lookup err), [lookupKey rs])
      | .ok _ =>
        (some (.stillExists
          ("API Gateway Integration " ++ rs.Primary.ID ++ " still exists")), [lookupKey rs])

/-- The function returned by `testAccCheckIntegrationDestroy`. -/
def testAccCheckIntegrationDestroy (env : DestroyEnv) (s : State) :
    Option DestroyError × List ThreePartKey :=
  testAccCheckIntegrationDestroy.loop env s.Resources

/-- Whether a resource is an API Gateway integration. -/
def isIntegration (rs : ResourceState) : Prop := rs.Type_ = "aws_api_gateway_integration"

/-- The lookup for a resource reports not-found. -/
def lookupNotFound (env : DestroyEnv) (rs : ResourceState) : Prop :=
  ∃ err, env.FindIntegrationByThreePartKey (rs.Primary.attr "http_method")
    (rs.Primary.attr "resource_id") (rs.Primary.attr "rest_api_id") = .error err ∧
    env.NotFound err = true

/-- A sample environment of the destroy check: the integration of REST API
"abc123" is still there, every other lookup reports not-found. -/
def sampleDestroyEnv : DestroyEnv :=
  { FindIntegrationByThreePartKey := fun _ _ apiID =>
      if apiID = "abc123" then .ok () else .error "NotFoundException: gone"
    NotFound := fun err => err = "NotFoundException: gone" }

/-- A sample state with a REST API and an integration that has been
destroyed. -/
def sampleStateDestroyed : State :=
  { Resources :=
      [ ("aws_api_gateway_rest_api.test",
          { Type_ := "aws_api_gateway_rest_api"
            Primary := { ID := "abc123"
                         Attributes := fun k => if k = "rest_api_id" then some "abc123" else none } }),
        ("aws_api_gateway_integration.test",
          { Type_ := "aws_api_gateway_integration"
            Primary :=
              { ID := "agi-xyz789-res456-GET"
                Attributes := fun k =>
                  if k = "rest_api_id" then some "xyz789"
                  else if k = "resource_id" then some "res456"
                  else if k = "http_method" then some "GET"
                  else none } }) ] }

end APIGateway

namespace AppRunner

/-! ## The acceptance-test helpers of the App Runner custom domain association -/

/-- The constant `apprunner.ErrCodeResourceNotFoundException`. -/
def ErrCodeResourceNotFoundException : String := "ResourceNotFoundException"

/-- What the destroy check uses and this file does not define:
`tfapprunner.CustomDomainAssociationParseID` (the domain name and the service
ARN of an ID, or an error given by its text) and `tfapprunner.FindCustomDomain`
against the remote service (an error, or the possibly nil custom domain, given
by its domain name). -/
structure DestroyEnv where
  CustomDomainAssociationParseID : String → Except String (String × String)
  FindCustomDomain : String → String → Except LakeFormation.RemoteError (Option String)

/-- The error returned by the destroy check: the error of the ID parser, the
error of the finder, or
`fmt.Errorf("App Runner Custom Domain Association (%s) still exists", id)`. -/
inductive DestroyError where
  | parse (err : String)
  | find (err : LakeFormation.RemoteError)
  | stillExists (text : String)
  deriving DecidableEq, Repr

/-- The loop of `testAccCheckCustomDomainAssociationDestroy` over the
resources of the state, in the order the runtime iterates the map: the error
returned, nil when the loop runs to its end. -/
def testAccCheckCustomDomainAssociationDestroy.loop (env : DestroyEnv) :
    List (String × APIGateway.ResourceState) → Option DestroyError
  | [] => none
  | (_, rs) :: rest =>
    if rs.Type_ ≠ "aws_apprunner_connection" then
      testAccCheckCustomDomainAssociationDestroy.loop env rest
    else
      match env.CustomDomainAssociationParseID rs.Primary.ID with
      | .error err => some (.parse err)
      | .ok (domainName, serviceArn) =>
        match env.FindCustomDomain domainName serviceArn with
        | .error err =>
          if LakeFormation.ErrCodeEquals (.vendor err) ErrCodeResourceNotFoundException then
            testAccCheckCustomDomainAssociationDestroy.loop env rest
          else
            some (.find err)
        | .ok customDomain =>
          if customDomain ≠ none then
            some (.stillExists
              ("App Runner Custom Domain Association (" ++ rs.Primary.ID ++ ") still exists"))
          else
            testAccCheckCustomDomainAssociationDestroy.loop env rest

/-- The function returned by `testAccCheckCustomDomainAssociationDestroy`, on
a `terraform.State`. -/
def testAccCheckCustomDomainAssociationDestroy (env : DestroyEnv) (s : APIGateway.State) :
    Option DestroyError :=
  testAccCheckCustomDomainAssociationDestroy.loop env s.Resources

/-- A sample environment of the destroy check: an ID is a domain name and a
service ARN joined by a comma, and every custom domain is still found. -/
def sampleDestroyEnv : DestroyEnv :=
  { CustomDomainAssociationParseID := fun id =>
      match id.toList.dropWhile (fun c => c != ',') with
      | [] => .error ("unexpected format for ID (" ++ id ++ ")")
      | _ :: arn => .ok (String.mk (id.toList.takeWhile (fun c => c != ',')), String.mk arn)
    FindCustomDomain := fun domainName _ => .ok (some domainName) }

/-- The state left by `testAccCustomDomainAssociationConfig_basic`: the service
and the custom domain association the test creates. -/
def sampleState : APIGateway.State :=
  { Resources :=
      [ ("aws_apprunner_service.test",
          { Type_ := "aws_apprunner_service"
            Primary := { ID := "arn:aws:apprunner:us-east-1:123456789012:service/test/abc"
                         Attributes := fun _ => none } }),
        ("aws_apprunner_custom_domain_association.test",
          { Type_ := "aws_apprunner_custom_domain_association"
            Primary :=
              { ID := "example.com,arn:aws:apprunner:us-east-1:123456789012:service/test/abc"
                Attributes := fun _ => none } }) ] }

end AppRunner

namespace LakeFormation

/-! ## Theorems -/

/-- The guard of the dispatcher holds exactly of a populated block. -/
theorem blockGuard_iff (d : ResourceData) (k : Block) :
    blockGuard (d.GetOk k) = true ↔ populated (d.Get k) := by
  unfold blockGuard ResourceData.GetOk
  cases h : d.Get k with
  | nil => simp [populated]
  | cons v rest => cases v <;> simp [populated, Val.isNil]

/-- The dispatcher as a case distinction on which blocks are populated. -/
theorem lfTagsTagger_eq (d : ResourceData) :
    lfTagsTagger d =
      if populated d.database then (some .databaseTagger, [])
      else if populated d.table then (some .tableTagger, [])
      else if populated d.table_with_columns then (some .columnTagger, [])
      else (none, [invalidResourceType]) := by
  have h1 := blockGuard_iff d .database
  have h2 := blockGuard_iff d .table
  have h3 := blockGuard_iff d .table_with_columns
  simp only [ResourceData.Get] at h1 h2 h3
  unfold lfTagsTagger
  by_cases p1 : populated d.database
  · simp [h1.mpr p1, p1]
  · have g1 : blockGuard (d.GetOk .database) = false := by
      cases hb : blockGuard (d.GetOk .database) with
      | false => rfl
      | true => exact absurd (h1.mp hb) p1
    by_cases p2 : populated d.table
    · simp [g1, h2.mpr p2, p1, p2]
    · have g2 : blockGuard (d.GetOk .table) = false := by
        cases hb : blockGuard (d.GetOk .table) with
        | false => rfl
        | true => exact absurd (h2.mp hb) p2
      by_cases p3 : populated d.table_with_columns
      · simp [g1, g2, h3.mpr p3, p1, p2, p3]
      · have g3 : blockGuard (d.GetOk .table_with_columns) = false := by
          cases hb : blockGuard (d.GetOk .table_with_columns) with
          | false => rfl
          | true => exact absurd (h3.mp hb) p3
        simp [g1, g2, g3, p1, p2, p3]

/-- C1: the dispatcher selects the tagger by the first populated block, in the
order database, table, table_with_columns, each time with empty diagnostics;
in particular, when exactly one block is populated, the tagger of that block
is returned. -/
theorem lfTagsTagger_selects (d : ResourceData) :
    (populated d.database → lfTagsTagger d = (some .databaseTagger, [])) ∧
    (¬ populated d.database → populated d.table →
      lfTagsTagger d = (some .tableTagger, [])) ∧
    (¬ populated d.database → ¬ populated d.table → populated d.table_with_columns →
      lfTagsTagger d = (some .columnTagger, [])) ∧
    (∀ b, onlyPopulated d b → lfTagsTagger d = (some (taggerOf b), [])) := by
  rw [lfTagsTagger_eq]
  refine ⟨?_, ?_, ?_, ?_⟩
  · intro p1; simp [p1]
  · intro p1 p2; simp [p1, p2]
  · intro p1 p2 p3; simp [p1, p2, p3]
  · intro b hb
    obtain ⟨hp, hn⟩ := hb
    cases b with
    | database =>
      have p1 : populated d.database := hp
      simp [p1, taggerOf]
    | table =>
      have p1 : ¬ populated d.database := hn .database (by decide)
      have p2 : populated d.table := hp
      simp [p1, p2, taggerOf]
    | table_with_columns =>
      have p1 : ¬ populated d.database := hn .database (by decide)
      have p2 : ¬ populated d.table := hn .table (by decide)
      have p3 : populated d.table_with_columns := hp
      simp [p1, p2, p3, taggerOf]

/-- Witness of C1: the sample configuration populates only the database block
and is dispatched to the database tagger. -/
theorem lfTagsTagger_selects_witness :
    onlyPopulated sampleDatabaseData .database ∧
    lfTagsTagger sampleDatabaseData = (some (taggerOf .database), []) :=
  have h : onlyPopulated sampleDatabaseData .database :=
    ⟨by simp [populated, ResourceData.Get, sampleDatabaseData],
     fun b' hb' => by
      cases b' with
      | database => exact absurd rfl hb'
      | table => simp [populated, ResourceData.Get, sampleDatabaseData]
      | table_with_columns => simp [populated, ResourceData.Get, sampleDatabaseData]⟩
  ⟨h, (lfTagsTagger_selects sampleDatabaseData).2.2.2 .database h⟩

/-- C2: the dispatcher returns a nil tagger with exactly one diagnostic, the
error "Invalid Lake Formation Resource Type", if and only if none of the three
blocks is populated; under the exactly-one-of constraint the tagger is not
nil and there is no diagnostic. -/
theorem lfTagsTagger_error_iff (d : ResourceData) :
    (((lfTagsTagger d).1 = none ∧
        ∃ detail, (lfTagsTagger d).2 =
          [Diagnostic.newErrorDiagnostic "Invalid Lake Formation Resource Type" detail]) ↔
      (¬ populated d.database ∧ ¬ populated d.table ∧ ¬ populated d.table_with_columns)) ∧
    ((lfTagsTagger d).1 = none ↔
      (¬ populated d.database ∧ ¬ populated d.table ∧ ¬ populated d.table_with_columns)) ∧
    (exactlyOneOf d → (lfTagsTagger d).1 ≠ none ∧ (lfTagsTagger d).2 = []) := by
  rw [lfTagsTagger_eq]
  have key : (if populated d.database then ((some Tagger.databaseTagger, []) : Option Tagger × Diagnostics)
      else if populated d.table then (some .tableTagger, [])
      else if populated d.table_with_columns then (some .columnTagger, [])
      else (none, [invalidResourceType])).1 = none ↔
      (¬ populated d.database ∧ ¬ populated d.table ∧ ¬ populated d.table_with_columns) := by
    by_cases p1 : populated d.database
    · simp [p1]
    · by_cases p2 : populated d.table
      · simp [p1, p2]
      · by_cases p3 : populated d.table_with_columns
        · simp [p1, p2, p3]
        · simp [p1, p2, p3]
  refine ⟨⟨fun h => key.mp h.1, fun h => ⟨key.mpr h, ?_⟩⟩, key, ?_⟩
  · obtain ⟨p1, p2, p3⟩ := h
    simp [p1, p2, p3, invalidResourceType]
  · rintro ⟨b, hp, hn⟩
    cases b with
    | database =>
      have p1 : populated d.database := hp
      simp [p1]
    | table =>
      have p1 : ¬ populated d.database := hn .database (by decide)
      have p2 : populated d.table := hp
      simp [p1, p2]
    | table_with_columns =>
      have p1 : ¬ populated d.database := hn .database (by decide)
      have p2 : ¬ populated d.table := hn .table (by decide)
      have p3 : populated d.table_with_columns := hp
      simp [p1, p2, p3]

/-- Witness of C2: the sample configuration satisfies the exactly-one-of
constraint and is dispatched without a diagnostic. -/
theorem lfTagsTagger_error_iff_witness :
    exactlyOneOf sampleDatabaseData ∧
    (lfTagsTagger sampleDatabaseData).1 ≠ none ∧ (lfTagsTagger sampleDatabaseData).2 = [] :=
  have h : exactlyOneOf sampleDatabaseData :=
    ⟨.database, by simp [populated, ResourceData.Get, sampleDatabaseData],
     fun b' hb' => by
      cases b' with
      | database => exact absurd rfl hb'
      | table => simp [populated, ResourceData.Get, sampleDatabaseData]
      | table_with_columns => simp [populated, ResourceData.Get, sampleDatabaseData]⟩
  ⟨h, (lfTagsTagger_error_iff sampleDatabaseData).2.2 h⟩

/-- Expanding an entry whose three attributes are non-empty. -/
theorem expandLFTagPair_toMap (e : LFTagEntry) (hc : e.catalog_id ≠ "") (hk : e.key ≠ "")
    (hv : e.value ≠ "") : expandLFTagPair (some e.toMap) = some e.toPair := by
  simp [expandLFTagPair, LFTagEntry.toMap, LFTagEntry.toPair, TfMap.set, Val.asString, hc, hk,
    hv, StringSlice]

/-- Flattening the pair of an entry. -/
theorem flattenLFTagPair_toPair (e : LFTagEntry) :
    flattenLFTagPair (some e.toPair) = some e.toMap := by
  simp [flattenLFTagPair, LFTagEntry.toMap, LFTagEntry.toPair, StringValue, Slice.toList]

/-- The loop of `expandLFTagPairs` over entries with non-empty attributes
appends the pair of each entry, in order. -/
theorem expand_foldl_entries (es : List LFTagEntry)
    (h : ∀ e ∈ es, e.catalog_id ≠ "" ∧ e.key ≠ "" ∧ e.value ≠ "")
    (acc : Slice (Option LFTagPair)) (hacc : es = [] → acc ≠ none) :
    (es.map LFTagEntry.toVal).foldl expandLFTagPairs.step acc =
      some (Slice.toList acc ++ es.map (fun e => some e.toPair)) := by
  induction es generalizing acc with
  | nil =>
    cases acc with
    | none => exact absurd rfl (hacc rfl)
    | some l => simp [Slice.toList]
  | cons e rest ih =>
    have he := h e (List.mem_cons_self _ _)
    have hstep : expandLFTagPairs.step acc e.toVal = some (Slice.toList acc ++ [some e.toPair]) := by
      simp [expandLFTagPairs.step, LFTagEntry.toVal, expandLFTagPair_toMap e he.1 he.2.1 he.2.2,
        Slice.append]
    rw [List.map_cons, List.foldl_cons, hstep,
      ih (fun x hx => h x (List.mem_cons_of_mem _ hx)) _ (fun _ => by simp)]
    simp [Slice.toList]

/-- The loop of `flattenLFTagPairs` over the pairs of entries appends the map
of each entry, in order. -/
theorem flatten_foldl_entries (es : List LFTagEntry) (acc : Slice Val)
    (hacc : es = [] → acc ≠ none) :
    (es.map (fun e => some e.toPair)).foldl flattenLFTagPairs.step acc =
      some (Slice.toList acc ++ es.map LFTagEntry.toVal) := by
  induction es generalizing acc with
  | nil =>
    cases acc with
    | none => exact absurd rfl (hacc rfl)
    | some l => simp [Slice.toList]
  | cons e rest ih =>
    have hstep : flattenLFTagPairs.step acc (some e.toPair) =
        some (Slice.toList acc ++ [e.toVal]) := by
      simp [flattenLFTagPairs.step, flattenLFTagPair_toPair, Slice.append, LFTagEntry.toVal]
    rw [List.map_cons, List.foldl_cons, hstep, ih _ (fun _ => by simp)]
    simp [Slice.toList]

/-- Expanding a non-empty list of entries with non-empty attributes. -/
theorem expandLFTagPairs_entries (es : List LFTagEntry) (hne : es ≠ [])
    (h : ∀ e ∈ es, e.catalog_id ≠ "" ∧ e.key ≠ "" ∧ e.value ≠ "") :
    expandLFTagPairs (some (es.map LFTagEntry.toVal)) =
      some (es.map (fun e => some e.toPair)) := by
  have hlen : Slice.len (some (es.map LFTagEntry.toVal)) ≠ 0 := by
    cases es with
    | nil => exact absurd rfl hne
    | cons _ _ => simp [Slice.len, Slice.toList]
  unfold expandLFTagPairs
  rw [if_neg hlen]
  have := expand_foldl_entries es h none (fun h0 => absurd h0 hne)
  simpa [Slice.toList] using this

/-- C3, as amended: an entry with non-empty `key`, `value` and `catalog_id`
comes back unchanged from expand followed by flatten; an entry with an empty
`catalog_id` comes back without its `catalog_id` entry; a non-empty list of
entries with non-empty attributes comes back unchanged, and the empty list
comes back as the nil list. -/
theorem lfTagPair_roundtrip (e : LFTagEntry) (es : List LFTagEntry)
    (hk : e.key ≠ "") (hv : e.value ≠ "")
    (hne : es ≠ []) (h : ∀ x ∈ es, x.catalog_id ≠ "" ∧ x.key ≠ "" ∧ x.value ≠ "") :
    (e.catalog_id ≠ "" → flattenLFTagPair (expandLFTagPair (some e.toMap)) = some e.toMap) ∧
    (e.catalog_id = "" → flattenLFTagPair (expandLFTagPair (some e.toMap)) =
      some ((TfMap.empty.set "key" (.str e.key)).set "value" (.str e.value))) ∧
    flattenLFTagPairs (expandLFTagPairs (some (es.map LFTagEntry.toVal))) =
      some (es.map LFTagEntry.toVal) ∧
    flattenLFTagPairs (expandLFTagPairs (some [])) = none := by
  refine ⟨?_, ?_, ?_, ?_⟩
  · intro hc
    rw [expandLFTagPair_toMap e hc hk hv, flattenLFTagPair_toPair]
  · intro hc
    simp [expandLFTagPair, flattenLFTagPair, LFTagEntry.toMap, TfMap.set, Val.asString, hc, hk,
      hv, StringSlice, StringValue, Slice.toList]
  · rw [expandLFTagPairs_entries es hne h]
    have hlen : Slice.len (some (es.map (fun x => some x.toPair))) ≠ 0 := by
      cases es with
      | nil => exact absurd rfl hne
      | cons _ _ => simp [Slice.len, Slice.toList]
    unfold flattenLFTagPairs
    rw [if_neg hlen]
    have := flatten_foldl_entries es none (fun h0 => absurd h0 hne)
    simpa [Slice.toList] using this
  · simp [expandLFTagPairs, flattenLFTagPairs, Slice.len, Slice.toList]

/-- Witness of C3 as amended, at the entry of the sample configuration. -/
theorem lfTagPair_roundtrip_witness :
    flattenLFTagPair (expandLFTagPair (some
        (LFTagEntry.toMap { catalog_id := "123456789012", key := "team", value := "data" }))) =
      some (LFTagEntry.toMap { catalog_id := "123456789012", key := "team", value := "data" }) ∧
    flattenLFTagPairs (expandLFTagPairs (some
        ([{ catalog_id := "123456789012", key := "team", value := "data" }].map
          LFTagEntry.toVal))) =
      some ([{ catalog_id := "123456789012", key := "team", value := "data" }].map
        LFTagEntry.toVal) :=
  have h := lfTagPair_roundtrip { catalog_id := "123456789012", key := "team", value := "data" }
    [{ catalog_id := "123456789012", key := "team", value := "data" }]
    (by decide) (by decide) (by simp) (by simp)
  ⟨h.1 (by decide), h.2.2.1⟩

/-- C3 fails as stated: the valid entry with key "team", value "data" and an
empty `catalog_id` does not come back from expand followed by flatten (the
result has no `catalog_id` entry). -/
theorem lfTagPair_roundtrip_counterexample :
    (LFTagEntry.mk "" "team" "data").key ≠ "" ∧ (LFTagEntry.mk "" "team" "data").value ≠ "" ∧
    flattenLFTagPair (expandLFTagPair (some (LFTagEntry.mk "" "team" "data").toMap)) ≠
      some (LFTagEntry.mk "" "team" "data").toMap := by
  refine ⟨by decide, by decide, ?_⟩
  intro h1
  have h2 := congrFun (Option.some.inj h1) "catalog_id"
  simp [expandLFTagPair, flattenLFTagPair, LFTagEntry.toMap, TfMap.set, TfMap.empty,
    Val.asString, StringSlice, StringValue, Slice.toList] at h2

/-- Both retry closures classify a vendor error by the allow-list. -/
theorem retryResult_vendor (e : RemoteError) :
    createRetryResult (some (.vendor e)) =
      some { Err := .vendor e, Retryable := decide (onAllowList e) } ∧
    deleteRetryResult (some (.vendor e)) =
      some { Err := if onAllowList e then .vendor e
                    else .wrapf "removing Lake Formation LF-Tags" (.vendor e)
             Retryable := decide (onAllowList e) } := by
  cases e with
  | other t =>
    simp [createRetryResult, deleteRetryResult, ErrCodeEquals, ErrMessageContains, onAllowList,
      NonRetryableError]
  | aws code message =>
    by_cases h1 : code = "ConcurrentModificationException"
    · subst h1
      have hA : onAllowList (.aws "ConcurrentModificationException" message) := Or.inl rfl
      simp [createRetryResult, deleteRetryResult, ErrCodeEquals,
        ErrCodeConcurrentModificationException, RetryableError, hA]
    · by_cases h2 : code = "AccessDeniedException" ∧ "is not authorized".toList <:+: message.toList
      · obtain ⟨h2a, h2b⟩ := h2
        subst h2a
        have hA : onAllowList (.aws "AccessDeniedException" message) := Or.inr ⟨rfl, h2b⟩
        have hs : stringsContains message "is not authorized" = true := by
          simp only [stringsContains, decide_eq_true_eq]; exact h2b
        simp [createRetryResult, deleteRetryResult, ErrCodeEquals, ErrMessageContains,
          ErrCodeConcurrentModificationException, RetryableError, hs, hA]
      · have hA : ¬ onAllowList (.aws code message) := by
          simp only [onAllowList]; tauto
        have h4 : (code == "AccessDeniedException" &&
            stringsContains message "is not authorized") = false := by
          simp only [stringsContains, Bool.and_eq_false_iff, beq_eq_false_iff_ne, ne_eq,
            decide_eq_false_iff_not]
          tauto
        simp [createRetryResult, deleteRetryResult, ErrCodeEquals, ErrMessageContains,
          ErrCodeConcurrentModificationException, NonRetryableError, h1, hA, h4]

/-- The request create builds, once the target is expanded. -/
theorem create_eq (env : Env) (d : ResourceData) (resource : Option Resource)
    (hd : Diagnostics.HasError (lfTagsTagger d).2 = false)
    (hr : callExpandResource env (lfTagsTagger d).1 d = .ok resource) :
    resourceResourceLFTagsCreate env d =
      match addLFTagsWithRetry env (createInput d resource) with
      | (s, some err) =>
        .ok { d := d
              diags := (lfTagsTagger d).2 ++
                [.addError .Creating ResNameLFTags (env.inputString (createInput d resource)) err]
              calls := s.calls }
      | (s, none) =>
        match collectFailures s.output (lfTagsTagger d).2 with
        | .error p => .error p
        | .ok diags =>
          if diags.HasError then .ok { d := d, diags := diags, calls := s.calls } else
          match resourceResourceLFTagsRead env
            (d.SetId (createId env (createInput d resource))) with
          | .error p => .error p
          | .ok r => .ok { d := r.d, diags := diags ++ r.diags, calls := s.calls ++ r.calls } := by
  have hin : ({ (if d.GetOk_lf_tag.2 && decide (d.GetOk_lf_tag.1.length > 0) then
        { (if d.GetOk_catalog_id.2 then
            { ({} : AddLFTagsToResourceInput) with CatalogId := some d.GetOk_catalog_id.1 }
          else {}) with LFTags := expandLFTagPairs (some d.GetOk_lf_tag.1) }
      else (if d.GetOk_catalog_id.2 then
            { ({} : AddLFTagsToResourceInput) with CatalogId := some d.GetOk_catalog_id.1 }
          else {})) with Resource := resource } : AddLFTagsToResourceInput) =
      createInput d resource := by
    unfold createInput requestCatalogId requestLFTags ResourceData.GetOk_catalog_id
      ResourceData.GetOk_lf_tag
    by_cases hc : d.catalog_id = "" <;> cases hl : d.lf_tag <;> simp [hc, hl]
  unfold resourceResourceLFTagsCreate
  simp only [List.nil_append, hd, hr, hin, createId]
  rfl

/-- The request read builds, once the target is expanded. -/
theorem read_eq (env : Env) (d : ResourceData) (t : Tagger) (resource : Option Resource)
    (hd : Diagnostics.HasError (lfTagsTagger d).2 = false)
    (ht : (lfTagsTagger d).1 = some t)
    (hr : t.ExpandResource env d = .ok resource) :
    resourceResourceLFTagsRead env d =
      match env.GetResourceLFTagsWithContext (readInput d resource) with
      | .error err =>
        .ok { d := d
              diags := (lfTagsTagger d).2 ++
                [.addError .Reading ResNameLFTags d.Id (.vendor err)]
              calls := [.GetResourceLFTags (readInput d resource)] }
      | .ok output =>
        match callFlattenTags t output with
        | .error p => .error p
        | .ok v =>
          match env.Set_lf_tag v with
          | .error err =>
            .ok { d := d
                  diags := (lfTagsTagger d).2 ++ [.addError .Setting ResNameLFTags d.Id err]
                  calls := [.GetResourceLFTags (readInput d resource)] }
          | .ok l =>
            .ok { d := { d with lf_tag := l }, diags := (lfTagsTagger d).2
                  calls := [.GetResourceLFTags (readInput d resource)] } := by
  have hin : ({ (if d.GetOk_catalog_id.2 then
        { ({ ShowAssignedLFTags := some true } : GetResourceLFTagsInput) with
          CatalogId := some d.GetOk_catalog_id.1 }
      else { ShowAssignedLFTags := some true }) with Resource := resource } :
        GetResourceLFTagsInput) = readInput d resource := by
    unfold readInput requestCatalogId ResourceData.GetOk_catalog_id
    by_cases hc : d.catalog_id = "" <;> simp [hc]
  unfold resourceResourceLFTagsRead
  simp only [List.nil_append, hd, ht, hr, hin]
  rfl

/-- The request delete builds, once the target is expanded. -/
theorem delete_eq (env : Env) (d : ResourceData) (resource : Option Resource)
    (hd : Diagnostics.HasError (lfTagsTagger d).2 = false)
    (hr : callExpandResource env (lfTagsTagger d).1 d = .ok resource) :
    resourceResourceLFTagsDelete env d =
      if resource = none ∨ resource = some {} ∨ Slice.len (requestLFTags d) = 0 then
        .ok { d := d
              diags := (lfTagsTagger d).2 ++
                [.addWarningMessage .Setting ResNameLFTags d.Id "no LF-Tags to remove"]
              calls := [] }
      else
        match removeLFTagsWithRetry env d (deleteInput d resource) with
        | (calls, some err) =>
          .ok { d := d
                diags := (lfTagsTagger d).2 ++ [.addError .Deleting ResNameLFTags d.Id err]
                calls := calls }
        | (calls, none) => .ok { d := d, diags := (lfTagsTagger d).2, calls := calls } := by
  unfold resourceResourceLFTagsDelete deleteInput requestCatalogId requestLFTags
    ResourceData.GetOk_catalog_id ResourceData.GetOk_lf_tag
  by_cases hc : d.catalog_id = "" <;> cases hl : d.lf_tag <;> simp [hc, hl, hd, hr]

/-- A dispatched tagger whose expansion returned is not nil. -/
theorem callExpandResource_ok (env : Env) (d : ResourceData) (resource : Option Resource)
    (hr : callExpandResource env (lfTagsTagger d).1 d = .ok resource) :
    ∃ t, (lfTagsTagger d).1 = some t ∧ t.ExpandResource env d = .ok resource := by
  cases h : (lfTagsTagger d).1 with
  | none => rw [h] at hr; simp [callExpandResource] at hr
  | some t => rw [h] at hr; exact ⟨t, rfl, hr⟩

/-- The retry closure of create on an error of the remote call. -/
theorem createRetryFunc_error (env : Env) (input : AddLFTagsToResourceInput) (s : CreateVars)
    (e : RemoteError) (h : env.AddLFTagsToResourceWithContext s.calls.length input = .error e) :
    createRetryFunc env input s =
      ({ output := none, calls := s.calls ++ [.AddLFTagsToResource input] },
        some { Err := .vendor e, Retryable := decide (onAllowList e) }) := by
  simp [createRetryFunc, callAddLFTagsToResource, h, (retryResult_vendor e).1]

/-- The retry closure of create on a response of the remote call. -/
theorem createRetryFunc_ok (env : Env) (input : AddLFTagsToResourceInput) (s : CreateVars)
    (o : Option AddLFTagsToResourceOutput)
    (h : env.AddLFTagsToResourceWithContext s.calls.length input = .ok o) :
    createRetryFunc env input s =
      ({ output := o, calls := s.calls ++ [.AddLFTagsToResource input] }, none) := by
  simp [createRetryFunc, callAddLFTagsToResource, h, createRetryResult]

/-- The retry loop of create over attempts that all fail with an allow-listed
error ends with the timeout error after one call per attempt. -/
theorem create_loop_timeout (env : Env) (input : AddLFTagsToResourceInput) (n : Nat)
    (cs : List Call)
    (h : ∀ i, i < n → ∃ e, env.AddLFTagsToResourceWithContext (cs.length + i) input = .error e ∧
      onAllowList e) :
    RetryContext.loop (createRetryFunc env input) n { output := none, calls := cs } =
      (some .timeout,
        { output := none, calls := cs ++ List.replicate n (.AddLFTagsToResource input) }) := by
  induction n generalizing cs with
  | zero => simp [RetryContext.loop]
  | succ n ih =>
    obtain ⟨e, he, hA⟩ := h 0 (Nat.succ_pos n)
    have hstep := createRetryFunc_error env input { output := none, calls := cs } e
      (by simpa using he)
    have hrest : ∀ i, i < n → ∃ e, env.AddLFTagsToResourceWithContext
        ((cs ++ [Call.AddLFTagsToResource input]).length + i) input = .error e ∧
        onAllowList e := by
      intro i hi
      have := h (i + 1) (Nat.succ_lt_succ hi)
      simpa [Nat.add_assoc, Nat.add_comm 1 i] using this
    simp only [RetryContext.loop, hstep, hA, decide_True, if_true]
    rw [ih _ hrest]
    simp [List.replicate_succ]

/-- The retry loop of create, when the attempts before attempt `k` fail with an
allow-listed error and attempt `k` does not, ends with the outcome of attempt
`k`. -/
theorem create_loop_stop (env : Env) (input : AddLFTagsToResourceInput) (n k : Nat)
    (cs : List Call) (hk : k < n)
    (h : ∀ i, i < k → ∃ e, env.AddLFTagsToResourceWithContext (cs.length + i) input = .error e ∧
      onAllowList e)
    (hstop : ∀ e, env.AddLFTagsToResourceWithContext (cs.length + k) input = .error e →
      ¬ onAllowList e) :
    RetryContext.loop (createRetryFunc env input) n { output := none, calls := cs } =
      Prod.swap (callAddLFTagsToResource env input
        { output := none, calls := cs ++ List.replicate k (.AddLFTagsToResource input) }) := by
  induction k generalizing cs n with
  | zero =>
    obtain ⟨m, rfl⟩ : ∃ m, n = m + 1 := ⟨n - 1, by omega⟩
    cases hresp : env.AddLFTagsToResourceWithContext cs.length input with
    | ok o =>
      have hstep := createRetryFunc_ok env input { output := none, calls := cs } o hresp
      simp [RetryContext.loop, hstep, callAddLFTagsToResource, hresp]
    | error e =>
      have hstep := createRetryFunc_error env input { output := none, calls := cs } e hresp
      have hA : ¬ onAllowList e := hstop e (by simpa using hresp)
      simp [RetryContext.loop, hstep, hA, callAddLFTagsToResource, hresp]
  | succ k ih =>
    obtain ⟨m, rfl⟩ : ∃ m, n = m + 1 := ⟨n - 1, by omega⟩
    obtain ⟨e, he, hA⟩ := h 0 (Nat.succ_pos k)
    have hstep := createRetryFunc_error env input { output := none, calls := cs } e
      (by simpa using he)
    have hrest : ∀ i, i < k → ∃ e, env.AddLFTagsToResourceWithContext
        ((cs ++ [Call.AddLFTagsToResource input]).length + i) input = .error e ∧
        onAllowList e := by
      intro i hi
      have := h (i + 1) (Nat.succ_lt_succ hi)
      simpa [Nat.add_assoc, Nat.add_comm 1 i] using this
    have hstop2 : ∀ e, env.AddLFTagsToResourceWithContext
        ((cs ++ [Call.AddLFTagsToResource input]).length + k) input = .error e →
        ¬ onAllowList e := by
      intro e he
      apply hstop e
      simpa [Nat.add_assoc, Nat.add_comm 1 k] using he
    simp only [RetryContext.loop, hstep, hA, decide_True, if_true]
    rw [ih m _ (by omega) hrest hstop2]
    simp [List.replicate_succ]

/-- The retry closure of delete on an error of the remote call. -/
theorem deleteRetryFunc_error (env : Env) (input : RemoveLFTagsFromResourceInput)
    (cs : List Call) (e : RemoteError)
    (h : env.RemoveLFTagsFromResourceWithContext cs.length input = .error e) :
    deleteRetryFunc env input cs =
      (cs ++ [.RemoveLFTagsFromResource input],
        some { Err := if onAllowList e then .vendor e
                      else .wrapf "removing Lake Formation LF-Tags" (.vendor e)
               Retryable := decide (onAllowList e) }) := by
  simp [deleteRetryFunc, callRemoveLFTagsFromResource, h, (retryResult_vendor e).2]

/-- The retry closure of delete on a response of the remote call. -/
theorem deleteRetryFunc_ok (env : Env) (input : RemoveLFTagsFromResourceInput)
    (cs : List Call) (h : env.RemoveLFTagsFromResourceWithContext cs.length input = .ok ()) :
    deleteRetryFunc env input cs = (cs ++ [.RemoveLFTagsFromResource input], none) := by
  simp [deleteRetryFunc, callRemoveLFTagsFromResource, h, deleteRetryResult]

/-- The retry loop of delete over attempts that all fail with an allow-listed
error ends with the timeout error after one call per attempt. -/
theorem delete_loop_timeout (env : Env) (input : RemoveLFTagsFromResourceInput) (n : Nat)
    (cs : List Call)
    (h : ∀ i, i < n → ∃ e, env.RemoveLFTagsFromResourceWithContext (cs.length + i) input =
      .error e ∧ onAllowList e) :
    RetryContext.loop (deleteRetryFunc env input) n cs =
      (some .timeout, cs ++ List.replicate n (.RemoveLFTagsFromResource input)) := by
  induction n generalizing cs with
  | zero => simp [RetryContext.loop]
  | succ n ih =>
    obtain ⟨e, he, hA⟩ := h 0 (Nat.succ_pos n)
    have hstep := deleteRetryFunc_error env input cs e (by simpa using he)
    have hrest : ∀ i, i < n → ∃ e, env.RemoveLFTagsFromResourceWithContext
        ((cs ++ [Call.RemoveLFTagsFromResource input]).length + i) input = .error e ∧
        onAllowList e := by
      intro i hi
      have := h (i + 1) (Nat.succ_lt_succ hi)
      simpa [Nat.add_assoc, Nat.add_comm 1 i] using this
    simp only [RetryContext.loop, hstep, hA, decide_True, if_true]
    rw [ih _ hrest]
    simp [List.replicate_succ]

/-- The retry loop of delete, when the attempts before attempt `k` fail with an
allow-listed error and attempt `k` does not, ends with the outcome of attempt
`k`, an error being wrapped. -/
theorem delete_loop_stop (env : Env) (input : RemoveLFTagsFromResourceInput) (n k : Nat)
    (cs : List Call) (hk : k < n)
    (h : ∀ i, i < k → ∃ e, env.RemoveLFTagsFromResourceWithContext (cs.length + i) input =
      .error e ∧ onAllowList e)
    (hstop : ∀ e, env.RemoveLFTagsFromResourceWithContext (cs.length + k) input = .error e →
      ¬ onAllowList e) :
    RetryContext.loop (deleteRetryFunc env input) n cs =
      (deleteLoopErr (env.RemoveLFTagsFromResourceWithContext (cs.length + k) input),
        cs ++ List.replicate (k + 1) (.RemoveLFTagsFromResource input)) := by
  induction k generalizing cs n with
  | zero =>
    obtain ⟨m, rfl⟩ : ∃ m, n = m + 1 := ⟨n - 1, by omega⟩
    cases hresp : env.RemoveLFTagsFromResourceWithContext cs.length input with
    | ok o =>
      have hstep := deleteRetryFunc_ok env input cs hresp
      simp [RetryContext.loop, hstep, deleteLoopErr, hresp]
    | error e =>
      have hstep := deleteRetryFunc_error env input cs e hresp
      have hA : ¬ onAllowList e := hstop e (by simpa using hresp)
      simp [RetryContext.loop, hstep, hA, deleteLoopErr, hresp]
  | succ k ih =>
    obtain ⟨m, rfl⟩ : ∃ m, n = m + 1 := ⟨n - 1, by omega⟩
    obtain ⟨e, he, hA⟩ := h 0 (Nat.succ_pos k)
    have hstep := deleteRetryFunc_error env input cs e (by simpa using he)
    have hrest : ∀ i, i < k → ∃ e, env.RemoveLFTagsFromResourceWithContext
        ((cs ++ [Call.RemoveLFTagsFromResource input]).length + i) input = .error e ∧
        onAllowList e := by
      intro i hi
      have := h (i + 1) (Nat.succ_lt_succ hi)
      simpa [Nat.add_assoc, Nat.add_comm 1 i] using this
    have hstop2 : ∀ e, env.RemoveLFTagsFromResourceWithContext
        ((cs ++ [Call.RemoveLFTagsFromResource input]).length + k) input = .error e →
        ¬ onAllowList e := by
      intro e he
      apply hstop e
      simpa [Nat.add_assoc, Nat.add_comm 1 k] using he
    have hidx : (cs ++ [Call.RemoveLFTagsFromResource input]).length + k =
        cs.length + (k + 1) := by
      simp [Nat.add_assoc, Nat.add_comm 1 k]
    simp only [RetryContext.loop, hstep, hA, decide_True, if_true]
    rw [ih m _ (by omega) hrest hstop2, hidx]
    simp [List.replicate_succ]

/-- The error of a remote call of create is never the timeout error. -/
theorem callAdd_not_timedOut (env : Env) (input : AddLFTagsToResourceInput) (s : CreateVars) :
    TimedOut (callAddLFTagsToResource env input s).2 = false := by
  unfold callAddLFTagsToResource
  cases env.AddLFTagsToResourceWithContext s.calls.length input <;> simp [TimedOut]

/-- The tagging stage of create when the loop runs until its timeout: the
attempt that follows decides. -/
theorem addLFTagsWithRetry_timeout (env : Env) (input : AddLFTagsToResourceInput)
    (h : ∀ i, i < env.attemptsWithin env.IAMPropagationTimeout →
      ∃ e, env.AddLFTagsToResourceWithContext i input = .error e ∧ onAllowList e) :
    addLFTagsWithRetry env input =
      callAddLFTagsToResource env input
        { output := none
          calls := List.replicate (env.attemptsWithin env.IAMPropagationTimeout)
            (.AddLFTagsToResource input) } := by
  have hl := create_loop_timeout env input (env.attemptsWithin env.IAMPropagationTimeout) []
    (by simpa using h)
  simp only [List.nil_append] at hl
  simp [addLFTagsWithRetry, RetryContext, hl, TimedOut]

/-- The tagging stage of create when attempt `k` of the loop does not fail
with an allow-listed error: that attempt decides. -/
theorem addLFTagsWithRetry_stop (env : Env) (input : AddLFTagsToResourceInput) (k : Nat)
    (hk : k < env.attemptsWithin env.IAMPropagationTimeout)
    (h : ∀ i, i < k → ∃ e, env.AddLFTagsToResourceWithContext i input = .error e ∧
      onAllowList e)
    (hstop : ∀ e, env.AddLFTagsToResourceWithContext k input = .error e → ¬ onAllowList e) :
    addLFTagsWithRetry env input =
      callAddLFTagsToResource env input
        { output := none, calls := List.replicate k (.AddLFTagsToResource input) } := by
  have hl := create_loop_stop env input (env.attemptsWithin env.IAMPropagationTimeout) k [] hk
    (by simpa using h) (by simpa using hstop)
  simp only [List.nil_append] at hl
  simp [addLFTagsWithRetry, RetryContext, hl, callAdd_not_timedOut]

/-- The removing stage of delete when the loop runs until its timeout: the
attempt that follows decides. -/
theorem removeLFTagsWithRetry_timeout (env : Env) (d : ResourceData)
    (input : RemoveLFTagsFromResourceInput)
    (h : ∀ i, i < env.attemptsWithin (d.Timeout .TimeoutDelete) →
      ∃ e, env.RemoveLFTagsFromResourceWithContext i input = .error e ∧ onAllowList e) :
    removeLFTagsWithRetry env d input =
      callRemoveLFTagsFromResource env input
        (List.replicate (env.attemptsWithin (d.Timeout .TimeoutDelete))
          (.RemoveLFTagsFromResource input)) := by
  have hl := delete_loop_timeout env input (env.attemptsWithin (d.Timeout .TimeoutDelete)) []
    (by simpa using h)
  simp only [List.nil_append] at hl
  simp [removeLFTagsWithRetry, RetryContext, hl, TimedOut]

/-- The removing stage of delete when attempt `k` of the loop does not fail
with an allow-listed error: that attempt decides, an error being wrapped. -/
theorem removeLFTagsWithRetry_stop (env : Env) (d : ResourceData)
    (input : RemoveLFTagsFromResourceInput) (k : Nat)
    (hk : k < env.attemptsWithin (d.Timeout .TimeoutDelete))
    (h : ∀ i, i < k → ∃ e, env.RemoveLFTagsFromResourceWithContext i input = .error e ∧
      onAllowList e)
    (hstop : ∀ e, env.RemoveLFTagsFromResourceWithContext k input = .error e →
      ¬ onAllowList e) :
    removeLFTagsWithRetry env d input =
      (List.replicate (k + 1) (.RemoveLFTagsFromResource input),
        deleteLoopErr (env.RemoveLFTagsFromResourceWithContext k input)) := by
  have hl := delete_loop_stop env input (env.attemptsWithin (d.Timeout .TimeoutDelete)) k [] hk
    (by simpa using h) (by simpa using hstop)
  simp only [List.nil_append, List.length_nil, Nat.zero_add] at hl
  have hto : TimedOut (deleteLoopErr (env.RemoveLFTagsFromResourceWithContext k input)) =
      false := by
    cases env.RemoveLFTagsFromResourceWithContext k input <;> simp [deleteLoopErr, TimedOut]
  simp [removeLFTagsWithRetry, RetryContext, hl, hto]

/-- A dispatch without an error diagnostic has no diagnostic at all. -/
theorem lfTagsTagger_diags_nil (d : ResourceData)
    (hd : Diagnostics.HasError (lfTagsTagger d).2 = false) : (lfTagsTagger d).2 = [] := by
  rw [lfTagsTagger_eq] at hd ⊢
  by_cases p1 : populated d.database
  · simp [p1]
  · by_cases p2 : populated d.table
    · simp [p1, p2]
    · by_cases p3 : populated d.table_with_columns
      · simp [p1, p2, p3]
      · simp [p1, p2, p3, Diagnostics.HasError, invalidResourceType, Diagnostic.severity] at hd

/-- C5: in create and in delete, when every attempt of the retry loop fails
with an allow-listed error until the timeout, exactly one further call of the
same operation with the same request follows, and its outcome (its error, or
success) is the outcome of the operation; when the loop ends at an attempt
before the timeout, no further call is issued. -/
theorem retry_timeout_one_more_call (env : Env) (d : ResourceData)
    (resource : Option Resource)
    (hd : Diagnostics.HasError (lfTagsTagger d).2 = false)
    (hr : callExpandResource env (lfTagsTagger d).1 d = .ok resource) :
    ((∀ i, i < env.attemptsWithin env.IAMPropagationTimeout →
        ∃ e, env.AddLFTagsToResourceWithContext i (createInput d resource) = .error e ∧
          onAllowList e) →
      (addLFTagsWithRetry env (createInput d resource)).1.calls =
        List.replicate (env.attemptsWithin env.IAMPropagationTimeout + 1)
          (.AddLFTagsToResource (createInput d resource)) ∧
      (∀ e, env.AddLFTagsToResourceWithContext (env.attemptsWithin env.IAMPropagationTimeout)
          (createInput d resource) = .error e →
        resourceResourceLFTagsCreate env d =
          .ok { d := d
                diags := [.addError .Creating ResNameLFTags
                  (env.inputString (createInput d resource)) (.vendor e)]
                calls := List.replicate (env.attemptsWithin env.IAMPropagationTimeout + 1)
                  (.AddLFTagsToResource (createInput d resource)) }) ∧
      (∀ o, env.AddLFTagsToResourceWithContext (env.attemptsWithin env.IAMPropagationTimeout)
          (createInput d resource) = .ok o →
        addLFTagsWithRetry env (createInput d resource) =
          ({ output := o
             calls := List.replicate (env.attemptsWithin env.IAMPropagationTimeout + 1)
              (.AddLFTagsToResource (createInput d resource)) }, none))) ∧
    (∀ k, k < env.attemptsWithin env.IAMPropagationTimeout →
      (∀ i, i < k →
        ∃ e, env.AddLFTagsToResourceWithContext i (createInput d resource) = .error e ∧
          onAllowList e) →
      (∀ e, env.AddLFTagsToResourceWithContext k (createInput d resource) = .error e →
        ¬ onAllowList e) →
      (addLFTagsWithRetry env (createInput d resource)).1.calls =
        List.replicate (k + 1) (.AddLFTagsToResource (createInput d resource))) ∧
    (¬ (resource = none ∨ resource = some {} ∨ Slice.len (requestLFTags d) = 0) →
      ((∀ i, i < env.attemptsWithin (d.Timeout .TimeoutDelete) →
          ∃ e, env.RemoveLFTagsFromResourceWithContext i (deleteInput d resource) = .error e ∧
            onAllowList e) →
        (∀ e, env.RemoveLFTagsFromResourceWithContext
            (env.attemptsWithin (d.Timeout .TimeoutDelete)) (deleteInput d resource) =
              .error e →
          resourceResourceLFTagsDelete env d =
            .ok { d := d
                  diags := [.addError .Deleting ResNameLFTags d.Id (.vendor e)]
                  calls := List.replicate (env.attemptsWithin (d.Timeout .TimeoutDelete) + 1)
                    (.RemoveLFTagsFromResource (deleteInput d resource)) }) ∧
        (env.RemoveLFTagsFromResourceWithContext
            (env.attemptsWithin (d.Timeout .TimeoutDelete)) (deleteInput d resource) =
              .ok () →
          resourceResourceLFTagsDelete env d =
            .ok { d := d
                  diags := []
                  calls := List.replicate (env.attemptsWithin (d.Timeout .TimeoutDelete) + 1)
                    (.RemoveLFTagsFromResource (deleteInput d resource)) })) ∧
      (∀ k, k < env.attemptsWithin (d.Timeout .TimeoutDelete) →
        (∀ i, i < k →
          ∃ e, env.RemoveLFTagsFromResourceWithContext i (deleteInput d resource) = .error e ∧
            onAllowList e) →
        (∀ e, env.RemoveLFTagsFromResourceWithContext k (deleteInput d resource) = .error e →
          ¬ onAllowList e) →
        ∃ out, resourceResourceLFTagsDelete env d = .ok out ∧
          out.calls = List.replicate (k + 1)
            (.RemoveLFTagsFromResource (deleteInput d resource)))) := by
  have hnil := lfTagsTagger_diags_nil d hd
  refine ⟨?_, ?_, ?_⟩
  · intro h
    have hs := addLFTagsWithRetry_timeout env (createInput d resource) h
    refine ⟨?_, ?_, ?_⟩
    · rw [hs]
      unfold callAddLFTagsToResource
      cases env.AddLFTagsToResourceWithContext _ (createInput d resource) <;>
        simp [List.replicate_succ']
    · intro e he
      rw [create_eq env d resource hd hr, hs, hnil]
      simp [callAddLFTagsToResource, he, List.replicate_succ']
    · intro o ho
      rw [hs]
      simp [callAddLFTagsToResource, ho, List.replicate_succ']
  · intro k hk h hstop
    rw [addLFTagsWithRetry_stop env (createInput d resource) k hk h hstop]
    unfold callAddLFTagsToResource
    cases env.AddLFTagsToResourceWithContext _ (createInput d resource) <;>
      simp [List.replicate_succ']
  · intro hg
    refine ⟨?_, ?_⟩
    · intro h
      have hs := removeLFTagsWithRetry_timeout env d (deleteInput d resource) h
      refine ⟨?_, ?_⟩
      · intro e he
        rw [delete_eq env d resource hd hr, if_neg hg, hs, hnil]
        simp [callRemoveLFTagsFromResource, he, List.replicate_succ']
      · intro ho
        rw [delete_eq env d resource hd hr, if_neg hg, hs, hnil]
        simp [callRemoveLFTagsFromResource, ho, List.replicate_succ']
    · intro k hk h hstop
      rw [delete_eq env d resource hd hr, if_neg hg,
        removeLFTagsWithRetry_stop env d (deleteInput d resource) k hk h hstop]
      cases env.RemoveLFTagsFromResourceWithContext k (deleteInput d resource) <;>
        simp [deleteLoopErr]

/-- Witness of C5: in the sample environment the two attempts of the create
loop meet a concurrent modification, a third call follows the timeout, and its
error is the outcome of create. -/
theorem retry_timeout_one_more_call_witness :
    resourceResourceLFTagsCreate sampleEnvBusy sampleDatabaseData =
      .ok { d := sampleDatabaseData
            diags := [.addError .Creating ResNameLFTags
              (sampleEnvBusy.inputString (createInput sampleDatabaseData sampleResource))
              (.vendor (.aws "ValidationException" "bad"))]
            calls := List.replicate (2 + 1)
              (.AddLFTagsToResource (createInput sampleDatabaseData sampleResource)) } :=
  ((retry_timeout_one_more_call sampleEnvBusy sampleDatabaseData sampleResource rfl rfl).1
    (fun i hi => by
      have hi2 : i < 2 := hi
      interval_cases i
      · exact ⟨_, rfl, by decide⟩
      · exact ⟨_, rfl, by decide⟩)).2.1 _ rfl

/-- Create on a first tagging call that fails with an error off the
allow-list: one call, one error diagnostic with that very error. -/
theorem create_fatal (env : Env) (d : ResourceData) (resource : Option Resource)
    (e : RemoteError)
    (hd : Diagnostics.HasError (lfTagsTagger d).2 = false)
    (hr : callExpandResource env (lfTagsTagger d).1 d = .ok resource)
    (hA : ¬ onAllowList e)
    (he : env.AddLFTagsToResourceWithContext 0 (createInput d resource) = .error e) :
    resourceResourceLFTagsCreate env d =
      .ok { d := d
            diags := [.addError .Creating ResNameLFTags
              (env.inputString (createInput d resource)) (.vendor e)]
            calls := [.AddLFTagsToResource (createInput d resource)] } := by
  have hnil := lfTagsTagger_diags_nil d hd
  have hs : addLFTagsWithRetry env (createInput d resource) =
      callAddLFTagsToResource env (createInput d resource) { output := none, calls := [] } := by
    by_cases h0 : env.attemptsWithin env.IAMPropagationTimeout = 0
    · have := addLFTagsWithRetry_timeout env (createInput d resource)
        (fun i hi => by omega)
      simpa [h0] using this
    · have := addLFTagsWithRetry_stop env (createInput d resource) 0 (by omega)
        (fun i hi => by omega)
        (fun e' he' => by rw [he] at he'; cases he'; exact hA)
      simpa using this
  rw [create_eq env d resource hd hr, hs, hnil]
  simp [callAddLFTagsToResource, he]

/-- Read on a remote call that fails: one call, one error diagnostic with that
very error, and the resource data unchanged. -/
theorem read_fatal (env : Env) (d : ResourceData) (resource : Option Resource)
    (e : RemoteError)
    (hd : Diagnostics.HasError (lfTagsTagger d).2 = false)
    (hr : callExpandResource env (lfTagsTagger d).1 d = .ok resource)
    (he : env.GetResourceLFTagsWithContext (readInput d resource) = .error e) :
    resourceResourceLFTagsRead env d =
      .ok { d := d
            diags := [.addError .Reading ResNameLFTags d.Id (.vendor e)]
            calls := [.GetResourceLFTags (readInput d resource)] } := by
  obtain ⟨t, ht, hrt⟩ := callExpandResource_ok env d resource hr
  rw [read_eq env d t resource hd ht hrt, lfTagsTagger_diags_nil d hd]
  simp [he]

/-- Delete on a first removing call that fails with an error off the
allow-list: one call, one error diagnostic, the error wrapped by the retry
closure. -/
theorem delete_fatal (env : Env) (d : ResourceData) (resource : Option Resource)
    (e : RemoteError)
    (hd : Diagnostics.HasError (lfTagsTagger d).2 = false)
    (hr : callExpandResource env (lfTagsTagger d).1 d = .ok resource)
    (hg : ¬ (resource = none ∨ resource = some {} ∨ Slice.len (requestLFTags d) = 0))
    (hA : ¬ onAllowList e)
    (he : env.RemoveLFTagsFromResourceWithContext 0 (deleteInput d resource) = .error e) :
    resourceResourceLFTagsDelete env d =
      .ok { d := d
            diags := [.addError .Deleting ResNameLFTags d.Id (deleteFatalErr env d e)]
            calls := [.RemoveLFTagsFromResource (deleteInput d resource)] } := by
  have hnil := lfTagsTagger_diags_nil d hd
  rw [delete_eq env d resource hd hr, if_neg hg, hnil]
  by_cases h0 : env.attemptsWithin (d.Timeout .TimeoutDelete) = 0
  · have := removeLFTagsWithRetry_timeout env d (deleteInput d resource)
      (fun i hi => by omega)
    rw [this]
    simp [h0, callRemoveLFTagsFromResource, he, deleteFatalErr]
  · have := removeLFTagsWithRetry_stop env d (deleteInput d resource) 0 (by omega)
      (fun i hi => by omega)
      (fun e' he' => by rw [he] at he'; cases he'; exact hA)
    rw [this]
    have hpos : 0 < env.attemptsWithin (d.Timeout .TimeoutDelete) := by omega
    simp [he, deleteLoopErr, deleteFatalErr, hpos]

/-- A not-found error is not on the retry allow-list. -/
theorem notFound_not_allowListed (e : RemoteError) (h : isNotFound e) : ¬ onAllowList e := by
  cases e with
  | other t => exact fun h' => h'
  | aws code message =>
    have hc : code = "EntityNotFoundException" := h
    subst hc
    simp [onAllowList]

/-- C6, as amended: for every remote error that is neither on the retry
allow-list nor a not-found error, create, read and delete make exactly one
remote call and return one error diagnostic; in create and read the error of
the diagnostic is the very error of the remote call; in delete it is that
error wrapped as "removing Lake Formation LF-Tags: %w" by the retry closure
(and the very error only when the one call is the call after the timeout). -/
theorem nonretryable_error_fatal (env : Env) (d : ResourceData) (resource : Option Resource)
    (e : RemoteError)
    (hd : Diagnostics.HasError (lfTagsTagger d).2 = false)
    (hr : callExpandResource env (lfTagsTagger d).1 d = .ok resource)
    (hA : ¬ onAllowList e) (_hN : ¬ isNotFound e) :
    (env.AddLFTagsToResourceWithContext 0 (createInput d resource) = .error e →
      resourceResourceLFTagsCreate env d =
        .ok { d := d
              diags := [.addError .Creating ResNameLFTags
                (env.inputString (createInput d resource)) (.vendor e)]
              calls := [.AddLFTagsToResource (createInput d resource)] }) ∧
    (env.GetResourceLFTagsWithContext (readInput d resource) = .error e →
      resourceResourceLFTagsRead env d =
        .ok { d := d
              diags := [.addError .Reading ResNameLFTags d.Id (.vendor e)]
              calls := [.GetResourceLFTags (readInput d resource)] }) ∧
    (¬ (resource = none ∨ resource = some {} ∨ Slice.len (requestLFTags d) = 0) →
      env.RemoveLFTagsFromResourceWithContext 0 (deleteInput d resource) = .error e →
      resourceResourceLFTagsDelete env d =
        .ok { d := d
              diags := [.addError .Deleting ResNameLFTags d.Id
                (if 0 < env.attemptsWithin (d.Timeout .TimeoutDelete) then
                  .wrapf "removing Lake Formation LF-Tags" (.vendor e)
                else .vendor e)]
              calls := [.RemoveLFTagsFromResource (deleteInput d resource)] }) :=
  ⟨create_fatal env d resource e hd hr hA, read_fatal env d resource e hd hr,
    fun hg he => delete_fatal env d resource e hd hr hg hA he⟩

/-- Witness of C6 as amended: in the sample environment that rejects every
call as invalid, create returns one error diagnostic with the vendor error
after one call. -/
theorem nonretryable_error_fatal_witness :
    resourceResourceLFTagsCreate sampleEnvInvalid sampleDatabaseData =
      .ok { d := sampleDatabaseData
            diags := [.addError .Creating ResNameLFTags
              (sampleEnvInvalid.inputString (createInput sampleDatabaseData sampleResource))
              (.vendor (.aws "ValidationException" "bad"))]
            calls := [.AddLFTagsToResource (createInput sampleDatabaseData sampleResource)] } :=
  (nonretryable_error_fatal sampleEnvInvalid sampleDatabaseData sampleResource
    (.aws "ValidationException" "bad") rfl rfl (by decide) (by decide)).1 rfl

/-- C6 fails as stated: in the sample environment that rejects every call as
invalid, the error delete attaches to its diagnostic is not the error of the
remote call but that error wrapped. -/
theorem nonretryable_error_fatal_counterexample :
    ¬ onAllowList (.aws "ValidationException" "bad") ∧
    ¬ isNotFound (.aws "ValidationException" "bad") ∧
    (resourceResourceLFTagsDelete sampleEnvInvalid sampleCreatedData).map (fun o => o.diags) =
      .ok [.addError .Deleting ResNameLFTags "1234567890"
        (.wrapf "removing Lake Formation LF-Tags"
          (.vendor (.aws "ValidationException" "bad")))] ∧
    GoError.wrapf "removing Lake Formation LF-Tags"
        (.vendor (.aws "ValidationException" "bad")) ≠
      .vendor (.aws "ValidationException" "bad") :=
  ⟨by decide, by decide, rfl, by decide⟩

/-- C7, as amended: a not-found error of the remote call of read or of delete
is handled like any other error off the allow-list: the operation returns one
error diagnostic carrying it (wrapped, in delete) and leaves the resource
data, the ID included, unchanged. -/
theorem not_found_is_fatal (env : Env) (d : ResourceData) (resource : Option Resource)
    (e : RemoteError)
    (hd : Diagnostics.HasError (lfTagsTagger d).2 = false)
    (hr : callExpandResource env (lfTagsTagger d).1 d = .ok resource)
    (hN : isNotFound e) :
    (env.GetResourceLFTagsWithContext (readInput d resource) = .error e →
      resourceResourceLFTagsRead env d =
        .ok { d := d
              diags := [.addError .Reading ResNameLFTags d.Id (.vendor e)]
              calls := [.GetResourceLFTags (readInput d resource)] }) ∧
    (¬ (resource = none ∨ resource = some {} ∨ Slice.len (requestLFTags d) = 0) →
      env.RemoveLFTagsFromResourceWithContext 0 (deleteInput d resource) = .error e →
      resourceResourceLFTagsDelete env d =
        .ok { d := d
              diags := [.addError .Deleting ResNameLFTags d.Id
                (if 0 < env.attemptsWithin (d.Timeout .TimeoutDelete) then
                  .wrapf "removing Lake Formation LF-Tags" (.vendor e)
                else .vendor e)]
              calls := [.RemoveLFTagsFromResource (deleteInput d resource)] }) :=
  ⟨read_fatal env d resource e hd hr,
    fun hg he => delete_fatal env d resource e hd hr hg (notFound_not_allowListed e hN) he⟩

/-- Witness of C7 as amended: in the sample environment that reports every
entity as not found, read returns an error diagnostic and keeps the ID. -/
theorem not_found_is_fatal_witness :
    resourceResourceLFTagsRead sampleEnvNotFound sampleCreatedData =
      .ok { d := sampleCreatedData
            diags := [.addError .Reading ResNameLFTags sampleCreatedData.Id
              (.vendor (.aws "EntityNotFoundException" "gone"))]
            calls := [.GetResourceLFTags (readInput sampleCreatedData sampleResource)] } :=
  (not_found_is_fatal sampleEnvNotFound sampleCreatedData sampleResource
    (.aws "EntityNotFoundException" "gone") rfl rfl (by decide)).1 rfl

/-- C7 fails as stated: when the remote call of read reports that the entity
is not found, read returns an error diagnostic and the resource ID is still
set; delete likewise returns an error diagnostic. -/
theorem not_found_is_fatal_counterexample :
    isNotFound (.aws "EntityNotFoundException" "gone") ∧
    (resourceResourceLFTagsRead sampleEnvNotFound sampleCreatedData).map
      (fun o => (o.diags.HasError, o.d.id)) = .ok (true, "1234567890") ∧
    (resourceResourceLFTagsDelete sampleEnvNotFound sampleCreatedData).map
      (fun o => o.diags.HasError) = .ok true :=
  ⟨by decide, rfl, rfl⟩

/-- The loop over the failures adds one error diagnostic per complete entry. -/
theorem failureDiags_count (fs : List LFTagError) (diags : Diagnostics) :
    ∃ added, failureDiags (fs.map some) diags = .ok (diags ++ added) ∧
      added.length = (fs.filter LFTagError.complete).length ∧
      ∀ x ∈ added, x.severity = Severity.Error := by
  induction fs generalizing diags with
  | nil => exact ⟨[], by simp [failureDiags]⟩
  | cons v rest ih =>
    cases hT : v.LFTag with
    | none =>
      obtain ⟨added, h1, h2, h3⟩ := ih diags
      refine ⟨added, ?_, ?_, h3⟩
      · simp [failureDiags, hT, h1]
      · simp [List.filter_cons, LFTagError.complete, hT, h2]
    | some t =>
      cases hE : v.Error with
      | none =>
        obtain ⟨added, h1, h2, h3⟩ := ih diags
        refine ⟨added, ?_, ?_, h3⟩
        · simp [failureDiags, hT, hE, h1]
        · simp [List.filter_cons, LFTagError.complete, hT, hE, h2]
      | some e =>
        obtain ⟨added, h1, h2, h3⟩ := ih (diags ++ [.addError .Creating ResNameLFTags
          (failureId t)
          (.vendor (.aws (StringValue e.ErrorCode) (StringValue e.ErrorMessage)))])
        refine ⟨Diagnostic.addError .Creating ResNameLFTags (failureId t)
          (.vendor (.aws (StringValue e.ErrorCode) (StringValue e.ErrorMessage))) :: added,
          ?_, ?_, ?_⟩
        · simp [failureDiags, hT, hE, h1]
        · simp [List.filter_cons, LFTagError.complete, hT, hE, h2]
        · intro x hx
          rcases List.mem_cons.mp hx with rfl | hx
          · rfl
          · exact h3 x hx

/-- Appending diagnostics that are all errors to a list without errors gives
a list with an error exactly when something is appended. -/
theorem hasError_append_errors (diags added : Diagnostics)
    (hd : Diagnostics.HasError diags = false)
    (h : ∀ x ∈ added, x.severity = Severity.Error) :
    Diagnostics.HasError (diags ++ added) = decide (0 < added.length) := by
  cases added with
  | nil => simpa using hd
  | cons x rest =>
    have hx := h x (List.mem_cons_self _ _)
    simp [Diagnostics.HasError, hx]

/-- C8, as amended: for every response create receives without error and
whose failure entries are `fs`, create collects one error diagnostic per
entry that carries both its tag and its error detail (entries lacking either
are skipped): the number of error diagnostics added equals the number of such
entries, and create fails, with the ID unchanged, whenever there is one. -/
theorem create_failure_diagnostics (env : Env) (d : ResourceData)
    (resource : Option Resource) (s : CreateVars) (o : AddLFTagsToResourceOutput)
    (fs : List LFTagError)
    (hd : Diagnostics.HasError (lfTagsTagger d).2 = false)
    (hr : callExpandResource env (lfTagsTagger d).1 d = .ok resource)
    (hs : addLFTagsWithRetry env (createInput d resource) = (s, none))
    (ho : s.output = some o) (hf : Slice.toList o.Failures = fs.map some) :
    ∃ added, collectFailures s.output [] = .ok added ∧
      added.length = (fs.filter LFTagError.complete).length ∧
      (∀ x ∈ added, x.severity = Severity.Error) ∧
      ((∃ v ∈ fs, v.complete = true) →
        resourceResourceLFTagsCreate env d = .ok { d := d, diags := added, calls := s.calls } ∧
        Diagnostics.HasError added = true) := by
  obtain ⟨added, h1, h2, h3⟩ := failureDiags_count fs []
  have hc : collectFailures s.output [] = .ok added := by
    rw [ho]
    unfold collectFailures
    by_cases hl : Slice.len o.Failures > 0
    · simp only [hl, if_true, hf]
      simpa using h1
    · have hfs : fs = [] := by
        have : (fs.map some).length = 0 := by
          rw [← hf]; unfold Slice.len at hl; omega
        simpa using this
      subst hfs
      simp only [hl, if_false]
      simp [failureDiags] at h1
      rw [h1]
  refine ⟨added, hc, h2, h3, ?_⟩
  rintro ⟨v, hv, hvc⟩
  have hpos : 0 < added.length := by
    rw [h2]
    exact List.length_pos_of_mem (List.mem_filter.mpr ⟨hv, hvc⟩)
  have herr : Diagnostics.HasError added = true := by
    have := hasError_append_errors [] added rfl h3
    simpa [hpos] using this
  refine ⟨?_, herr⟩
  rw [create_eq env d resource hd hr, hs, lfTagsTagger_diags_nil d hd]
  simp [hc, herr]

/-- Witness of C8 as amended: a response with one complete failure entry makes
create fail with one error diagnostic. -/
theorem create_failure_diagnostics_witness :
    ∃ added, collectFailures (some sampleFailure) [] = .ok added ∧ added.length = 1 ∧
      resourceResourceLFTagsCreate
          (sampleEnv (fun _ => .ok (some sampleFailure)) (.ok (some {})) (fun _ => .ok ()))
          sampleDatabaseData =
        .ok { d := sampleDatabaseData, diags := added
              calls := [.AddLFTagsToResource (createInput sampleDatabaseData sampleResource)] } :=
  have h := create_failure_diagnostics
    (sampleEnv (fun _ => .ok (some sampleFailure)) (.ok (some {})) (fun _ => .ok ()))
    sampleDatabaseData sampleResource
    { output := some sampleFailure
      calls := [.AddLFTagsToResource (createInput sampleDatabaseData sampleResource)] }
    sampleFailure
    [{ Error := some { ErrorCode := some "AccessDeniedException", ErrorMessage := some "denied" }
       LFTag := some { TagKey := some "team" } }]
    rfl rfl rfl rfl rfl
  h.elim fun added ha => ⟨added, ha.1, ha.2.1, (ha.2.2.2 ⟨_, List.mem_singleton.mpr rfl, rfl⟩).1⟩

/-- C8 fails as stated: for a response whose one failure entry has no tag,
create adds no error diagnostic, does not fail, and sets the resource ID. -/
theorem create_failure_diagnostics_counterexample :
    Slice.len sampleFailureNoTag.Failures = 1 ∧
    collectFailures (some sampleFailureNoTag) [] = .ok [] ∧
    (resourceResourceLFTagsCreate sampleEnvFailureNoTag sampleDatabaseData).map
      (fun o => (o.diags, o.d.id)) = .ok ([], "12") :=
  ⟨rfl, rfl, rfl⟩

/-- C10: in delete, when the expanded target is nil or equal to an empty
`Resource`, or the expanded list of tag pairs is empty, no remote call is
issued and exactly one diagnostic is returned, the warning "no LF-Tags to
remove", which is not an error. -/
theorem delete_nothing_to_remove (env : Env) (d : ResourceData)
    (resource : Option Resource)
    (hd : Diagnostics.HasError (lfTagsTagger d).2 = false)
    (hr : callExpandResource env (lfTagsTagger d).1 d = .ok resource)
    (hg : resource = none ∨ resource = some {} ∨ Slice.len (requestLFTags d) = 0) :
    resourceResourceLFTagsDelete env d =
      .ok { d := d
            diags := [.addWarningMessage .Setting ResNameLFTags d.Id "no LF-Tags to remove"]
            calls := [] } ∧
    (Diagnostic.addWarningMessage .Setting ResNameLFTags d.Id "no LF-Tags to remove").severity =
      Severity.Warning ∧
    Diagnostics.HasError
      [.addWarningMessage .Setting ResNameLFTags d.Id "no LF-Tags to remove"] = false := by
  refine ⟨?_, rfl, rfl⟩
  rw [delete_eq env d resource hd hr, if_pos hg, lfTagsTagger_diags_nil d hd]
  rfl

/-- Witness of C10: the sample configuration without tags is deleted with the
warning and without a remote call. -/
theorem delete_nothing_to_remove_witness :
    resourceResourceLFTagsDelete sampleEnvOk sampleDataNoTags =
      .ok { d := sampleDataNoTags
            diags := [.addWarningMessage .Setting ResNameLFTags sampleDataNoTags.Id
              "no LF-Tags to remove"]
            calls := [] } :=
  (delete_nothing_to_remove sampleEnvOk sampleDataNoTags sampleResource rfl rfl
    (Or.inr (Or.inr rfl))).1

/-- Read never changes the resource ID. -/
theorem read_preserves_id (env : Env) (d : ResourceData) (r : Outcome)
    (h : resourceResourceLFTagsRead env d = .ok r) : r.d.id = d.id := by
  cases hd : Diagnostics.HasError (lfTagsTagger d).2 with
  | true =>
    unfold resourceResourceLFTagsRead at h
    simp only [List.nil_append, hd, if_true] at h
    cases h; rfl
  | false =>
    cases ht : (lfTagsTagger d).1 with
    | none =>
      unfold resourceResourceLFTagsRead at h
      simp [hd, ht] at h
    | some t =>
      cases hr : t.ExpandResource env d with
      | error p =>
        unfold resourceResourceLFTagsRead at h
        simp [hd, ht, hr] at h
      | ok resource =>
        rw [read_eq env d t resource hd ht hr] at h
        cases hg : env.GetResourceLFTagsWithContext (readInput d resource) with
        | error e => rw [hg] at h; cases h; rfl
        | ok output =>
          cases hf : callFlattenTags t output with
          | error p => rw [hg] at h; simp [hf] at h
          | ok v =>
            cases hs : env.Set_lf_tag v with
            | error e => rw [hg] at h; simp only [hf, hs] at h; cases h; rfl
            | ok l => rw [hg] at h; simp only [hf, hs] at h; cases h; rfl

/-- C9: create sets the resource ID if and only if the tagging call ended
without error and no error diagnostic was collected from the failures of its
response; the ID is then the decimal rendering of `create.StringHashcode` of
the serialised request; on every earlier return the resource data, the ID
included, is unchanged; and two configurations that expand to the same
request receive the same ID. -/
theorem create_sets_id (env : Env) (d : ResourceData) :
    (Diagnostics.HasError (lfTagsTagger d).2 = true →
      resourceResourceLFTagsCreate env d =
        .ok { d := d, diags := (lfTagsTagger d).2, calls := [] }) ∧
    (∀ resource out,
      Diagnostics.HasError (lfTagsTagger d).2 = false →
      callExpandResource env (lfTagsTagger d).1 d = .ok resource →
      resourceResourceLFTagsCreate env d = .ok out →
      (createTagged env d resource →
        out.d.id = toString (env.StringHashcode (env.inputString (createInput d resource)))) ∧
      (¬ createTagged env d resource → out.d = d)) ∧
    (∀ resource r,
      Diagnostics.HasError (lfTagsTagger d).2 = false →
      callExpandResource env (lfTagsTagger d).1 d = .ok resource →
      createTagged env d resource →
      resourceResourceLFTagsRead env (d.SetId (createId env (createInput d resource))) = .ok r →
      ∃ out, resourceResourceLFTagsCreate env d = .ok out ∧ out.d = r.d) ∧
    (∀ d2 resource resource2 out out2,
      Diagnostics.HasError (lfTagsTagger d).2 = false →
      callExpandResource env (lfTagsTagger d).1 d = .ok resource →
      resourceResourceLFTagsCreate env d = .ok out →
      createTagged env d resource →
      Diagnostics.HasError (lfTagsTagger d2).2 = false →
      callExpandResource env (lfTagsTagger d2).1 d2 = .ok resource2 →
      resourceResourceLFTagsCreate env d2 = .ok out2 →
      createTagged env d2 resource2 →
      createInput d resource = createInput d2 resource2 →
      out.d.id = out2.d.id) := by
  have main : ∀ (d : ResourceData) resource out,
      Diagnostics.HasError (lfTagsTagger d).2 = false →
      callExpandResource env (lfTagsTagger d).1 d = .ok resource →
      resourceResourceLFTagsCreate env d = .ok out →
      (createTagged env d resource →
        out.d.id = toString (env.StringHashcode (env.inputString (createInput d resource)))) ∧
      (¬ createTagged env d resource → out.d = d) := by
    intro d resource out hd hr h
    rw [create_eq env d resource hd hr, lfTagsTagger_diags_nil d hd] at h
    cases hs : addLFTagsWithRetry env (createInput d resource) with
    | mk s err =>
      rw [hs] at h
      cases err with
      | some e =>
        simp only [Except.ok.injEq] at h
        subst h
        refine ⟨?_, fun _ => rfl⟩
        rintro ⟨s', ds, h1, _, _⟩
        rw [hs] at h1
        cases h1
      | none =>
        simp only at h
        cases hc : collectFailures s.output [] with
        | error p => rw [hc] at h; cases h
        | ok ds =>
          rw [hc] at h
          simp only at h
          cases he : Diagnostics.HasError ds with
          | true =>
            simp only [he, if_true, Except.ok.injEq] at h
            subst h
            refine ⟨?_, fun _ => rfl⟩
            rintro ⟨s', ds', h1, h2, h3⟩
            rw [hs] at h1
            cases h1
            rw [hc] at h2
            cases h2
            rw [he] at h3
            cases h3
          | false =>
            simp only [he] at h
            cases hread : resourceResourceLFTagsRead env
                (d.SetId (createId env (createInput d resource))) with
            | error p => rw [hread] at h; simp at h
            | ok r =>
              rw [hread] at h
              simp only [Bool.false_eq_true, if_false, Except.ok.injEq] at h
              subst h
              refine ⟨fun _ => ?_, fun hn => absurd ⟨s, ds, hs, hc, he⟩ hn⟩
              have := read_preserves_id env _ r hread
              simpa [ResourceData.SetId, createId] using this
  refine ⟨?_, main d, ?_, ?_⟩
  · intro hd
    unfold resourceResourceLFTagsCreate
    simp [hd]
  · rintro resource r hd hr ⟨s, ds, hs, hc, he⟩ hread
    rw [create_eq env d resource hd hr, lfTagsTagger_diags_nil d hd, hs]
    simp [hc, he, hread]
  · intro d2 resource resource2 out out2 hd hr h ht hd2 hr2 h2 ht2 heq
    rw [(main d resource out hd hr h).1 ht, (main d2 resource2 out2 hd2 hr2 h2).1 ht2, heq]

/-- Witness of C9: in the sample environment where every remote call
succeeds, create of the sample configuration sets the ID to the rendered hash
of the serialised request. -/
theorem create_sets_id_witness :
    createTagged sampleEnvOk sampleDatabaseData sampleResource ∧
    ∃ out, resourceResourceLFTagsCreate sampleEnvOk sampleDatabaseData = .ok out ∧
      out.d.id = "12" :=
  have ht : createTagged sampleEnvOk sampleDatabaseData sampleResource :=
    ⟨{ output := some {}
       calls := [.AddLFTagsToResource (createInput sampleDatabaseData sampleResource)] },
      [], rfl, rfl, rfl⟩
  ⟨ht, _, rfl,
    ((create_sets_id sampleEnvOk sampleDatabaseData).2.1 sampleResource _ rfl rfl rfl).1 ht⟩

/-- C11: in the schema of the resource each of `database`, `table` and
`table_with_columns` is an optional list of at most one item whose
`ExactlyOneOf` is the list [database, table, table_with_columns]; no other
attribute, at the top level or below it, carries an `ExactlyOneOf`. -/
theorem schema_exactlyOneOf :
    (∀ name ∈ targetBlocks,
      (ResourceResourceLFTags.Schema.lookup name).map
          (fun s => (s.fields.Type_, s.fields.Optional, s.fields.MaxItems,
            s.fields.ExactlyOneOf)) =
        some (ValueType.TypeList, true, 1, ["database", "table", "table_with_columns"])) ∧
    (∀ p ∈ ResourceResourceLFTags.Schema, p.1 ∉ targetBlocks → p.2.fields.ExactlyOneOf = []) ∧
    (∀ p ∈ schemasBelow ResourceResourceLFTags.Schema, p.2.fields.ExactlyOneOf = []) ∧
    (∀ p ∈ schemasBelow (schemasBelow ResourceResourceLFTags.Schema),
      p.2.fields.ExactlyOneOf = []) ∧
    (schemasBelow (schemasBelow (schemasBelow ResourceResourceLFTags.Schema))).length = 0 ∧
    ResourceResourceLFTags.Schema.map (fun p => p.1) =
      ["catalog_id", "database", "lf_tag", "table", "table_with_columns"] := by
  refine ⟨by decide, by decide, by decide, by decide, by decide, by decide⟩

/-- The first element of a block whose guard holds is a map or another
non-nil value; the expression `l[0].(map[string]any)` does not index out of
range on it and its result, when it returns, is that map. -/
theorem firstMap_populated (l : List Val) (h : populated l) :
    firstMap l ≠ .error .indexOutOfRange ∧
    (∀ m rest, l = .map m :: rest → firstMap l = .ok m) := by
  cases l with
  | nil => exact absurd h (by simp [populated])
  | cons v rest =>
    refine ⟨?_, ?_⟩
    · cases v <;> simp [firstMap]
    · intro m rest' hl
      cases hl
      rfl

/-- The tagger returned by the dispatcher reads a populated block. -/
theorem lfTagsTagger_block_populated (d : ResourceData) (t : Tagger) (ds : Diagnostics)
    (h : lfTagsTagger d = (some t, ds)) : populated (d.Get t.block) := by
  rw [lfTagsTagger_eq] at h
  by_cases p1 : populated d.database
  · simp only [p1, if_true, Prod.mk.injEq, Option.some.injEq] at h
    rw [← h.1]; exact p1
  · by_cases p2 : populated d.table
    · simp only [p1, p2, if_true, if_false, Prod.mk.injEq, Option.some.injEq] at h
      rw [← h.1]; exact p2
    · by_cases p3 : populated d.table_with_columns
      · simp only [p1, p2, p3, if_true, if_false, Prod.mk.injEq, Option.some.injEq] at h
        rw [← h.1]; exact p3
      · simp [p1, p2, p3] at h

/-- The expansion of the tagger returned by the dispatcher does not index out
of range. -/
theorem expandResource_in_range (env : Env) (d : ResourceData) (t : Tagger)
    (ht : (lfTagsTagger d).1 = some t) : t.ExpandResource env d ≠ .error .indexOutOfRange := by
  have hp := lfTagsTagger_block_populated d t (lfTagsTagger d).2 (Prod.ext ht rfl)
  have hf := firstMap_populated (d.Get t.block) hp
  cases t <;>
  · simp only [Tagger.block] at hf
    unfold Tagger.ExpandResource
    simp only
    cases hfm : firstMap (d.Get _) with
    | error p =>
      intro hc
      simp only [Except.error.injEq] at hc
      subst hc
      exact hf.1 hfm
    | ok v => simp

/-- Read does not panic with an index out of range. -/
theorem read_in_range (env : Env) (d : ResourceData) :
    resourceResourceLFTagsRead env d ≠ .error .indexOutOfRange := by
  intro hc
  cases hd : Diagnostics.HasError (lfTagsTagger d).2 with
  | true =>
    unfold resourceResourceLFTagsRead at hc
    simp [hd] at hc
  | false =>
    cases ht : (lfTagsTagger d).1 with
    | none =>
      unfold resourceResourceLFTagsRead at hc
      simp [hd, ht] at hc
    | some t =>
      cases hr : t.ExpandResource env d with
      | error p =>
        unfold resourceResourceLFTagsRead at hc
        simp only [List.nil_append, hd, ht, hr] at hc
        simp only [Bool.false_eq_true, if_false, Except.error.injEq] at hc
        subst hc
        exact expandResource_in_range env d t ht hr
      | ok resource =>
        rw [read_eq env d t resource hd ht hr] at hc
        cases hg : env.GetResourceLFTagsWithContext (readInput d resource) with
        | error e => rw [hg] at hc; cases hc
        | ok output =>
          rw [hg] at hc
          cases output with
          | none => simp [callFlattenTags] at hc
          | some o =>
            simp only [callFlattenTags] at hc
            cases hs : env.Set_lf_tag (t.FlattenTags o) with
            | error e => rw [hs] at hc; cases hc
            | ok l => rw [hs] at hc; cases hc

/-- The loop over the failures of create does not panic with an index out of
range. -/
theorem collectFailures_in_range (output : Option AddLFTagsToResourceOutput)
    (diags : Diagnostics) : collectFailures output diags ≠ .error .indexOutOfRange := by
  have hloop : ∀ (l : List (Option LFTagError)) (ds : Diagnostics),
      failureDiags l ds ≠ .error .indexOutOfRange := by
    intro l
    induction l with
    | nil => intro ds; simp [failureDiags]
    | cons v rest ih =>
      intro ds
      cases v with
      | none => simp [failureDiags]
      | some w =>
        unfold failureDiags
        split
        · exact ih _
        · exact ih _
  unfold collectFailures
  cases output with
  | none => simp
  | some o =>
    simp only
    split
    · exact hloop _ _
    · simp

/-- The expansion called by create and delete does not index out of range. -/
theorem callExpandResource_in_range (env : Env) (d : ResourceData) :
    callExpandResource env (lfTagsTagger d).1 d ≠ .error .indexOutOfRange := by
  cases ht : (lfTagsTagger d).1 with
  | none => simp [callExpandResource]
  | some t => exact expandResource_in_range env d t ht

/-- Create does not panic with an index out of range. -/
theorem create_in_range (env : Env) (d : ResourceData) :
    resourceResourceLFTagsCreate env d ≠ .error .indexOutOfRange := by
  intro hc
  cases hd : Diagnostics.HasError (lfTagsTagger d).2 with
  | true =>
    unfold resourceResourceLFTagsCreate at hc
    simp [hd] at hc
  | false =>
    cases hr : callExpandResource env (lfTagsTagger d).1 d with
    | error p =>
      unfold resourceResourceLFTagsCreate at hc
      simp only [List.nil_append, hd, hr] at hc
      simp only [Bool.false_eq_true, if_false, Except.error.injEq] at hc
      subst hc
      exact callExpandResource_in_range env d hr
    | ok resource =>
      rw [create_eq env d resource hd hr] at hc
      cases hs : addLFTagsWithRetry env (createInput d resource) with
      | mk s err =>
        rw [hs] at hc
        cases err with
        | some e => cases hc
        | none =>
          simp only at hc
          cases hcf : collectFailures s.output (lfTagsTagger d).2 with
          | error p =>
            rw [hcf] at hc
            simp only [Except.error.injEq] at hc
            subst hc
            exact collectFailures_in_range _ _ hcf
          | ok ds =>
            rw [hcf] at hc
            simp only at hc
            cases he : Diagnostics.HasError ds with
            | true => simp [he] at hc
            | false =>
              simp only [he, Bool.false_eq_true, if_false] at hc
              cases hread : resourceResourceLFTagsRead env
                  (d.SetId (createId env (createInput d resource))) with
              | error p =>
                rw [hread] at hc
                simp only [Except.error.injEq] at hc
                subst hc
                exact read_in_range env _ hread
              | ok r => rw [hread] at hc; cases hc

/-- Delete does not panic with an index out of range. -/
theorem delete_in_range (env : Env) (d : ResourceData) :
    resourceResourceLFTagsDelete env d ≠ .error .indexOutOfRange := by
  intro hc
  cases hd : Diagnostics.HasError (lfTagsTagger d).2 with
  | true =>
    unfold resourceResourceLFTagsDelete at hc
    simp [hd] at hc
  | false =>
    cases hr : callExpandResource env (lfTagsTagger d).1 d with
    | error p =>
      unfold resourceResourceLFTagsDelete at hc
      simp only [List.nil_append, hd, hr] at hc
      simp only [Bool.false_eq_true, if_false, Except.error.injEq] at hc
      subst hc
      exact callExpandResource_in_range env d hr
    | ok resource =>
      rw [delete_eq env d resource hd hr] at hc
      split at hc
      · cases hc
      · cases hs : removeLFTagsWithRetry env d (deleteInput d resource) with
        | mk calls err =>
          rw [hs] at hc
          cases err <;> cases hc

/-- C14: for every configuration for which the dispatcher returns a tagger,
the block read by that tagger's `ExpandResource` is a list with at least one
element whose first element is not nil, so the index `[0]` is in range and
the type assertion does not meet a nil interface; when that first element is
a map, as the schema makes it, `ExpandResource` returns a resource; and
create, read and delete never panic with an index out of range. -/
theorem expandResource_index_safe (env : Env) (d : ResourceData) (t : Tagger)
    (ds : Diagnostics) (h : lfTagsTagger d = (some t, ds)) :
    d.Get t.block ≠ [] ∧
    (∀ v, (d.Get t.block).head? = some v → v ≠ Val.nil) ∧
    t.ExpandResource env d ≠ .error .indexOutOfRange ∧
    (∀ m rest, d.Get t.block = .map m :: rest →
      ∃ r, t.ExpandResource env d = .ok (some r)) ∧
    resourceResourceLFTagsCreate env d ≠ .error .indexOutOfRange ∧
    resourceResourceLFTagsRead env d ≠ .error .indexOutOfRange ∧
    resourceResourceLFTagsDelete env d ≠ .error .indexOutOfRange := by
  have hp := lfTagsTagger_block_populated d t ds h
  have hf := firstMap_populated (d.Get t.block) hp
  have ht : (lfTagsTagger d).1 = some t := by rw [h]
  refine ⟨?_, ?_, expandResource_in_range env d t ht, ?_, create_in_range env d,
    read_in_range env d, delete_in_range env d⟩
  · intro hnil
    rw [hnil] at hp
    exact hp
  · intro v hv
    cases hl : d.Get t.block with
    | nil => rw [hl] at hv; cases hv
    | cons w rest =>
      rw [hl] at hv hp
      simp only [List.head?_cons, Option.some.injEq] at hv
      subst hv
      exact hp
  · intro m rest hl
    have hm := hf.2 m rest hl
    cases t <;>
    · simp only [Tagger.block] at hm
      unfold Tagger.ExpandResource
      simp [hm]

/-- Witness of C14: the sample configuration is dispatched to the database
tagger, whose block is not empty and whose expansion returns a resource. -/
theorem expandResource_index_safe_witness :
    sampleDatabaseData.Get Tagger.databaseTagger.block ≠ [] ∧
    ∃ r, Tagger.databaseTagger.ExpandResource sampleEnvOk sampleDatabaseData = .ok (some r) :=
  have h := expandResource_index_safe sampleEnvOk sampleDatabaseData .databaseTagger [] rfl
  ⟨h.1, h.2.2.2.1 _ _ rfl⟩

/-- C15: the resource returned by a tagger's `ExpandResource` is not nil and
sets only the target field of its own variant, from the first element of its
own block; the other two target fields and every other field are nil; and
the resource is returned whenever the first element of the block is a map. -/
theorem expandResource_only_own_field (env : Env) (d : ResourceData) (t : Tagger) :
    (∀ r, t.ExpandResource env d = .ok r →
      ∃ res, r = some res ∧
        res.Catalog = none ∧ res.DataCellsFilter = none ∧ res.DataLocation = none ∧
        res.LFTag = none ∧ res.LFTagPolicy = none ∧
        (t = .databaseTagger → res.Table = none ∧ res.TableWithColumns = none ∧
          ∃ v, firstMap d.database = .ok v ∧ res.Database = env.ExpandDatabaseResource v) ∧
        (t = .tableTagger → res.Database = none ∧ res.TableWithColumns = none ∧
          ∃ v, firstMap d.table = .ok v ∧ res.Table = env.ExpandTableResource v) ∧
        (t = .columnTagger → res.Database = none ∧ res.Table = none ∧
          ∃ v, firstMap d.table_with_columns = .ok v ∧
            res.TableWithColumns = env.expandTableColumnsResource v)) ∧
    (∀ m rest, d.Get t.block = .map m :: rest →
      ∃ res, t.ExpandResource env d = .ok (some res)) := by
  refine ⟨?_, ?_⟩
  · intro r h
    cases t with
    | databaseTagger =>
      unfold Tagger.ExpandResource at h
      simp only [ResourceData.Get] at h
      cases hf : firstMap d.database with
      | error p => rw [hf] at h; cases h
      | ok v =>
        rw [hf] at h
        simp only [Except.ok.injEq] at h
        subst h
        refine ⟨_, rfl, rfl, rfl, rfl, rfl, rfl, ?_, ?_, ?_⟩
        all_goals intro hc
        all_goals first | exact ⟨rfl, rfl, v, rfl, rfl⟩ | cases hc
    | tableTagger =>
      unfold Tagger.ExpandResource at h
      simp only [ResourceData.Get] at h
      cases hf : firstMap d.table with
      | error p => rw [hf] at h; cases h
      | ok v =>
        rw [hf] at h
        simp only [Except.ok.injEq] at h
        subst h
        refine ⟨_, rfl, rfl, rfl, rfl, rfl, rfl, ?_, ?_, ?_⟩
        all_goals intro hc
        all_goals first | exact ⟨rfl, rfl, v, rfl, rfl⟩ | cases hc
    | columnTagger =>
      unfold Tagger.ExpandResource at h
      simp only [ResourceData.Get] at h
      cases hf : firstMap d.table_with_columns with
      | error p => rw [hf] at h; cases h
      | ok v =>
        rw [hf] at h
        simp only [Except.ok.injEq] at h
        subst h
        refine ⟨_, rfl, rfl, rfl, rfl, rfl, rfl, ?_, ?_, ?_⟩
        all_goals intro hc
        all_goals first | exact ⟨rfl, rfl, v, rfl, rfl⟩ | cases hc
  · intro m rest hl
    cases t <;>
    · simp only [Tagger.block] at hl
      unfold Tagger.ExpandResource
      simp [hl, firstMap]

/-- Witness of C15: the expansion of the sample configuration by the database
tagger sets the database target and leaves the table targets nil. -/
theorem expandResource_only_own_field_witness :
    ∃ res, Tagger.databaseTagger.ExpandResource sampleEnvOk sampleDatabaseData =
        .ok (some res) ∧
      res.Table = none ∧ res.TableWithColumns = none ∧
      res.Database = some { CatalogId := none, Name := some "db" } :=
  have h := (expandResource_only_own_field sampleEnvOk sampleDatabaseData .databaseTagger).1
    sampleResource rfl
  h.elim fun res hres =>
    ⟨res, congrArg Except.ok hres.1,
      (hres.2.2.2.2.2.2.1 rfl).1, (hres.2.2.2.2.2.2.1 rfl).2.1,
      (Option.some.inj hres.1) ▸ rfl⟩

/-- C16: the database tagger flattens `LFTagOnDatabase`, the table tagger
`LFTagsOnTable`, and the column tagger the tags of the first entry of
`LFTagsOnColumns` only (the empty non-nil list when there is no entry or the
first entry is nil); each result depends on no other field of the response,
and for the column tagger on no column entry after the first. -/
theorem flattenTags_per_tagger (o : GetResourceLFTagsOutput) :
    Tagger.databaseTagger.FlattenTags o = flattenLFTagPairs o.LFTagOnDatabase ∧
    Tagger.tableTagger.FlattenTags o = flattenLFTagPairs o.LFTagsOnTable ∧
    (Slice.toList o.LFTagsOnColumns = [] → Tagger.columnTagger.FlattenTags o = some []) ∧
    (∀ rest, Slice.toList o.LFTagsOnColumns = none :: rest →
      Tagger.columnTagger.FlattenTags o = some []) ∧
    (∀ c rest, Slice.toList o.LFTagsOnColumns = some c :: rest →
      Tagger.columnTagger.FlattenTags o = flattenLFTagPairs c.LFTags) ∧
    (∀ o2 : GetResourceLFTagsOutput, o.LFTagOnDatabase = o2.LFTagOnDatabase →
      Tagger.databaseTagger.FlattenTags o = Tagger.databaseTagger.FlattenTags o2) ∧
    (∀ o2 : GetResourceLFTagsOutput, o.LFTagsOnTable = o2.LFTagsOnTable →
      Tagger.tableTagger.FlattenTags o = Tagger.tableTagger.FlattenTags o2) ∧
    (∀ o2 : GetResourceLFTagsOutput,
      (Slice.toList o.LFTagsOnColumns).head? = (Slice.toList o2.LFTagsOnColumns).head? →
      Tagger.columnTagger.FlattenTags o = Tagger.columnTagger.FlattenTags o2) := by
  refine ⟨rfl, rfl, ?_, ?_, ?_, ?_, ?_, ?_⟩
  · intro h; simp [Tagger.FlattenTags, h]
  · intro rest h; simp [Tagger.FlattenTags, h]
  · intro c rest h; simp [Tagger.FlattenTags, h]
  · intro o2 h; simp [Tagger.FlattenTags, h]
  · intro o2 h; simp [Tagger.FlattenTags, h]
  · intro o2 h
    unfold Tagger.FlattenTags
    simp only
    cases h1 : Slice.toList o.LFTagsOnColumns with
    | nil =>
      cases h2 : Slice.toList o2.LFTagsOnColumns with
      | nil => rfl
      | cons b l2 => rw [h1, h2] at h; cases h
    | cons a l1 =>
      cases h2 : Slice.toList o2.LFTagsOnColumns with
      | nil => rw [h1, h2] at h; cases h
      | cons b l2 =>
        rw [h1, h2] at h
        simp only [List.head?_cons, Option.some.injEq] at h
        subst h
        cases a <;> rfl

/-- Witness of C16: on the sample response the column tagger returns the tag
of the first column only, and the same when the table tags and the second
column are removed. -/
theorem flattenTags_per_tagger_witness :
    Tagger.columnTagger.FlattenTags sampleGetOutput =
      flattenLFTagPairs (some [some { TagKey := some "pii", TagValues := some [some "yes"] }]) ∧
    Tagger.columnTagger.FlattenTags sampleGetOutput =
      Tagger.columnTagger.FlattenTags
        { LFTagsOnColumns := some
            [ some { LFTags := some [some { TagKey := some "pii"
                                            TagValues := some [some "yes"] }]
                     Name := some "email" } ] } :=
  ⟨(flattenTags_per_tagger sampleGetOutput).2.2.2.2.1 _ _ rfl,
    (flattenTags_per_tagger sampleGetOutput).2.2.2.2.2.2.2 _ rfl⟩

/-- Expanding any map gives a pair with at most one tag value. -/
theorem expand_values_le_one (m : TfMap) (q : LFTagPair)
    (h : expandLFTagPair (some m) = some q) : Slice.len q.TagValues ≤ 1 := by
  simp only [expandLFTagPair, Option.some.injEq] at h
  subst h
  cases Val.asString (m "catalog_id") <;> cases Val.asString (m "key") <;>
    cases Val.asString (m "value") <;>
    simp only [Slice.len, Slice.toList, StringSlice] <;> (try split_ifs) <;> simp

/-- Expanding a flattened pair gives a pair with at most one tag value. -/
theorem expand_flatten_values_le_one (p q : LFTagPair)
    (h : expandLFTagPair (flattenLFTagPair (some p)) = some q) :
    Slice.len q.TagValues ≤ 1 := by
  cases hf : flattenLFTagPair (some p) with
  | none => rw [hf] at h; simp [expandLFTagPair] at h
  | some m => rw [hf] at h; exact expand_values_le_one m q h

/-- The tag values of the expansion of a map are decided by its `value` entry
alone. -/
theorem expand_values_eq (m : TfMap) (q : LFTagPair)
    (h : expandLFTagPair (some m) = some q) :
    q.TagValues =
      match Val.asString (m "value") with
      | some v => if v ≠ "" then some [some v] else none
      | none => none := by
  simp only [expandLFTagPair, Option.some.injEq] at h
  subst h
  cases Val.asString (m "catalog_id") <;> cases Val.asString (m "key") <;>
    cases Val.asString (m "value") <;>
    simp only [StringSlice] <;> (try split_ifs) <;> simp

/-- The entries of the map of a flattened pair: `catalog_id` and `key` from the
fields of that name, `value` from the first tag value only. -/
theorem flatten_entries (p : LFTagPair) :
    ∃ m, flattenLFTagPair (some p) = some m ∧
      m "catalog_id" = p.CatalogId.map Val.str ∧
      m "key" = p.TagKey.map Val.str ∧
      m "value" = (Slice.toList p.TagValues).head?.map (fun v => Val.str (StringValue v)) := by
  refine ⟨_, rfl, ?_, ?_, ?_⟩
  · cases p.CatalogId <;> cases p.TagKey <;> cases Slice.toList p.TagValues <;>
      simp [TfMap.set, TfMap.empty, StringValue]
  · cases p.CatalogId <;> cases p.TagKey <;> cases Slice.toList p.TagValues <;>
      simp [TfMap.set, TfMap.empty, StringValue]
  · cases p.CatalogId <;> cases p.TagKey <;> cases Slice.toList p.TagValues <;>
      simp [TfMap.set, TfMap.empty, StringValue]

/-- C17: a tag pair with non-empty `CatalogId` and `TagKey` and exactly one,
non-empty tag value comes back unchanged from flatten followed by expand;
flatten records under `value` the first tag value and nothing of the later
ones, so a pair with two or more tag values does not come back: the result
holds the first value only (no value when the first is empty). -/
theorem lfTagPair_reverse_roundtrip (p : LFTagPair) :
    (∀ c k v, c ≠ "" → k ≠ "" → v ≠ "" →
      p = { CatalogId := some c, TagKey := some k, TagValues := some [some v] } →
      expandLFTagPair (flattenLFTagPair (some p)) = some p) ∧
    (2 ≤ Slice.len p.TagValues →
      expandLFTagPair (flattenLFTagPair (some p)) ≠ some p ∧
      ∀ q, expandLFTagPair (flattenLFTagPair (some p)) = some q → Slice.len q.TagValues ≤ 1) ∧
    (∃ m, flattenLFTagPair (some p) = some m ∧
      m "catalog_id" = p.CatalogId.map Val.str ∧
      m "key" = p.TagKey.map Val.str ∧
      m "value" = (Slice.toList p.TagValues).head?.map (fun v => Val.str (StringValue v))) ∧
    (∀ v0 rest, Slice.toList p.TagValues = v0 :: rest →
      flattenLFTagPair (some p) = flattenLFTagPair (some { p with TagValues := some [v0] })) ∧
    (∀ v0 rest, Slice.toList p.TagValues = v0 :: rest →
      ∃ q, expandLFTagPair (flattenLFTagPair (some p)) = some q ∧
        q.TagValues = if StringValue v0 ≠ "" then some [some (StringValue v0)] else none) := by
  refine ⟨?_, ?_, ⟨_, rfl, ?_, ?_, ?_⟩, ?_, ?_⟩
  · intro c k v hc hk hv hp
    subst hp
    simp [flattenLFTagPair, expandLFTagPair, TfMap.set, TfMap.empty, Val.asString, StringValue,
      StringSlice, Slice.toList, hc, hk, hv]
  · intro h2
    refine ⟨fun he => ?_, fun q hq => expand_flatten_values_le_one p q hq⟩
    have := expand_flatten_values_le_one p p he
    omega
  · cases p.CatalogId <;> cases p.TagKey <;> cases Slice.toList p.TagValues <;>
      simp [TfMap.set, TfMap.empty, StringValue]
  · cases p.CatalogId <;> cases p.TagKey <;> cases Slice.toList p.TagValues <;>
      simp [TfMap.set, TfMap.empty, StringValue]
  · cases p.CatalogId <;> cases p.TagKey <;> cases Slice.toList p.TagValues <;>
      simp [TfMap.set, TfMap.empty, StringValue]
  · intro v0 rest h
    simp only [flattenLFTagPair, h]
    rfl
  · intro v0 rest h
    obtain ⟨m, hm, _, _, hv⟩ := flatten_entries p
    rw [hm]
    refine ⟨_, rfl, ?_⟩
    rw [expand_values_eq m _ rfl, hv, h]
    simp [Val.asString]

/-- Witness of C17: a pair with one value comes back; a pair with two values
does not, and what comes back holds its first value. -/
theorem lfTagPair_reverse_roundtrip_witness :
    expandLFTagPair (flattenLFTagPair (some
        { CatalogId := some "123456789012", TagKey := some "team"
          TagValues := some [some "data"] })) =
      some { CatalogId := some "123456789012", TagKey := some "team"
             TagValues := some [some "data"] } ∧
    expandLFTagPair (flattenLFTagPair (some
        { CatalogId := some "123456789012", TagKey := some "team"
          TagValues := some [some "data", some "ops"] })) ≠
      some { CatalogId := some "123456789012", TagKey := some "team"
             TagValues := some [some "data", some "ops"] } ∧
    ∃ q, expandLFTagPair (flattenLFTagPair (some
        { CatalogId := some "123456789012", TagKey := some "team"
          TagValues := some [some "data", some "ops"] })) = some q ∧
      q.TagValues = some [some "data"] ∧
      (flattenLFTagPair (some
        { CatalogId := some "123456789012", TagKey := some "team"
          TagValues := some [some "data", some "ops"] })).bind
        (fun m => Val.asString (m "value")) = some "data" :=
  ⟨(lfTagPair_reverse_roundtrip _).1 "123456789012" "team" "data" (by decide) (by decide)
      (by decide) rfl,
    ((lfTagPair_reverse_roundtrip
      { CatalogId := some "123456789012", TagKey := some "team"
        TagValues := some [some "data", some "ops"] }).2.1 (by decide)).1,
    ((lfTagPair_reverse_roundtrip
      { CatalogId := some "123456789012", TagKey := some "team"
        TagValues := some [some "data", some "ops"] }).2.2.2.2 (some "data") [some "ops"]
      rfl).imp fun _ hq => ⟨hq.1, hq.2.trans (by decide), rfl⟩⟩

/-- One iteration of the loop of `expandLFTagPairs` appends what is kept of
the element. -/
theorem expand_step_eq (acc : Slice (Option LFTagPair)) (v : Val) :
    expandLFTagPairs.step acc v =
      match expandedElem v with
      | some x => Slice.append acc x
      | none => acc := by
  cases v with
  | map m =>
    cases m with
    | none => rfl
    | some tf => rfl
  | nil => rfl
  | str _ => rfl
  | bool _ => rfl
  | list _ => rfl

/-- The loop of `expandLFTagPairs`: the accumulator, extended by what is kept
of each element, in order; it stays nil when nothing is kept. -/
theorem expand_foldl (l : List Val) (acc : Slice (Option LFTagPair)) :
    l.foldl expandLFTagPairs.step acc =
      if l.filterMap expandedElem = [] then acc
      else some (Slice.toList acc ++ l.filterMap expandedElem) := by
  induction l generalizing acc with
  | nil => simp
  | cons v rest ih =>
    rw [List.foldl_cons, ih, expand_step_eq]
    cases hv : expandedElem v with
    | none => simp [List.filterMap_cons, hv]
    | some x =>
      simp only [List.filterMap_cons, hv]
      by_cases hr : rest.filterMap expandedElem = []
      · simp [hr, Slice.append]
      · simp [hr, Slice.append, Slice.toList]

/-- What is kept of an element is never a nil pair. -/
theorem expandedElem_ne_none (v : Val) (x : Option LFTagPair) (h : expandedElem v = some x) :
    x ≠ none := by
  cases v with
  | map m =>
    cases m with
    | none => simp [expandedElem] at h
    | some tf =>
      simp only [expandedElem, Option.some.injEq] at h
      subst h
      simp [expandLFTagPair]
  | nil => simp [expandedElem] at h
  | str _ => simp [expandedElem] at h
  | bool _ => simp [expandedElem] at h
  | list _ => simp [expandedElem] at h

/-- The elements of the result of `expandLFTagPairs`. -/
theorem expandLFTagPairs_toList (tfList : Slice Val) :
    Slice.toList (expandLFTagPairs tfList) = (Slice.toList tfList).filterMap expandedElem := by
  unfold expandLFTagPairs Slice.len
  generalize Slice.toList tfList = l
  cases l with
  | nil => simp [Slice.toList]
  | cons v rest =>
    rw [if_neg (by simp), expand_foldl]
    by_cases hr : (v :: rest).filterMap expandedElem = []
    · rw [if_pos hr, hr]; rfl
    · rw [if_neg hr]; rfl

/-- C18: `expandLFTagPairs` returns nil for the empty list; otherwise its
elements are, in input order, the expansions of exactly the elements that are
non-nil maps; so the result is never longer than the input, has the length of
the input when every element is a non-nil map, and holds no nil pair. -/
theorem expandLFTagPairs_spec (tfList : Slice Val) :
    (Slice.len tfList = 0 → expandLFTagPairs tfList = none) ∧
    Slice.toList (expandLFTagPairs tfList) = (Slice.toList tfList).filterMap expandedElem ∧
    Slice.len (expandLFTagPairs tfList) ≤ Slice.len tfList ∧
    ((∀ v ∈ Slice.toList tfList, ∃ m, v = Val.map (some m)) →
      Slice.toList (expandLFTagPairs tfList) =
        (Slice.toList tfList).map (fun v => match v with
          | .map m => expandLFTagPair m
          | _ => none) ∧
      Slice.len (expandLFTagPairs tfList) = Slice.len tfList) ∧
    (∀ p ∈ Slice.toList (expandLFTagPairs tfList), p ≠ none) := by
  have hl := expandLFTagPairs_toList tfList
  refine ⟨?_, hl, ?_, ?_, ?_⟩
  · intro h0
    simp [expandLFTagPairs, h0]
  · unfold Slice.len
    rw [hl]
    exact List.length_filterMap_le _ _
  · intro hall
    have hmap : (Slice.toList tfList).filterMap expandedElem =
        (Slice.toList tfList).map (fun v => match v with
          | .map m => expandLFTagPair m
          | _ => none) := by
      generalize Slice.toList tfList = l at hall
      induction l with
      | nil => rfl
      | cons v rest ih =>
        obtain ⟨m, rfl⟩ := hall v (List.mem_cons_self _ _)
        rw [List.filterMap_cons, List.map_cons,
          ← ih (fun x hx => hall x (List.mem_cons_of_mem _ hx))]
        rfl
    refine ⟨by rw [hl, hmap], ?_⟩
    unfold Slice.len
    rw [hl, hmap, List.length_map]
  · intro p hp
    rw [hl] at hp
    obtain ⟨v, _, hv⟩ := List.mem_filterMap.mp hp
    exact expandedElem_ne_none v p hv

/-- Witness of C18: of a list holding an entry, a nil interface and a nil map
only the entry is expanded. -/
theorem expandLFTagPairs_spec_witness :
    Slice.toList (expandLFTagPairs (some
        [LFTagEntry.toVal { catalog_id := "", key := "team", value := "data" }, Val.nil,
          Val.map none])) =
      [some { TagKey := some "team", TagValues := some [some "data"] }] ∧
    Slice.len (expandLFTagPairs (some
        [LFTagEntry.toVal { catalog_id := "", key := "team", value := "data" }])) = 1 :=
  ⟨(expandLFTagPairs_spec _).2.1.trans rfl,
    ((expandLFTagPairs_spec (some
      [LFTagEntry.toVal { catalog_id := "", key := "team", value := "data" }])).2.2.2.1
      (fun _ hv => ⟨_, List.mem_singleton.mp hv⟩)).2.trans rfl⟩

/-- One iteration of the loop of `flattenLFTagPairs` appends what is kept of
the pair. -/
theorem flatten_step_eq (acc : Slice Val) (p : Option LFTagPair) :
    flattenLFTagPairs.step acc p =
      match flattenedElem p with
      | some x => Slice.append acc x
      | none => acc := by
  cases p <;> rfl

/-- The loop of `flattenLFTagPairs`: the accumulator, extended by what is kept
of each pair, in order; it stays nil when nothing is kept. -/
theorem flatten_foldl (l : List (Option LFTagPair)) (acc : Slice Val) :
    l.foldl flattenLFTagPairs.step acc =
      match l.filterMap flattenedElem with
      | [] => acc
      | x :: xs => some (Slice.toList acc ++ x :: xs) := by
  induction l generalizing acc with
  | nil => simp
  | cons p rest ih =>
    rw [List.foldl_cons, ih, flatten_step_eq]
    cases hp : flattenedElem p with
    | none => simp [List.filterMap_cons, hp]
    | some x =>
      simp only [List.filterMap_cons, hp]
      cases hr : rest.filterMap flattenedElem with
      | nil => simp [Slice.append]
      | cons y ys => simp [Slice.append, Slice.toList]

/-- The elements of the result of `flattenLFTagPairs`. -/
theorem flattenLFTagPairs_toList (apiObjects : Slice (Option LFTagPair)) :
    Slice.toList (flattenLFTagPairs apiObjects) =
      (Slice.toList apiObjects).filterMap flattenedElem := by
  unfold flattenLFTagPairs Slice.len
  generalize Slice.toList apiObjects = l
  cases l with
  | nil => simp [Slice.toList]
  | cons p rest =>
    rw [if_neg (by simp), flatten_foldl]
    cases hr : (p :: rest).filterMap flattenedElem with
    | nil => rfl
    | cons y ys => rfl

/-- C19: `flattenLFTagPairs` returns nil for the empty list; otherwise its
elements are, in input order, the flattened maps of exactly the non-nil
pairs; its length is the number of non-nil pairs, it is nil when all pairs
are nil, and none of its elements is a nil map. -/
theorem flattenLFTagPairs_spec (apiObjects : Slice (Option LFTagPair)) :
    (Slice.len apiObjects = 0 → flattenLFTagPairs apiObjects = none) ∧
    Slice.toList (flattenLFTagPairs apiObjects) =
      (Slice.toList apiObjects).filterMap flattenedElem ∧
    Slice.len (flattenLFTagPairs apiObjects) =
      ((Slice.toList apiObjects).filter (fun p => p.isSome)).length ∧
    ((∀ p ∈ Slice.toList apiObjects, p = none) → flattenLFTagPairs apiObjects = none) ∧
    (∀ v ∈ Slice.toList (flattenLFTagPairs apiObjects), ∃ m, v = Val.map (some m)) := by
  have hl := flattenLFTagPairs_toList apiObjects
  refine ⟨?_, hl, ?_, ?_, ?_⟩
  · intro h0
    simp [flattenLFTagPairs, h0]
  · unfold Slice.len
    rw [hl]
    generalize Slice.toList apiObjects = l
    induction l with
    | nil => rfl
    | cons p rest ih =>
      cases p with
      | none => simpa [List.filterMap_cons, flattenedElem, List.filter_cons] using ih
      | some a => simpa [List.filterMap_cons, flattenedElem, List.filter_cons] using ih
  · intro hall
    unfold flattenLFTagPairs
    split
    · rfl
    · rw [flatten_foldl]
      have : (Slice.toList apiObjects).filterMap flattenedElem = [] := by
        rw [List.filterMap_eq_nil_iff]
        intro p hp
        rw [hall p hp]
        rfl
      rw [this]
  · intro v hv
    rw [hl] at hv
    obtain ⟨p, _, hp⟩ := List.mem_filterMap.mp hv
    cases p with
    | none => simp [flattenedElem] at hp
    | some a =>
      simp only [flattenedElem, Option.some.injEq] at hp
      subst hp
      exact ⟨_, rfl⟩

/-- Witness of C19: a list of nil pairs only is flattened to nil. -/
theorem flattenLFTagPairs_spec_witness :
    flattenLFTagPairs (some [none, none]) = none :=
  (flattenLFTagPairs_spec (some [none, none])).2.2.2.1
    (fun p hp => by
      rcases List.mem_cons.mp hp with h | h
      · exact h
      · exact List.mem_singleton.mp h)

/-- C20: `lfTagsHash` returns 0 for every value that is not a map; for every
map with string entries `key`, `value` and `catalog_id` it returns
`create.StringHashcode` of the three strings concatenated without separator;
so two tags whose concatenations coincide have the same hash, as the distinct
tags (key "ab", value "c") and (key "a", value "bc") with the same
`catalog_id`, which the set, identifying its elements by this hash, takes for
one element. -/
theorem lfTagsHash_spec (env : Env) :
    (∀ v, (∀ m, v ≠ Val.map m) → lfTagsHash env v = .ok 0) ∧
    (∀ (m : TfMap) (key value catalog_id : String),
      m "key" = some (.str key) → m "value" = some (.str value) →
      m "catalog_id" = some (.str catalog_id) →
      lfTagsHash env (.map (some m)) = .ok (env.StringHashcode (key ++ value ++ catalog_id))) ∧
    (∀ e : LFTagEntry,
      lfTagsHash env e.toVal = .ok (env.StringHashcode (e.key ++ e.value ++ e.catalog_id))) ∧
    (∀ e1 e2 : LFTagEntry,
      e1.key ++ e1.value ++ e1.catalog_id = e2.key ++ e2.value ++ e2.catalog_id →
      lfTagsHash env e1.toVal = lfTagsHash env e2.toVal) ∧
    (∀ c : String,
      LFTagEntry.mk c "ab" "c" ≠ LFTagEntry.mk c "a" "bc" ∧
      lfTagsHash env (LFTagEntry.mk c "ab" "c").toVal =
        lfTagsHash env (LFTagEntry.mk c "a" "bc").toVal) := by
  have hmap : ∀ (m : TfMap) (key value catalog_id : String),
      m "key" = some (.str key) → m "value" = some (.str value) →
      m "catalog_id" = some (.str catalog_id) →
      lfTagsHash env (.map (some m)) =
        .ok (env.StringHashcode (key ++ value ++ catalog_id)) := by
    intro m key value catalog_id hk hv hc
    simp [lfTagsHash, mapIndex, Val.mustString, hk, hv, hc]
  have hentry : ∀ e : LFTagEntry,
      lfTagsHash env e.toVal = .ok (env.StringHashcode (e.key ++ e.value ++ e.catalog_id)) := by
    intro e
    exact hmap e.toMap e.key e.value e.catalog_id
      (by simp [LFTagEntry.toMap, TfMap.set])
      (by simp [LFTagEntry.toMap, TfMap.set])
      (by simp [LFTagEntry.toMap, TfMap.set])
  refine ⟨?_, hmap, hentry, ?_, ?_⟩
  · intro v hv
    cases v with
    | map m => exact absurd rfl (hv m)
    | nil => rfl
    | str _ => rfl
    | bool _ => rfl
    | list _ => rfl
  · intro e1 e2 h
    rw [hentry, hentry, h]
  · intro c
    refine ⟨by simp, ?_⟩
    rw [hentry, hentry]
    simp [String.append_assoc]

/-- Witness of C20: in the sample environment the tags (key "ab", value "c")
and (key "a", value "bc") of one catalog have the same hash, and a string has
hash 0. -/
theorem lfTagsHash_spec_witness :
    lfTagsHash sampleEnvOk (LFTagEntry.mk "123456789012" "ab" "c").toVal =
      lfTagsHash sampleEnvOk (LFTagEntry.mk "123456789012" "a" "bc").toVal ∧
    lfTagsHash sampleEnvOk (.str "team") = .ok 0 :=
  ⟨(lfTagsHash_spec sampleEnvOk).2.2.2.1 _ _ (by decide),
    (lfTagsHash_spec sampleEnvOk).1 _ (fun m h => by cases h)⟩

/-- A remote call of create adds a call of the tagging operation with the
request at hand. -/
theorem callAdd_calls (env : Env) (input : AddLFTagsToResourceInput) (s : CreateVars)
    (h : ∀ c ∈ s.calls, c = Call.AddLFTagsToResource input) :
    ∀ c ∈ (callAddLFTagsToResource env input s).1.calls, c = Call.AddLFTagsToResource input := by
  intro c hc
  unfold callAddLFTagsToResource at hc
  cases hresp : env.AddLFTagsToResourceWithContext s.calls.length input with
  | ok o =>
    rw [hresp] at hc
    simp only [List.mem_append, List.mem_singleton] at hc
    rcases hc with hc | hc
    · exact h c hc
    · exact hc
  | error e =>
    rw [hresp] at hc
    simp only [List.mem_append, List.mem_singleton] at hc
    rcases hc with hc | hc
    · exact h c hc
    · exact hc

/-- Every call of the retry loop of create is a call of the tagging operation
with the request at hand. -/
theorem create_loop_calls (env : Env) (input : AddLFTagsToResourceInput) (n : Nat)
    (s : CreateVars) (h : ∀ c ∈ s.calls, c = Call.AddLFTagsToResource input) :
    ∀ c ∈ (RetryContext.loop (createRetryFunc env input) n s).2.calls,
      c = Call.AddLFTagsToResource input := by
  induction n generalizing s with
  | zero => simpa [RetryContext.loop] using h
  | succ n ih =>
    have hstep := callAdd_calls env input s h
    unfold RetryContext.loop
    cases hf : createRetryFunc env input s with
    | mk s2 r =>
      have hs2 : s2 = (callAddLFTagsToResource env input s).1 := by
        have := congrArg Prod.fst hf
        simpa [createRetryFunc] using this.symm
      cases r with
      | none => simpa [hs2] using hstep
      | some rerr =>
        simp only
        split
        · exact ih s2 (by rw [hs2]; exact hstep)
        · simpa [hs2] using hstep

/-- Every call of the tagging stage of create carries the request at hand. -/
theorem addLFTagsWithRetry_calls (env : Env) (input : AddLFTagsToResourceInput) :
    ∀ c ∈ (addLFTagsWithRetry env input).1.calls, c = Call.AddLFTagsToResource input := by
  have hloop := create_loop_calls env input (env.attemptsWithin env.IAMPropagationTimeout)
    { output := none, calls := [] } (by simp)
  unfold addLFTagsWithRetry RetryContext
  simp only
  split
  · exact callAdd_calls env input _ hloop
  · exact hloop

/-- A remote call of delete adds a call of the removing operation with the
request at hand. -/
theorem callRemove_calls (env : Env) (input : RemoveLFTagsFromResourceInput)
    (cs : List Call) (h : ∀ c ∈ cs, c = Call.RemoveLFTagsFromResource input) :
    ∀ c ∈ (callRemoveLFTagsFromResource env input cs).1,
      c = Call.RemoveLFTagsFromResource input := by
  intro c hc
  unfold callRemoveLFTagsFromResource at hc
  cases hresp : env.RemoveLFTagsFromResourceWithContext cs.length input with
  | ok o =>
    rw [hresp] at hc
    simp only [List.mem_append, List.mem_singleton] at hc
    rcases hc with hc | hc
    · exact h c hc
    · exact hc
  | error e =>
    rw [hresp] at hc
    simp only [List.mem_append, List.mem_singleton] at hc
    rcases hc with hc | hc
    · exact h c hc
    · exact hc

/-- Every call of the retry loop of delete is a call of the removing operation
with the request at hand. -/
theorem delete_loop_calls (env : Env) (input : RemoveLFTagsFromResourceInput) (n : Nat)
    (cs : List Call) (h : ∀ c ∈ cs, c = Call.RemoveLFTagsFromResource input) :
    ∀ c ∈ (RetryContext.loop (deleteRetryFunc env input) n cs).2,
      c = Call.RemoveLFTagsFromResource input := by
  induction n generalizing cs with
  | zero => simpa [RetryContext.loop] using h
  | succ n ih =>
    have hstep := callRemove_calls env input cs h
    unfold RetryContext.loop
    cases hf : deleteRetryFunc env input cs with
    | mk cs2 r =>
      have hs2 : cs2 = (callRemoveLFTagsFromResource env input cs).1 := by
        have := congrArg Prod.fst hf
        simpa [deleteRetryFunc] using this.symm
      cases r with
      | none => simpa [hs2] using hstep
      | some rerr =>
        simp only
        split
        · exact ih cs2 (by rw [hs2]; exact hstep)
        · simpa [hs2] using hstep

/-- Every call of the removing stage of delete carries the request at hand. -/
theorem removeLFTagsWithRetry_calls (env : Env) (d : ResourceData)
    (input : RemoveLFTagsFromResourceInput) :
    ∀ c ∈ (removeLFTagsWithRetry env d input).1, c = Call.RemoveLFTagsFromResource input := by
  have hloop := delete_loop_calls env input (env.attemptsWithin (d.Timeout .TimeoutDelete))
    [] (by simp)
  unfold removeLFTagsWithRetry RetryContext
  simp only
  split
  · exact callRemove_calls env input _ hloop
  · exact hloop

/-- Every call of read is the reading operation with the request of read. -/
theorem read_calls (env : Env) (d : ResourceData) (resource : Option Resource)
    (hd : Diagnostics.HasError (lfTagsTagger d).2 = false)
    (hr : callExpandResource env (lfTagsTagger d).1 d = .ok resource)
    (out : Outcome) (h : resourceResourceLFTagsRead env d = .ok out) :
    ∀ c ∈ out.calls, c = Call.GetResourceLFTags (readInput d resource) := by
  obtain ⟨t, ht, hrt⟩ := callExpandResource_ok env d resource hr
  rw [read_eq env d t resource hd ht hrt] at h
  cases hg : env.GetResourceLFTagsWithContext (readInput d resource) with
  | error e =>
    rw [hg] at h
    cases h
    simp
  | ok output =>
    rw [hg] at h
    cases hf : callFlattenTags t output with
    | error p => simp [hf] at h
    | ok v =>
      cases hs : env.Set_lf_tag v with
      | error e => simp only [hf, hs] at h; cases h; simp
      | ok l => simp only [hf, hs] at h; cases h; simp

/-- A remote call of create appends one call to the calls issued so far. -/
theorem callAdd_calls_eq (env : Env) (input : AddLFTagsToResourceInput) (s : CreateVars) :
    (callAddLFTagsToResource env input s).1.calls =
      s.calls ++ [Call.AddLFTagsToResource input] := by
  unfold callAddLFTagsToResource
  cases env.AddLFTagsToResourceWithContext s.calls.length input <;> rfl

/-- The retry loop of create only adds calls, and adds one when it makes an
attempt at all. -/
theorem create_loop_length (env : Env) (input : AddLFTagsToResourceInput) (n : Nat)
    (s : CreateVars) :
    s.calls.length ≤ (RetryContext.loop (createRetryFunc env input) n s).2.calls.length ∧
    (0 < n →
      s.calls.length < (RetryContext.loop (createRetryFunc env input) n s).2.calls.length) := by
  induction n generalizing s with
  | zero => simp [RetryContext.loop]
  | succ n ih =>
    have hlen : (callAddLFTagsToResource env input s).1.calls.length = s.calls.length + 1 := by
      rw [callAdd_calls_eq]; simp
    have key : s.calls.length <
        (RetryContext.loop (createRetryFunc env input) (n + 1) s).2.calls.length := by
      unfold RetryContext.loop
      cases hf : createRetryFunc env input s with
      | mk s2 r =>
        have hs2 : s2 = (callAddLFTagsToResource env input s).1 := by
          have := congrArg Prod.fst hf
          simpa [createRetryFunc] using this.symm
        have hl2 : s2.calls.length = s.calls.length + 1 := by rw [hs2, hlen]
        cases r with
        | none => simp only; omega
        | some rerr =>
          simp only
          split
          · have := (ih s2).1
            omega
          · simp only; omega
    exact ⟨Nat.le_of_lt key, fun _ => key⟩

/-- The tagging stage of create issues at least one call, and all its calls
carry the request at hand. -/
theorem addLFTagsWithRetry_calls_eq (env : Env) (input : AddLFTagsToResourceInput) :
    ∃ k, (addLFTagsWithRetry env input).1.calls =
      List.replicate (k + 1) (Call.AddLFTagsToResource input) := by
  have hall := addLFTagsWithRetry_calls env input
  have hpos : 0 < (addLFTagsWithRetry env input).1.calls.length := by
    unfold addLFTagsWithRetry RetryContext
    simp only
    split
    · rw [callAdd_calls_eq]; simp
    · rename_i hto
      cases hn : env.attemptsWithin env.IAMPropagationTimeout with
      | zero => rw [hn] at hto; simp [RetryContext.loop, TimedOut] at hto
      | succ m =>
        have := (create_loop_length env input (m + 1) { output := none, calls := [] }).2
          (Nat.succ_pos m)
        simpa using this
  refine ⟨(addLFTagsWithRetry env input).1.calls.length - 1, ?_⟩
  rw [List.eq_replicate_iff]
  exact ⟨by omega, hall⟩

/-- A remote call of delete appends one call to the calls issued so far. -/
theorem callRemove_calls_eq (env : Env) (input : RemoveLFTagsFromResourceInput)
    (cs : List Call) :
    (callRemoveLFTagsFromResource env input cs).1 =
      cs ++ [Call.RemoveLFTagsFromResource input] := by
  unfold callRemoveLFTagsFromResource
  cases env.RemoveLFTagsFromResourceWithContext cs.length input <;> rfl

/-- The retry loop of delete only adds calls, and adds one when it makes an
attempt at all. -/
theorem delete_loop_length (env : Env) (input : RemoveLFTagsFromResourceInput) (n : Nat)
    (cs : List Call) :
    cs.length ≤ (RetryContext.loop (deleteRetryFunc env input) n cs).2.length ∧
    (0 < n → cs.length < (RetryContext.loop (deleteRetryFunc env input) n cs).2.length) := by
  induction n generalizing cs with
  | zero => simp [RetryContext.loop]
  | succ n ih =>
    have hlen : (callRemoveLFTagsFromResource env input cs).1.length = cs.length + 1 := by
      rw [callRemove_calls_eq]; simp
    have key : cs.length <
        (RetryContext.loop (deleteRetryFunc env input) (n + 1) cs).2.length := by
      unfold RetryContext.loop
      cases hf : deleteRetryFunc env input cs with
      | mk cs2 r =>
        have hs2 : cs2 = (callRemoveLFTagsFromResource env input cs).1 := by
          have := congrArg Prod.fst hf
          simpa [deleteRetryFunc] using this.symm
        have hl2 : cs2.length = cs.length + 1 := by rw [hs2, hlen]
        cases r with
        | none => simp only; omega
        | some rerr =>
          simp only
          split
          · have := (ih cs2).1
            omega
          · simp only; omega
    exact ⟨Nat.le_of_lt key, fun _ => key⟩

/-- The removing stage of delete issues at least one call, and all its calls
carry the request at hand. -/
theorem removeLFTagsWithRetry_calls_eq (env : Env) (d : ResourceData)
    (input : RemoveLFTagsFromResourceInput) :
    ∃ k, (removeLFTagsWithRetry env d input).1 =
      List.replicate (k + 1) (Call.RemoveLFTagsFromResource input) := by
  have hall := removeLFTagsWithRetry_calls env d input
  have hpos : 0 < (removeLFTagsWithRetry env d input).1.length := by
    unfold removeLFTagsWithRetry RetryContext
    simp only
    split
    · rw [callRemove_calls_eq]; simp
    · rename_i hto
      cases hn : env.attemptsWithin (d.Timeout .TimeoutDelete) with
      | zero => rw [hn] at hto; simp [RetryContext.loop, TimedOut] at hto
      | succ m =>
        have := (delete_loop_length env input (m + 1) []).2 (Nat.succ_pos m)
        simpa using this
  refine ⟨(removeLFTagsWithRetry env d input).1.length - 1, ?_⟩
  rw [List.eq_replicate_iff]
  exact ⟨by omega, hall⟩

/-- C21: for every configuration the requests of create, read and delete
address the same target. Create issues one or more tagging calls, all with the
request `createInput`, then at most the reading call; read issues exactly the
reading call with `readInput`; delete returns, and unless it has nothing to
remove issues one or more removing calls, all with `deleteInput`. The requests
sent carry the same `CatalogId`, set exactly when the top-level `catalog_id` is
not empty, and the same `Resource`, the expansion by the dispatched tagger;
and the `LFTags` sent by create and by delete are the same list, the expansion
of the `lf_tag` set, left unset when the set is empty. -/
theorem handlers_same_target (env : Env) (d : ResourceData) (resource : Option Resource)
    (hd : Diagnostics.HasError (lfTagsTagger d).2 = false)
    (hr : callExpandResource env (lfTagsTagger d).1 d = .ok resource) :
    (∀ out, resourceResourceLFTagsCreate env d = .ok out →
      ∃ k rest, out.calls =
          List.replicate (k + 1) (Call.AddLFTagsToResource (createInput d resource)) ++ rest ∧
        (rest = [] ∨ rest = [Call.GetResourceLFTags (readInput d resource)])) ∧
    (∀ out, resourceResourceLFTagsRead env d = .ok out →
      out.calls = [Call.GetResourceLFTags (readInput d resource)]) ∧
    (env.GetResourceLFTagsWithContext (readInput d resource) ≠ .ok none →
      ∃ out, resourceResourceLFTagsRead env d = .ok out) ∧
    (∃ out, resourceResourceLFTagsDelete env d = .ok out ∧
      ((resource = none ∨ resource = some {} ∨ Slice.len (requestLFTags d) = 0) →
        out.calls = []) ∧
      (¬ (resource = none ∨ resource = some {} ∨ Slice.len (requestLFTags d) = 0) →
        ∃ k, out.calls =
          List.replicate (k + 1) (Call.RemoveLFTagsFromResource (deleteInput d resource)))) ∧
    (∀ outC outR outD ia ig ir,
      resourceResourceLFTagsCreate env d = .ok outC →
      resourceResourceLFTagsRead env d = .ok outR →
      resourceResourceLFTagsDelete env d = .ok outD →
      Call.AddLFTagsToResource ia ∈ outC.calls →
      Call.GetResourceLFTags ig ∈ outR.calls →
      Call.RemoveLFTagsFromResource ir ∈ outD.calls →
      ia.CatalogId = ig.CatalogId ∧ ig.CatalogId = ir.CatalogId ∧
      ia.Resource = resource ∧ ig.Resource = resource ∧ ir.Resource = resource ∧
      ia.LFTags = ir.LFTags ∧
      (d.catalog_id ≠ "" → ia.CatalogId = some d.catalog_id) ∧
      (d.catalog_id = "" → ia.CatalogId = none) ∧
      (d.lf_tag ≠ [] → ir.LFTags = expandLFTagPairs (some d.lf_tag)) ∧
      (d.lf_tag = [] → ir.LFTags = none)) ∧
    (createInput d resource).CatalogId = (readInput d resource).CatalogId ∧
    (readInput d resource).CatalogId = (deleteInput d resource).CatalogId ∧
    (d.catalog_id ≠ "" → (createInput d resource).CatalogId = some d.catalog_id) ∧
    (d.catalog_id = "" → (createInput d resource).CatalogId = none) ∧
    (createInput d resource).Resource = resource ∧
    (readInput d resource).Resource = resource ∧
    (deleteInput d resource).Resource = resource ∧
    (createInput d resource).LFTags = (deleteInput d resource).LFTags ∧
    (d.lf_tag ≠ [] → (createInput d resource).LFTags = expandLFTagPairs (some d.lf_tag)) ∧
    (d.lf_tag = [] → (createInput d resource).LFTags = none) := by
  have hcat1 : d.catalog_id ≠ "" → (createInput d resource).CatalogId = some d.catalog_id := by
    intro hc
    simp [createInput, requestCatalogId, hc]
  have hcat2 : d.catalog_id = "" → (createInput d resource).CatalogId = none := by
    intro hc
    simp [createInput, requestCatalogId, hc]
  have htag1 : d.lf_tag ≠ [] →
      (createInput d resource).LFTags = expandLFTagPairs (some d.lf_tag) := by
    intro hl
    cases hlt : d.lf_tag with
    | nil => exact absurd hlt hl
    | cons v rest => simp [createInput, requestLFTags, hlt]
  have htag2 : d.lf_tag = [] → (createInput d resource).LFTags = none := by
    intro hl
    simp [createInput, requestLFTags, hl]
  have hread : ∀ out, resourceResourceLFTagsRead env d = .ok out →
      out.calls = [Call.GetResourceLFTags (readInput d resource)] := by
    intro out h
    obtain ⟨t, ht, hrt⟩ := callExpandResource_ok env d resource hr
    rw [read_eq env d t resource hd ht hrt] at h
    cases hg : env.GetResourceLFTagsWithContext (readInput d resource) with
    | error e => rw [hg] at h; cases h; rfl
    | ok output =>
      rw [hg] at h
      cases hf : callFlattenTags t output with
      | error p => simp [hf] at h
      | ok v =>
        cases hs : env.Set_lf_tag v with
        | error e => simp only [hf, hs] at h; cases h; rfl
        | ok l => simp only [hf, hs] at h; cases h; rfl
  have hcreate : ∀ out, resourceResourceLFTagsCreate env d = .ok out →
      ∃ k rest, out.calls =
          List.replicate (k + 1) (Call.AddLFTagsToResource (createInput d resource)) ++ rest ∧
        (rest = [] ∨ rest = [Call.GetResourceLFTags (readInput d resource)]) := by
    intro out h
    rw [create_eq env d resource hd hr] at h
    obtain ⟨k, hk⟩ := addLFTagsWithRetry_calls_eq env (createInput d resource)
    cases hs : addLFTagsWithRetry env (createInput d resource) with
    | mk s err =>
      rw [hs] at h hk
      simp only at hk
      cases err with
      | some e =>
        cases h
        exact ⟨k, [], by simpa using hk, Or.inl rfl⟩
      | none =>
        simp only at h
        cases hcf : collectFailures s.output (lfTagsTagger d).2 with
        | error p => rw [hcf] at h; cases h
        | ok ds =>
          rw [hcf] at h
          simp only at h
          cases he : Diagnostics.HasError ds with
          | true =>
            simp only [he, if_true] at h
            cases h
            exact ⟨k, [], by simpa using hk, Or.inl rfl⟩
          | false =>
            simp only [he, Bool.false_eq_true, if_false] at h
            cases hrd : resourceResourceLFTagsRead env
                (d.SetId (createId env (createInput d resource))) with
            | error p => rw [hrd] at h; cases h
            | ok r =>
              rw [hrd] at h
              cases h
              have hrc := read_calls env (d.SetId (createId env (createInput d resource)))
                resource hd hr r hrd
              refine ⟨k, r.calls, by simp only [hk], ?_⟩
              cases hcalls : r.calls with
              | nil => exact Or.inl rfl
              | cons c cs =>
                right
                obtain ⟨t, ht, hrt⟩ := callExpandResource_ok env d resource hr
                have hone : r.calls = [Call.GetResourceLFTags
                    (readInput (d.SetId (createId env (createInput d resource))) resource)] := by
                  have h2 := hrd
                  rw [read_eq env (d.SetId (createId env (createInput d resource))) t resource
                    hd ht hrt] at h2
                  cases hg : env.GetResourceLFTagsWithContext
                      (readInput (d.SetId (createId env (createInput d resource))) resource) with
                  | error e => rw [hg] at h2; cases h2; rfl
                  | ok output =>
                    rw [hg] at h2
                    cases hf : callFlattenTags t output with
                    | error p => simp [hf] at h2
                    | ok v =>
                      cases hs2 : env.Set_lf_tag v with
                      | error e => simp only [hf, hs2] at h2; cases h2; rfl
                      | ok l => simp only [hf, hs2] at h2; cases h2; rfl
                rw [← hcalls, hone]
                rfl
  have hdelete : ∃ out, resourceResourceLFTagsDelete env d = .ok out ∧
      ((resource = none ∨ resource = some {} ∨ Slice.len (requestLFTags d) = 0) →
        out.calls = []) ∧
      (¬ (resource = none ∨ resource = some {} ∨ Slice.len (requestLFTags d) = 0) →
        ∃ k, out.calls =
          List.replicate (k + 1)
            (Call.RemoveLFTagsFromResource (deleteInput d resource))) := by
    have hdel : resourceResourceLFTagsDelete env d =
        if resource = none ∨ resource = some {} ∨ Slice.len (requestLFTags d) = 0 then
          .ok { d := d
                diags := (lfTagsTagger d).2 ++
                  [.addWarningMessage .Setting ResNameLFTags d.Id "no LF-Tags to remove"]
                calls := [] }
        else
          match removeLFTagsWithRetry env d (deleteInput d resource) with
          | (calls, some err) =>
            .ok { d := d
                  diags := (lfTagsTagger d).2 ++ [.addError .Deleting ResNameLFTags d.Id err]
                  calls := calls }
          | (calls, none) => .ok { d := d, diags := (lfTagsTagger d).2, calls := calls } := by
      unfold resourceResourceLFTagsDelete deleteInput requestCatalogId requestLFTags
        ResourceData.GetOk_catalog_id ResourceData.GetOk_lf_tag
      by_cases hc : d.catalog_id = "" <;> cases hl : d.lf_tag <;> simp [hc, hl, hd, hr]
    rw [hdel]
    by_cases hg : resource = none ∨ resource = some {} ∨ Slice.len (requestLFTags d) = 0
    · rw [if_pos hg]
      exact ⟨_, rfl, fun _ => rfl, fun hn => absurd hg hn⟩
    · rw [if_neg hg]
      obtain ⟨k, hk⟩ := removeLFTagsWithRetry_calls_eq env d (deleteInput d resource)
      cases hs : removeLFTagsWithRetry env d (deleteInput d resource) with
      | mk calls err =>
        rw [hs] at hk
        simp only at hk
        cases err with
        | some e => exact ⟨_, rfl, fun h => absurd h hg, fun _ => ⟨k, hk⟩⟩
        | none => exact ⟨_, rfl, fun h => absurd h hg, fun _ => ⟨k, hk⟩⟩
  refine ⟨hcreate, hread, ?_, hdelete, ?_, rfl, rfl, hcat1, hcat2, rfl, rfl, rfl, rfl, htag1,
    htag2⟩
  · intro hne
    obtain ⟨t, ht, hrt⟩ := callExpandResource_ok env d resource hr
    rw [read_eq env d t resource hd ht hrt]
    cases hg : env.GetResourceLFTagsWithContext (readInput d resource) with
    | error e => exact ⟨_, rfl⟩
    | ok output =>
      cases output with
      | none => exact absurd hg hne
      | some o =>
        simp only [callFlattenTags]
        cases hs : env.Set_lf_tag (t.FlattenTags o) with
        | error e => exact ⟨_, rfl⟩
        | ok l => exact ⟨_, rfl⟩
  · intro outC outR outD ia ig ir hC hR hD hia hig hir
    have hia2 : ia = createInput d resource := by
      obtain ⟨k, rest, hcalls, hrest⟩ := hcreate outC hC
      rw [hcalls, List.mem_append] at hia
      rcases hia with h | h
      · have := List.eq_of_mem_replicate h
        cases this
        rfl
      · rcases hrest with h0 | h0
        · rw [h0] at h; cases h
        · rw [h0, List.mem_singleton] at h; cases h
    have hig2 : ig = readInput d resource := by
      rw [hread outR hR, List.mem_singleton] at hig
      cases hig
      rfl
    have hir2 : ir = deleteInput d resource := by
      obtain ⟨out, hout, hg1, hg2⟩ := hdelete
      rw [hD] at hout
      cases hout
      by_cases hg : resource = none ∨ resource = some {} ∨ Slice.len (requestLFTags d) = 0
      · rw [hg1 hg] at hir; cases hir
      · obtain ⟨k, hk⟩ := hg2 hg
        rw [hk] at hir
        have := List.eq_of_mem_replicate hir
        cases this
        rfl
    subst hia2 hig2 hir2
    exact ⟨rfl, rfl, rfl, rfl, rfl, rfl, hcat1, hcat2, htag1, htag2⟩

/-- Witness of C21: in the sample environment where every remote call
succeeds, create of the sample configuration issues the tagging call and the
reading call, and delete issues the removing call, whose request carries the
tag pairs of the tagging call. -/
theorem handlers_same_target_witness :
    (resourceResourceLFTagsCreate sampleEnvOk sampleDatabaseData).map (fun o => o.calls) =
      .ok [ .AddLFTagsToResource (createInput sampleDatabaseData sampleResource),
            .GetResourceLFTags (readInput sampleDatabaseData sampleResource) ] ∧
    (resourceResourceLFTagsDelete sampleEnvOk sampleDatabaseData).map (fun o => o.calls) =
      .ok [ .RemoveLFTagsFromResource (deleteInput sampleDatabaseData sampleResource) ] ∧
    (deleteInput sampleDatabaseData sampleResource).LFTags =
      some [some { CatalogId := some "123456789012", TagKey := some "team"
                   TagValues := some [some "data"] }] ∧
    (createInput sampleDatabaseData sampleResource).LFTags =
      (deleteInput sampleDatabaseData sampleResource).LFTags :=
  have h := handlers_same_target sampleEnvOk sampleDatabaseData sampleResource rfl rfl
  ⟨rfl, rfl, rfl,
    (h.2.2.2.2.1 _ _ _ (createInput sampleDatabaseData sampleResource)
      (readInput sampleDatabaseData sampleResource)
      (deleteInput sampleDatabaseData sampleResource)
      (rfl : resourceResourceLFTagsCreate sampleEnvOk sampleDatabaseData = .ok _)
      (rfl : resourceResourceLFTagsRead sampleEnvOk sampleDatabaseData = .ok _)
      (rfl : resourceResourceLFTagsDelete sampleEnvOk sampleDatabaseData = .ok _)
      (List.Mem.head _) (List.Mem.head _) (List.Mem.head _)).2.2.2.2.2.1⟩

/-- C22: read changes at most the attribute `lf_tag`: when it returns an error
diagnostic (dispatch error, remote error, set error) the resource data is
unchanged; otherwise `lf_tag` holds what `d.Set` stores for the dispatched
tagger's `FlattenTags` of the response (that very list when the writer stores
what it is given), and the ID and every other attribute are unchanged. -/
theorem read_changes_only_lf_tag (env : Env) (d : ResourceData) (out : Outcome)
    (h : resourceResourceLFTagsRead env d = .ok out) :
    out.d.id = d.id ∧ out.d.catalog_id = d.catalog_id ∧ out.d.database = d.database ∧
    out.d.table = d.table ∧ out.d.table_with_columns = d.table_with_columns ∧
    out.d.timeoutCreate = d.timeoutCreate ∧ out.d.timeoutDelete = d.timeoutDelete ∧
    (Diagnostics.HasError out.diags = true → out.d = d) ∧
    (Diagnostics.HasError out.diags = false →
      ∃ t resource o l, (lfTagsTagger d).1 = some t ∧ t.ExpandResource env d = .ok resource ∧
        env.GetResourceLFTagsWithContext (readInput d resource) = .ok (some o) ∧
        env.Set_lf_tag (t.FlattenTags o) = .ok l ∧
        out.d = { d with lf_tag := l } ∧
        (env.Set_lf_tag (t.FlattenTags o) = .ok (Slice.toList (t.FlattenTags o)) →
          out.d.lf_tag = Slice.toList (t.FlattenTags o))) := by
  cases hd : Diagnostics.HasError (lfTagsTagger d).2 with
  | true =>
    unfold resourceResourceLFTagsRead at h
    simp only [List.nil_append, hd, if_true, Except.ok.injEq] at h
    subst h
    simp [hd]
  | false =>
    have hnil := lfTagsTagger_diags_nil d hd
    cases ht : (lfTagsTagger d).1 with
    | none =>
      unfold resourceResourceLFTagsRead at h
      simp [hd, ht] at h
    | some t =>
      cases hr : t.ExpandResource env d with
      | error p =>
        unfold resourceResourceLFTagsRead at h
        simp [hd, ht, hr] at h
      | ok resource =>
        rw [read_eq env d t resource hd ht hr, hnil] at h
        cases hg : env.GetResourceLFTagsWithContext (readInput d resource) with
        | error e =>
          rw [hg] at h
          simp only [List.nil_append, Except.ok.injEq] at h
          subst h
          simp [Diagnostics.HasError, Diagnostic.severity]
        | ok output =>
          rw [hg] at h
          cases output with
          | none => simp [callFlattenTags] at h
          | some o =>
            simp only [callFlattenTags] at h
            cases hs : env.Set_lf_tag (t.FlattenTags o) with
            | error e =>
              rw [hs] at h
              simp only [List.nil_append, Except.ok.injEq] at h
              subst h
              simp [Diagnostics.HasError, Diagnostic.severity]
            | ok l =>
              rw [hs] at h
              simp only [Except.ok.injEq] at h
              subst h
              refine ⟨rfl, rfl, rfl, rfl, rfl, rfl, rfl, ?_, ?_⟩
              · intro hc
                simp [Diagnostics.HasError] at hc
              · intro _
                refine ⟨t, resource, o, l, rfl, hr, hg, hs, rfl, ?_⟩
                intro hw
                rw [hs] at hw
                simp only [Except.ok.injEq] at hw
                exact hw

/-- Witness of C22: in the sample environment that answers the sample
response, read of the created sample configuration replaces `lf_tag` by the
flattened database tags and keeps the ID. -/
theorem read_changes_only_lf_tag_witness :
    ∃ out, resourceResourceLFTagsRead
        (sampleEnv (fun _ => .ok none) (.ok (some sampleGetOutput)) (fun _ => .ok ()))
        sampleCreatedData = .ok out ∧
      out.d.id = "1234567890" ∧ out.d.database = sampleCreatedData.database ∧
      out.d.lf_tag = Slice.toList (flattenLFTagPairs sampleGetOutput.LFTagOnDatabase) :=
  ⟨_, rfl,
    (read_changes_only_lf_tag
      (sampleEnv (fun _ => .ok none) (.ok (some sampleGetOutput)) (fun _ => .ok ()))
      sampleCreatedData _ rfl).1,
    (read_changes_only_lf_tag
      (sampleEnv (fun _ => .ok none) (.ok (some sampleGetOutput)) (fun _ => .ok ()))
      sampleCreatedData _ rfl).2.2.1,
    rfl⟩

/-- C23: the resource ID is not interpreted by the handlers: for two states
that differ only in the resource ID, read issues the same remote calls with
the same requests, and so does delete. -/
theorem id_is_opaque (env : Env) (d : ResourceData) (id : String) :
    Except.map (fun o => o.calls) (resourceResourceLFTagsRead env (d.SetId id)) =
      Except.map (fun o => o.calls) (resourceResourceLFTagsRead env d) ∧
    Except.map (fun o => o.calls) (resourceResourceLFTagsDelete env (d.SetId id)) =
      Except.map (fun o => o.calls) (resourceResourceLFTagsDelete env d) := by
  have htag : lfTagsTagger (d.SetId id) = lfTagsTagger d := rfl
  refine ⟨?_, ?_⟩
  · cases hd : Diagnostics.HasError (lfTagsTagger d).2 with
    | true =>
      have hd2 : Diagnostics.HasError (lfTagsTagger (d.SetId id)).2 = true := hd
      unfold resourceResourceLFTagsRead
      simp [hd, hd2, Except.map]
    | false =>
      have hd2 : Diagnostics.HasError (lfTagsTagger (d.SetId id)).2 = false := hd
      cases ht : (lfTagsTagger d).1 with
      | none =>
        have ht2 : (lfTagsTagger (d.SetId id)).1 = none := ht
        unfold resourceResourceLFTagsRead
        simp [hd, hd2, ht, ht2, Except.map]
      | some t =>
        have ht2 : (lfTagsTagger (d.SetId id)).1 = some t := ht
        cases hr : t.ExpandResource env d with
        | error p =>
          have hr2 : t.ExpandResource env (d.SetId id) = .error p := by
            rw [← hr]; cases t <;> rfl
          unfold resourceResourceLFTagsRead
          simp [hd, hd2, ht, ht2, hr, hr2, Except.map]
        | ok resource =>
          have hr2 : t.ExpandResource env (d.SetId id) = .ok resource := by
            rw [← hr]; cases t <;> rfl
          have hin : readInput (d.SetId id) resource = readInput d resource := rfl
          rw [read_eq env d t resource hd ht hr,
            read_eq env (d.SetId id) t resource hd2 ht2 hr2, hin]
          cases hg : env.GetResourceLFTagsWithContext (readInput d resource) with
          | error e => rfl
          | ok output =>
            dsimp only
            cases hf : callFlattenTags t output with
            | error p => rfl
            | ok v =>
              dsimp only
              cases hs : env.Set_lf_tag v with
              | error e => rfl
              | ok l => rfl
  · cases hd : Diagnostics.HasError (lfTagsTagger d).2 with
    | true =>
      have hd2 : Diagnostics.HasError (lfTagsTagger (d.SetId id)).2 = true := hd
      unfold resourceResourceLFTagsDelete
      simp [hd, hd2, Except.map]
    | false =>
      have hd2 : Diagnostics.HasError (lfTagsTagger (d.SetId id)).2 = false := hd
      cases hr : callExpandResource env (lfTagsTagger d).1 d with
      | error p =>
        have hr2 : callExpandResource env (lfTagsTagger (d.SetId id)).1 (d.SetId id) =
            .error p := by
          rw [← hr, htag]
          cases (lfTagsTagger d).1 with
          | none => rfl
          | some t => cases t <;> rfl
        unfold resourceResourceLFTagsDelete
        simp [hd, hd2, hr, hr2, Except.map]
      | ok resource =>
        have hr2 : callExpandResource env (lfTagsTagger (d.SetId id)).1 (d.SetId id) =
            .ok resource := by
          rw [← hr, htag]
          cases (lfTagsTagger d).1 with
          | none => rfl
          | some t => cases t <;> rfl
        have hin : deleteInput (d.SetId id) resource = deleteInput d resource := rfl
        have hl : requestLFTags (d.SetId id) = requestLFTags d := rfl
        have hrem : removeLFTagsWithRetry env (d.SetId id) (deleteInput d resource) =
            removeLFTagsWithRetry env d (deleteInput d resource) := rfl
        rw [delete_eq env d resource hd hr, delete_eq env (d.SetId id) resource hd2 hr2, hin,
          hl, hrem]
        split
        · rfl
        · cases hs : removeLFTagsWithRetry env d (deleteInput d resource) with
          | mk calls err => cases err <;> rfl

/-- C24, the code at the failing input: with every tagging attempt meeting a
concurrent modification, the retry loop of create stops after the two
attempts that fit in `IAMPropagationTimeout` (three calls with the one after
the timeout), for the default create timeout of twenty minutes as for a
configured one of forty, while the retry loop of delete makes the twenty
attempts that fit in the delete timeout (twenty-one calls). -/
theorem create_ignores_create_timeout :
    sampleDatabaseData.Timeout .TimeoutCreate = 20 * Minute ∧
    sampleDataLongCreate.Timeout .TimeoutCreate = 40 * Minute ∧
    sampleEnvAlwaysBusy.attemptsWithin (sampleDatabaseData.Timeout .TimeoutCreate) = 20 ∧
    sampleEnvAlwaysBusy.attemptsWithin (sampleDataLongCreate.Timeout .TimeoutCreate) = 40 ∧
    sampleEnvAlwaysBusy.attemptsWithin sampleEnvAlwaysBusy.IAMPropagationTimeout = 2 ∧
    (resourceResourceLFTagsCreate sampleEnvAlwaysBusy sampleDatabaseData).map
      (fun o => o.calls.length) = .ok 3 ∧
    (resourceResourceLFTagsCreate sampleEnvAlwaysBusy sampleDataLongCreate).map
      (fun o => o.calls.length) = .ok 3 ∧
    sampleEnvAlwaysBusy.attemptsWithin (sampleDatabaseData.Timeout .TimeoutDelete) = 20 ∧
    (resourceResourceLFTagsDelete sampleEnvAlwaysBusy sampleDatabaseData).map
      (fun o => o.calls.length) = .ok 21 :=
  ⟨rfl, rfl, rfl, rfl, rfl, rfl, rfl, rfl, rfl⟩

/-- A retry loop whose closure returns nil at its first attempt ends with nil
in the state that attempt leaves. -/
theorem loop_ends_on_nil (σ : Type) (f : σ → σ × Option RetryError) (n : Nat) (s : σ)
    (h : (f s).2 = none) : RetryContext.loop f (n + 1) s = (none, (f s).1) := by
  cases hf : f s with
  | mk s' r =>
    rw [hf] at h
    simp only at h
    simp [RetryContext.loop, hf, h]

/-- C4: in create and in delete the retry closure issues the remote call and
marks its error as retryable if and only if it is on the allow-list (code
ConcurrentModificationException, or code AccessDeniedException with a message
containing "is not authorized"); every other error is marked non-retryable
and ends the loop of the handler at once; create and delete mark the same
errors as retryable; and a nil error makes the closure return nil, which ends
the loop with nil. -/
theorem retry_classification (env : Env) (d : ResourceData) (resource : Option Resource)
    (input : AddLFTagsToResourceInput) (dinput : RemoveLFTagsFromResourceInput)
    (s : CreateVars) (cs : List Call) (e : RemoteError) :
    (env.AddLFTagsToResourceWithContext s.calls.length input = .error e →
      createRetryFunc env input s =
        ({ output := none, calls := s.calls ++ [.AddLFTagsToResource input] },
          some { Err := .vendor e, Retryable := decide (onAllowList e) }) ∧
      ((createRetryFunc env input s).2.map (fun r => r.Retryable) = some true ↔
        onAllowList e)) ∧
    (∀ o, env.AddLFTagsToResourceWithContext s.calls.length input = .ok o →
      createRetryFunc env input s =
        ({ output := o, calls := s.calls ++ [.AddLFTagsToResource input] }, none) ∧
      ∀ n, RetryContext.loop (createRetryFunc env input) (n + 1) s =
        (none, { output := o, calls := s.calls ++ [.AddLFTagsToResource input] })) ∧
    (env.RemoveLFTagsFromResourceWithContext cs.length dinput = .error e →
      deleteRetryFunc env dinput cs =
        (cs ++ [.RemoveLFTagsFromResource dinput],
          some { Err := if onAllowList e then .vendor e
                        else .wrapf "removing Lake Formation LF-Tags" (.vendor e)
                 Retryable := decide (onAllowList e) }) ∧
      ((deleteRetryFunc env dinput cs).2.map (fun r => r.Retryable) = some true ↔
        onAllowList e)) ∧
    (env.RemoveLFTagsFromResourceWithContext cs.length dinput = .ok () →
      deleteRetryFunc env dinput cs = (cs ++ [.RemoveLFTagsFromResource dinput], none) ∧
      ∀ n, RetryContext.loop (deleteRetryFunc env dinput) (n + 1) cs =
        (none, cs ++ [.RemoveLFTagsFromResource dinput])) ∧
    (env.AddLFTagsToResourceWithContext s.calls.length input = .error e →
      env.RemoveLFTagsFromResourceWithContext cs.length dinput = .error e →
      (createRetryFunc env input s).2.map (fun r => r.Retryable) =
        (deleteRetryFunc env dinput cs).2.map (fun r => r.Retryable)) ∧
    (0 < env.attemptsWithin env.IAMPropagationTimeout →
      env.AddLFTagsToResourceWithContext 0 input = .error e → ¬ onAllowList e →
      addLFTagsWithRetry env input =
        ({ output := none, calls := [.AddLFTagsToResource input] }, some (.vendor e))) ∧
    (1 < env.attemptsWithin env.IAMPropagationTimeout →
      env.AddLFTagsToResourceWithContext 0 input = .error e → onAllowList e →
      ∀ o, env.AddLFTagsToResourceWithContext 1 input = .ok o →
        addLFTagsWithRetry env input =
          ({ output := o
             calls := [.AddLFTagsToResource input, .AddLFTagsToResource input] }, none)) ∧
    (0 < env.attemptsWithin (d.Timeout .TimeoutDelete) →
      env.RemoveLFTagsFromResourceWithContext 0 dinput = .error e → ¬ onAllowList e →
      removeLFTagsWithRetry env d dinput =
        ([.RemoveLFTagsFromResource dinput],
          some (.wrapf "removing Lake Formation LF-Tags" (.vendor e)))) ∧
    (1 < env.attemptsWithin (d.Timeout .TimeoutDelete) →
      env.RemoveLFTagsFromResourceWithContext 0 dinput = .error e → onAllowList e →
      env.RemoveLFTagsFromResourceWithContext 1 dinput = .ok () →
      removeLFTagsWithRetry env d dinput =
        ([.RemoveLFTagsFromResource dinput, .RemoveLFTagsFromResource dinput], none)) ∧
    (Diagnostics.HasError (lfTagsTagger d).2 = false →
      callExpandResource env (lfTagsTagger d).1 d = .ok resource →
      env.AddLFTagsToResourceWithContext 0 (createInput d resource) = .error e →
      ¬ onAllowList e →
      resourceResourceLFTagsCreate env d =
        .ok { d := d
              diags := [.addError .Creating ResNameLFTags
                (env.inputString (createInput d resource)) (.vendor e)]
              calls := [.AddLFTagsToResource (createInput d resource)] }) ∧
    (Diagnostics.HasError (lfTagsTagger d).2 = false →
      callExpandResource env (lfTagsTagger d).1 d = .ok resource →
      ¬ (resource = none ∨ resource = some {} ∨ Slice.len (requestLFTags d) = 0) →
      1 < env.attemptsWithin (d.Timeout .TimeoutDelete) →
      env.RemoveLFTagsFromResourceWithContext 0 (deleteInput d resource) = .error e →
      onAllowList e →
      env.RemoveLFTagsFromResourceWithContext 1 (deleteInput d resource) = .ok () →
      resourceResourceLFTagsDelete env d =
        .ok { d := d
              diags := []
              calls := [.RemoveLFTagsFromResource (deleteInput d resource),
                .RemoveLFTagsFromResource (deleteInput d resource)] }) ∧
    ((createRetryResult (some (.vendor e))).map (fun r => r.Retryable) = some true ↔
      onAllowList e) ∧
    ((deleteRetryResult (some (.vendor e))).map (fun r => r.Retryable) = some true ↔
      onAllowList e) ∧
    (¬ onAllowList e →
      (createRetryResult (some (.vendor e))).map (fun r => r.Retryable) = some false ∧
      (deleteRetryResult (some (.vendor e))).map (fun r => r.Retryable) = some false) ∧
    (createRetryResult (some (.vendor e))).map (fun r => r.Retryable) =
      (deleteRetryResult (some (.vendor e))).map (fun r => r.Retryable) ∧
    createRetryResult none = none ∧ deleteRetryResult none = none ∧
    (∀ (σ : Type) (f : σ → σ × Option RetryError) (n : Nat) (s : σ),
      (f s).2 = none → RetryContext.loop f (n + 1) s = (none, (f s).1)) := by
  obtain ⟨hc, hdl⟩ := retryResult_vendor e
  have hremove2 : 1 < env.attemptsWithin (d.Timeout .TimeoutDelete) →
      ∀ dinput : RemoveLFTagsFromResourceInput,
      env.RemoveLFTagsFromResourceWithContext 0 dinput = .error e → onAllowList e →
      env.RemoveLFTagsFromResourceWithContext 1 dinput = .ok () →
      removeLFTagsWithRetry env d dinput =
        ([.RemoveLFTagsFromResource dinput, .RemoveLFTagsFromResource dinput], none) := by
    intro hn dinput h0 hA h1
    have := removeLFTagsWithRetry_stop env d dinput 1 hn
      (fun i hi => by
        have hi0 : i = 0 := by omega
        subst hi0
        exact ⟨e, h0, hA⟩)
      (fun e' he' => by rw [h1] at he'; cases he')
    rw [this, h1]
    rfl
  refine ⟨?_, ?_, ?_, ?_, ?_, ?_, ?_, ?_, fun hn => hremove2 hn dinput, ?_, ?_, ?_, ?_, ?_, ?_,
    rfl, rfl, loop_ends_on_nil⟩
  · intro h
    have hf : createRetryFunc env input s =
        ({ output := none, calls := s.calls ++ [.AddLFTagsToResource input] },
          some { Err := .vendor e, Retryable := decide (onAllowList e) }) := by
      simp [createRetryFunc, callAddLFTagsToResource, h, hc]
    refine ⟨hf, ?_⟩
    rw [hf]
    simp
  · intro o h
    have hf : createRetryFunc env input s =
        ({ output := o, calls := s.calls ++ [.AddLFTagsToResource input] }, none) := by
      simp [createRetryFunc, callAddLFTagsToResource, h, createRetryResult]
    refine ⟨hf, fun n => ?_⟩
    rw [loop_ends_on_nil CreateVars _ n s (by rw [hf]), hf]
  · intro h
    have hf : deleteRetryFunc env dinput cs =
        (cs ++ [.RemoveLFTagsFromResource dinput],
          some { Err := if onAllowList e then .vendor e
                        else .wrapf "removing Lake Formation LF-Tags" (.vendor e)
                 Retryable := decide (onAllowList e) }) := by
      simp [deleteRetryFunc, callRemoveLFTagsFromResource, h, hdl]
    refine ⟨hf, ?_⟩
    rw [hf]
    simp
  · intro h
    have hf : deleteRetryFunc env dinput cs =
        (cs ++ [.RemoveLFTagsFromResource dinput], none) := by
      simp [deleteRetryFunc, callRemoveLFTagsFromResource, h, deleteRetryResult]
    refine ⟨hf, fun n => ?_⟩
    rw [loop_ends_on_nil (List Call) _ n cs (by rw [hf]), hf]
  · intro h1 h2
    rw [createRetryFunc_error env input s e h1, deleteRetryFunc_error env dinput cs e h2]
    rfl
  · intro hn h0 hA
    have := addLFTagsWithRetry_stop env input 0 hn (fun i hi => by omega)
      (fun e' he' => by rw [h0] at he'; cases he'; exact hA)
    rw [this]
    simp [callAddLFTagsToResource, h0]
  · intro hn h0 hA o h1
    have := addLFTagsWithRetry_stop env input 1 hn
      (fun i hi => by
        have hi0 : i = 0 := by omega
        subst hi0
        exact ⟨e, h0, hA⟩)
      (fun e' he' => by rw [h1] at he'; cases he')
    rw [this]
    simp [callAddLFTagsToResource, h1]
  · intro hn h0 hA
    have := removeLFTagsWithRetry_stop env d dinput 0 hn (fun i hi => by omega)
      (fun e' he' => by rw [h0] at he'; cases he'; exact hA)
    rw [this, h0]
    rfl
  · intro hd hr he hA
    exact create_fatal env d resource e hd hr hA he
  · intro hd hr hg hn h0 hA h1
    rw [delete_eq env d resource hd hr, if_neg hg,
      hremove2 hn (deleteInput d resource) h0 hA h1, lfTagsTagger_diags_nil d hd]
  · rw [hc]; simp
  · rw [hdl]; simp
  · intro h; rw [hc, hdl]; simp [h]
  · rw [hc, hdl]
    rfl

/-- Witness of C4: in the sample environment that denies the first attempt
with "is not authorized", the closure of create issues the call and returns a
retryable error, and delete retries once and succeeds with two calls. -/
theorem retry_classification_witness :
    createRetryFunc sampleEnvDeniedOnce (createInput sampleCreatedData sampleResource)
        { output := none, calls := [] } =
      ({ output := none
         calls := [.AddLFTagsToResource (createInput sampleCreatedData sampleResource)] },
        some { Err := .vendor (.aws "AccessDeniedException"
                 "User is not authorized to perform the action")
               Retryable := true }) ∧
    resourceResourceLFTagsDelete sampleEnvDeniedOnce sampleCreatedData =
      .ok { d := sampleCreatedData
            diags := []
            calls := [.RemoveLFTagsFromResource (deleteInput sampleCreatedData sampleResource),
              .RemoveLFTagsFromResource (deleteInput sampleCreatedData sampleResource)] } ∧
    (createRetryFunc sampleEnvDeniedOnce (createInput sampleCreatedData sampleResource)
        { output := none, calls := [] }).2.map (fun r => r.Retryable) = some true ∧
    (deleteRetryFunc sampleEnvDeniedOnce (deleteInput sampleCreatedData sampleResource)
        []).2.map (fun r => r.Retryable) = some true ∧
    (resourceResourceLFTagsDelete sampleEnvDeniedOnce sampleCreatedData).map
      (fun o => o.calls.length) = .ok 2 :=
  have h := retry_classification sampleEnvDeniedOnce sampleCreatedData sampleResource
    (createInput sampleCreatedData sampleResource)
    (deleteInput sampleCreatedData sampleResource)
    { output := none, calls := [] } []
    (.aws "AccessDeniedException" "User is not authorized to perform the action")
  ⟨(h.1 rfl).1, h.2.2.2.2.2.2.2.2.2.2.1 rfl rfl (by decide) (by decide) rfl (by decide) rfl,
    rfl, rfl, rfl⟩

end LakeFormation

namespace APIGateway

/-- C12: for every state that holds the named resource,
`testAccIntegrationImportStateIdFunc` returns, without error, the ID
rest_api_id/resource_id/http_method built from the attributes of that
resource; for every state that does not hold it, it returns the empty string
and the error "Not found: <name>". -/
theorem importStateIdFunc_spec (resourceName : String) (s : State) :
    (∀ rs, s.resource resourceName = some rs →
      testAccIntegrationImportStateIdFunc resourceName s =
        (rs.Primary.attr "rest_api_id" ++ "/" ++ rs.Primary.attr "resource_id" ++ "/" ++
          rs.Primary.attr "http_method", none)) ∧
    (s.resource resourceName = none →
      testAccIntegrationImportStateIdFunc resourceName s =
        ("", some ("Not found: " ++ resourceName))) ∧
    ((testAccIntegrationImportStateIdFunc resourceName s).2 = none ↔
      ∃ rs, s.resource resourceName = some rs) := by
  refine ⟨?_, ?_, ?_⟩
  · intro rs h
    simp [testAccIntegrationImportStateIdFunc, h]
  · intro h
    simp [testAccIntegrationImportStateIdFunc, h]
  · cases h : s.resource resourceName with
    | none => simp [testAccIntegrationImportStateIdFunc, h]
    | some rs => simp [testAccIntegrationImportStateIdFunc, h]

/-- Witness of C12: the import ID of the resource of the sample state, and the
error for a name the state does not hold. -/
theorem importStateIdFunc_spec_witness :
    testAccIntegrationImportStateIdFunc "aws_api_gateway_integration.test" sampleState =
      ("abc123/res456/GET", none) ∧
    testAccIntegrationImportStateIdFunc "aws_api_gateway_integration.other" sampleState =
      ("", some "Not found: aws_api_gateway_integration.other") :=
  ⟨((importStateIdFunc_spec "aws_api_gateway_integration.test" sampleState).1 _ rfl).trans rfl,
    ((importStateIdFunc_spec "aws_api_gateway_integration.other" sampleState).2.1 rfl).trans
      rfl⟩

/-- C13: a configuration that does not set `timeout_milliseconds` gives the
state the value 29000, a configuration that sets it gives the configured
value; with these values every check on `timeout_milliseconds` of
`TestAccAPIGatewayIntegration_basic` holds. -/
theorem timeoutMilliseconds_default (c : IntegrationConfig) :
    (c.timeout_milliseconds = none → stateTimeoutMilliseconds c = 29000) ∧
    (∀ n, c.timeout_milliseconds = some n → stateTimeoutMilliseconds c = n) ∧
    (∀ step ∈ basicTestSteps, toString (stateTimeoutMilliseconds step.1) = step.2) := by
  refine ⟨?_, ?_, ?_⟩
  · intro h
    simp [stateTimeoutMilliseconds, h]
  · intro n h
    simp [stateTimeoutMilliseconds, h]
  · decide

/-- Witness of C13: the basic configuration gives 29000 and the updated
configuration, which sets 2000, gives 2000. -/
theorem timeoutMilliseconds_default_witness :
    stateTimeoutMilliseconds testAccIntegrationConfig_basic = 29000 ∧
    stateTimeoutMilliseconds testAccIntegrationConfig_update = 2000 :=
  ⟨(timeoutMilliseconds_default testAccIntegrationConfig_basic).1 rfl,
    (timeoutMilliseconds_default testAccIntegrationConfig_update).2.1 2000 rfl⟩


/-- The loop of the destroy check over a list of resources: it ends without
error exactly when every integration among them is reported not-found; it
looks up integrations only; and an error it returns is the error of a lookup
that failed otherwise, or "still exists" for a lookup that succeeded. -/
theorem destroy_loop_spec (env : DestroyEnv) (l : List (String × ResourceState)) :
    ((testAccCheckIntegrationDestroy.loop env l).1 = none ↔
      ∀ p ∈ l, isIntegration p.2 → lookupNotFound env p.2) ∧
    (∀ k ∈ (testAccCheckIntegrationDestroy.loop env l).2,
      ∃ p ∈ l, isIntegration p.2 ∧ k = lookupKey p.2) ∧
    (∀ err, (testAccCheckIntegrationDestroy.loop env l).1 = some err →
      ∃ p ∈ l, isIntegration p.2 ∧
        ((env.FindIntegrationByThreePartKey (p.2.Primary.attr "http_method")
            (p.2.Primary.attr "resource_id") (p.2.Primary.attr "rest_api_id") = .ok () ∧
          err = .stillExists
            ("API Gateway Integration " ++ p.2.Primary.ID ++ " still exists")) ∨
        (∃ e, env.FindIntegrationByThreePartKey (p.2.Primary.attr "http_method")
            (p.2.Primary.attr "resource_id") (p.2.Primary.attr "rest_api_id") = .error e ∧
          env.NotFound e = false ∧ err = .lookup e))) := by
  induction l with
  | nil => simp [testAccCheckIntegrationDestroy.loop]
  | cons q rest ih =>
    obtain ⟨name, rs⟩ := q
    obtain ⟨ih1, ih2, ih3⟩ := ih
    by_cases ht : rs.Type_ = "aws_api_gateway_integration"
    · cases hf : env.FindIntegrationByThreePartKey (rs.Primary.attr "http_method")
          (rs.Primary.attr "resource_id") (rs.Primary.attr "rest_api_id") with
      | ok u =>
        cases u
        refine ⟨?_, ?_, ?_⟩
        · simp only [testAccCheckIntegrationDestroy.loop, ht, ne_eq, not_true_eq_false,
            if_false, hf]
          constructor
          · intro h; cases h
          · intro h
            obtain ⟨e, he, _⟩ := h (name, rs) (List.mem_cons_self _ _) ht
            rw [hf] at he
            cases he
        · intro k hk
          simp only [testAccCheckIntegrationDestroy.loop, ht, ne_eq, not_true_eq_false,
            if_false, hf, List.mem_singleton] at hk
          exact ⟨(name, rs), List.mem_cons_self _ _, ht, hk⟩
        · intro err herr
          simp only [testAccCheckIntegrationDestroy.loop, ht, ne_eq, not_true_eq_false,
            if_false, hf, Option.some.injEq] at herr
          exact ⟨(name, rs), List.mem_cons_self _ _, ht, Or.inl ⟨hf, herr.symm⟩⟩
      | error e =>
        cases hn : env.NotFound e with
        | true =>
          refine ⟨?_, ?_, ?_⟩
          · simp only [testAccCheckIntegrationDestroy.loop, ht, ne_eq, not_true_eq_false,
              if_false, hf, hn, if_true]
            rw [ih1]
            constructor
            · intro h p hp hi
              rcases List.mem_cons.mp hp with rfl | hp
              · exact ⟨e, hf, hn⟩
              · exact h p hp hi
            · intro h p hp hi
              exact h p (List.mem_cons_of_mem _ hp) hi
          · intro k hk
            simp only [testAccCheckIntegrationDestroy.loop, ht, ne_eq, not_true_eq_false,
              if_false, hf, hn, if_true, List.mem_cons] at hk
            rcases hk with rfl | hk
            · exact ⟨(name, rs), List.mem_cons_self _ _, ht, rfl⟩
            · obtain ⟨p, hp, hi, hkp⟩ := ih2 k hk
              exact ⟨p, List.mem_cons_of_mem _ hp, hi, hkp⟩
          · intro err herr
            simp only [testAccCheckIntegrationDestroy.loop, ht, ne_eq, not_true_eq_false,
              if_false, hf, hn, if_true] at herr
            obtain ⟨p, hp, hi, h⟩ := ih3 err herr
            exact ⟨p, List.mem_cons_of_mem _ hp, hi, h⟩
        | false =>
          refine ⟨?_, ?_, ?_⟩
          · simp only [testAccCheckIntegrationDestroy.loop, ht, ne_eq, not_true_eq_false,
              if_false, hf, hn]
            constructor
            · intro h; simp at h
            · intro h
              obtain ⟨e2, he2, hn2⟩ := h (name, rs) (List.mem_cons_self _ _) ht
              rw [hf] at he2
              cases he2
              rw [hn] at hn2
              cases hn2
          · intro k hk
            simp only [testAccCheckIntegrationDestroy.loop, ht, ne_eq, not_true_eq_false,
              if_false, hf, hn, Bool.false_eq_true, List.mem_singleton] at hk
            exact ⟨(name, rs), List.mem_cons_self _ _, ht, hk⟩
          · intro err herr
            simp only [testAccCheckIntegrationDestroy.loop, ht, ne_eq, not_true_eq_false,
              if_false, hf, hn, Bool.false_eq_true, Option.some.injEq] at herr
            exact ⟨(name, rs), List.mem_cons_self _ _, ht, Or.inr ⟨e, hf, hn, herr.symm⟩⟩
    · have hloop : testAccCheckIntegrationDestroy.loop env ((name, rs) :: rest) =
          testAccCheckIntegrationDestroy.loop env rest := by
        simp [testAccCheckIntegrationDestroy.loop, ht]
      rw [hloop]
      refine ⟨?_, ?_, ?_⟩
      · rw [ih1]
        constructor
        · intro h p hp hi
          rcases List.mem_cons.mp hp with rfl | hp
          · exact absurd hi ht
          · exact h p hp hi
        · intro h p hp hi
          exact h p (List.mem_cons_of_mem _ hp) hi
      · intro k hk
        obtain ⟨p, hp, hi, hkp⟩ := ih2 k hk
        exact ⟨p, List.mem_cons_of_mem _ hp, hi, hkp⟩
      · intro err herr
        obtain ⟨p, hp, hi, h⟩ := ih3 err herr
        exact ⟨p, List.mem_cons_of_mem _ hp, hi, h⟩

/-- C26: `testAccCheckIntegrationDestroy` returns nil if and only if the
lookup of every resource of type aws_api_gateway_integration in the state
reports not-found; an error it returns is "API Gateway Integration ... still
exists" for a lookup that succeeded or the error of a lookup that failed
otherwise; and resources of any other type are never looked up. -/
theorem integrationDestroy_spec (env : DestroyEnv) (s : State) :
    ((testAccCheckIntegrationDestroy env s).1 = none ↔
      ∀ p ∈ s.Resources, isIntegration p.2 → lookupNotFound env p.2) ∧
    (∀ k ∈ (testAccCheckIntegrationDestroy env s).2,
      ∃ p ∈ s.Resources, isIntegration p.2 ∧ k = lookupKey p.2) ∧
    (∀ err, (testAccCheckIntegrationDestroy env s).1 = some err →
      ∃ p ∈ s.Resources, isIntegration p.2 ∧
        ((env.FindIntegrationByThreePartKey (p.2.Primary.attr "http_method")
            (p.2.Primary.attr "resource_id") (p.2.Primary.attr "rest_api_id") = .ok () ∧
          err = .stillExists
            ("API Gateway Integration " ++ p.2.Primary.ID ++ " still exists")) ∨
        (∃ e, env.FindIntegrationByThreePartKey (p.2.Primary.attr "http_method")
            (p.2.Primary.attr "resource_id") (p.2.Primary.attr "rest_api_id") = .error e ∧
          env.NotFound e = false ∧ err = .lookup e))) :=
  destroy_loop_spec env s.Resources

/-- Witness of C26: in the sample environment the check of the state whose
integration is gone returns nil after one lookup, and the check of the state
whose integration is still there does not return nil. -/
theorem integrationDestroy_spec_witness :
    testAccCheckIntegrationDestroy sampleDestroyEnv sampleStateDestroyed =
      (none, [{ httpMethod := "GET", resourceID := "res456", apiID := "xyz789" }]) ∧
    (testAccCheckIntegrationDestroy sampleDestroyEnv sampleState).1 ≠ none :=
  ⟨rfl, fun h =>
    ((integrationDestroy_spec sampleDestroyEnv sampleState).1.mp h
      _ (List.mem_singleton.mpr rfl) rfl).elim fun e he => by
        have h1 : (Except.ok () : Except String Unit) = Except.error e := he.1
        cases h1⟩

end APIGateway

namespace AppRunner

/-- The destroy check returns nil for every state without a resource of type
aws_apprunner_connection, whatever the remote service holds. -/
theorem destroy_loop_skips (env : DestroyEnv) (l : List (String × APIGateway.ResourceState))
    (h : ∀ p ∈ l, p.2.Type_ ≠ "aws_apprunner_connection") :
    testAccCheckCustomDomainAssociationDestroy.loop env l = none := by
  induction l with
  | nil => rfl
  | cons q rest ih =>
    obtain ⟨name, rs⟩ := q
    have ht : rs.Type_ ≠ "aws_apprunner_connection" := h (name, rs) (List.mem_cons_self _ _)
    simp only [testAccCheckCustomDomainAssociationDestroy.loop, ht, ne_eq, not_false_eq_true,
      if_true]
    exact ih (fun p hp => h p (List.mem_cons_of_mem _ hp))

/-- C25, the code at the failing input: the state left by the test holds a
resource of type aws_apprunner_custom_domain_association whose custom domain
is still found remotely, and `testAccCheckCustomDomainAssociationDestroy`
returns nil, because it looks only at resources of type
aws_apprunner_connection. -/
theorem customDomainDestroy_misses_association :
    (∃ p ∈ sampleState.Resources,
      p.2.Type_ = "aws_apprunner_custom_domain_association" ∧
      ∃ domainName serviceArn customDomain,
        sampleDestroyEnv.CustomDomainAssociationParseID p.2.Primary.ID =
          .ok (domainName, serviceArn) ∧
        sampleDestroyEnv.FindCustomDomain domainName serviceArn = .ok (some customDomain)) ∧
    testAccCheckCustomDomainAssociationDestroy sampleDestroyEnv sampleState = none :=
  ⟨⟨_, List.mem_cons_of_mem _ (List.mem_singleton.mpr rfl), rfl,
      "example.com", "arn:aws:apprunner:us-east-1:123456789012:service/test/abc",
      "example.com", rfl, rfl⟩,
    destroy_loop_skips sampleDestroyEnv sampleState.Resources (by decide)⟩

end AppRunner
